import Mathlib

/-!
# mavalloc: a region-list arena allocator

Shallow embedding of `src/mavalloc.c` (LP64: `int` is 32 bits, `size_t` and pointers are
64 bits) and the properties of its region list.

* The static array `LinkedList[MAX_LINKED_LIST_SIZE]` is a map from indices to nodes; every
  access is bounds-checked and an access at an index `≥ MAX_LINKED_LIST_SIZE` is the fault
  `Fault.outOfBounds` (undefined behaviour in C).
* `int` values are mathematical integers, wrapped by `toInt` where the program converts or
  computes; `size_t` values are naturals below `2^64`; pointers are addresses, `0` is `NULL`.
* Counting loops are structural recursions over the number of iterations left.
-/

set_option maxRecDepth 8000

namespace Mavalloc

/-! ## Machine arithmetic -/

/-- The maximum entries in the linked list / array (`#define MAX_LINKED_LIST_SIZE 10000`). -/
def MAX_LINKED_LIST_SIZE : Nat := 10000

/-- The constant `INT_MAX` of `limits.h` for a 32-bit `int`. -/
def INT_MAX : Int := 2147483647

/-- Number of values of `size_t` (and of a pointer): `2^64`. -/
def SIZE_MOD : Nat := 18446744073709551616

/-- Value of an integer after conversion to the 32-bit `int` type (two's complement wrap). -/
def toInt (x : Int) : Int := (x + 2147483648) % 4294967296 - 2147483648

/-- Value of an integer after conversion to `size_t` (reduction modulo `2^64`). -/
def toSizeT (x : Int) : Nat := (x % 18446744073709551616).toNat

/-- Pointer arithmetic `(unsigned char *)p + n` on a flat 64-bit address space. -/
def ptrAdd (p : Nat) (n : Int) : Nat := toSizeT ((p : Int) + n)

/-- Modelled from the spec: the macro `ALIGN4` of the header `mavalloc.h`, which is not among
the sources. The spec says every size passed to `init` or `alloc` "is rounded up to the next
multiple of 4 before use"; the argument and the result are `size_t`, so the rounded value is
taken modulo `2^64`. -/
def ALIGN4 (s : Nat) : Nat := ((s + 3) / 4 * 4) % SIZE_MOD

/-! ## Data model -/

/-- The `enum TYPE` of a node: `H` is a hole, `P` a process allocation. -/
inductive TYPE where
  | H
  | P
  deriving DecidableEq, Repr

/-- Modelled from the spec: the `enum ALGORITHM` of the header `mavalloc.h`, which is not among
the sources; the four placement strategies named by `mavalloc_alloc`. -/
inductive ALGORITHM where
  | FIRST_FIT
  | NEXT_FIT
  | BEST_FIT
  | WORST_FIT
  deriving DecidableEq, Repr

/-- The `struct Node`: one entry of the region list. -/
structure Node where
  in_use : Int
  size : Int
  arena : Nat
  type : TYPE
  deriving DecidableEq, Repr

/-- The value every entry is reset to by `mavalloc_init` and `mavalloc_destroy`. -/
def Node.zero : Node := { in_use := 0, size := 0, arena := 0, type := TYPE.H }

/-- The file-scope variables of `mavalloc.c`. -/
structure State where
  initialized : Int
  lastUsed : Int
  LinkedList : Nat → Node
  gArena : Nat
  alg : ALGORITHM
  lastAlloc : Nat

/-- The variables as the program starts: zero-initialised statics, `lastUsed = -1`. -/
def State.start : State :=
  { initialized := 0, lastUsed := -1, LinkedList := fun _ => Node.zero, gArena := 0,
    alg := ALGORITHM.FIRST_FIT, lastAlloc := 0 }

/-- Ways an execution leaves defined behaviour. -/
inductive Fault where
  | outOfBounds
  | fuel
  deriving DecidableEq, Repr

/-- Array assignment `L[i] = v`. -/
def setNode (L : Nat → Node) (i : Nat) (v : Node) : Nat → Node :=
  fun j => if j = i then v else L j

/-! ## removeNode -/

/-- The shifting loop of `removeNode`: `for (i = prev + 1; i <= lastUsed; i++) L[i] = L[i+1]`,
with `n` iterations left and `i` the loop variable. -/
def removeShift : Nat → Nat → (Nat → Node) → Except Fault (Nat → Node)
  | 0, _, L => .ok L
  | n + 1, i, L =>
    if i + 1 < MAX_LINKED_LIST_SIZE then
      removeShift n (i + 1) (setNode L i (L (i + 1)))
    else .error Fault.outOfBounds

/-- The function `removeNode(prev)`: coalesce the node after `prev` into `prev`, shift the
list, and recurse while a hole was shifted next to `prev`. The first argument bounds the
recursion depth. -/
def removeNode : Nat → State → Nat → Except Fault State
  | 0, _, _ => .error Fault.fuel
  | fuel + 1, s, prev =>
    if prev + 1 < MAX_LINKED_LIST_SIZE then
      let L1 := setNode s.LinkedList prev
        { s.LinkedList prev with
          size := toInt ((s.LinkedList prev).size + (s.LinkedList (prev + 1)).size) }
      match removeShift (s.lastUsed - prev).toNat (prev + 1) L1 with
      | .error e => .error e
      | .ok L2 =>
        let s2 := { s with LinkedList := L2, lastUsed := s.lastUsed - 1 }
        if (L2 (prev + 1)).in_use ≠ 0 ∧ (L2 (prev + 1)).type = TYPE.H then
          removeNode fuel s2 prev
        else .ok s2
    else .error Fault.outOfBounds

/-! ## insertNode -/

/-- The shifting loop of `insertNode`: `for (i = lastUsed; i >= prev; i--) L[i+1] = L[i]`,
with `n` iterations left; the loop variable is `prev + n - 1`. -/
def insertShift (prev : Nat) : Nat → (Nat → Node) → Except Fault (Nat → Node)
  | 0, L => .ok L
  | n + 1, L =>
    if prev + n + 1 < MAX_LINKED_LIST_SIZE then
      insertShift prev n (setNode L (prev + n + 1) (L (prev + n)))
    else .error Fault.outOfBounds

/-- The function `insertNode(size, prev)`: turn the hole at `prev` into a process allocation
of `size`, splitting off the leftover as a new hole after it. -/
def insertNode (s : State) (size : Int) (prev : Nat) : Except Fault State :=
  if (s.initialized ≠ 0 ∧ (prev : Int) < 0) ∨ prev ≥ MAX_LINKED_LIST_SIZE then .ok s
  else if size = (s.LinkedList prev).size then
    .ok { s with LinkedList := setNode s.LinkedList prev { s.LinkedList prev with type := TYPE.P } }
  else if s.lastUsed = -1 then
    .ok { s with
          LinkedList := setNode s.LinkedList 0
            { in_use := 1, size := size, arena := s.gArena, type := TYPE.H },
          lastUsed := 0 }
  else
    let leftover := toInt ((s.LinkedList prev).size - size)
    match insertShift prev (s.lastUsed + 1 - prev).toNat s.LinkedList with
    | .error e => .error e
    | .ok L1 =>
      if prev + 1 < MAX_LINKED_LIST_SIZE then
        let L2 := setNode L1 prev
          { in_use := 1, size := size, arena := (L1 (prev + 1)).arena, type := TYPE.P }
        let new_ptr := ptrAdd (L2 prev).arena size
        let L3 := setNode L2 (prev + 1) { L2 (prev + 1) with size := leftover, arena := new_ptr }
        .ok { s with LinkedList := L3, lastUsed := s.lastUsed + 1 }
      else .error Fault.outOfBounds

/-! ## mavalloc_init and mavalloc_destroy -/

/-- The function `mavalloc_init(size, algorithm)`; `base` is the address returned by the call
`malloc(ALIGN4(size))`, `0` when it fails. Returns the new state and the `int` result. -/
def mavalloc_init (s : State) (size : Nat) (algorithm : ALGORITHM) (base : Nat) : State × Int :=
  if size = 0 then (s, -1)
  else
    let req_size := ALIGN4 size
    if base = 0 then ({ s with gArena := base }, -1)
    else
      let L0 : Nat → Node := fun i => if i < MAX_LINKED_LIST_SIZE then Node.zero else s.LinkedList i
      ({ initialized := 1,
         lastUsed := 0,
         LinkedList := setNode L0 0
           { in_use := 1, size := toInt req_size, arena := base, type := TYPE.H },
         gArena := base,
         alg := algorithm,
         lastAlloc := 0 }, 0)

/-- The function `mavalloc_destroy()`: reset every entry and clear `initialized`. -/
def mavalloc_destroy (s : State) : State :=
  { s with
    LinkedList := fun i => if i < MAX_LINKED_LIST_SIZE then Node.zero else s.LinkedList i,
    initialized := 0 }

/-! ## mavalloc_alloc -/

/-- The test `LinkedList[i].type == H && LinkedList[i].size >= req_size`; the comparison is
made in `size_t`, to which the `int` size is converted. -/
def fits (nd : Node) (req_size : Nat) : Prop := nd.type = TYPE.H ∧ toSizeT nd.size ≥ req_size

instance (nd : Node) (req_size : Nat) : Decidable (fits nd req_size) := by
  unfold fits; infer_instance

/-- The value of `int leftover = LinkedList[i].size - req_size`: a `size_t` difference
converted to `int`. -/
def leftoverOf (nd : Node) (req_size : Nat) : Int :=
  toInt (toSizeT ((toSizeT nd.size : Int) - (req_size : Int)))

/-- The FIRST_FIT loop: `n` iterations left, loop variable `i`; the index of the first hole
that fits, unless the end of the list comes first. -/
def firstFitScan (L : Nat → Node) (req_size : Nat) : Nat → Nat → Option Nat
  | 0, _ => none
  | n + 1, i =>
    if (L i).in_use = 0 then none
    else if fits (L i) req_size then some i
    else firstFitScan L req_size n (i + 1)

/-- The NEXT_FIT loop that finds the index of the last allocation: the last in-use index whose
`arena` is `lastAlloc`, from the accumulator `idx`. -/
def cursorScan (L : Nat → Node) (lastAlloc : Nat) : Nat → Nat → Int → Int
  | 0, _, idx => idx
  | n + 1, i, idx =>
    if (L i).in_use = 0 then idx
    else cursorScan L lastAlloc n (i + 1) (if lastAlloc = (L i).arena then (i : Int) else idx)

/-- The NEXT_FIT loop from the cursor: `for (i = idx; i < MAX; i++)` looking at entry `i + 1`,
here `j`; `n` iterations left. -/
def nextFitScan (L : Nat → Node) (req_size : Nat) : Nat → Nat → Except Fault (Option Nat)
  | 0, _ => .ok none
  | n + 1, j =>
    if j < MAX_LINKED_LIST_SIZE then
      if (L j).in_use = 0 then .ok none
      else if fits (L j) req_size then .ok (some j)
      else nextFitScan L req_size n (j + 1)
    else .error Fault.outOfBounds

/-- The NEXT_FIT wrap-around loop `for (i = 0; i <= idx; i++)`, which does not look at
`in_use`; `n` iterations left. -/
def wrapScan (L : Nat → Node) (req_size : Nat) : Nat → Nat → Option Nat
  | 0, _ => none
  | n + 1, i =>
    if fits (L i) req_size then some i
    else wrapScan L req_size n (i + 1)

/-- The BEST_FIT loop with its variables `idx` and `winner`. -/
def bestFitScan (L : Nat → Node) (req_size : Nat) : Nat → Nat → Int → Int → Int
  | 0, _, idx, _ => idx
  | n + 1, i, idx, winner =>
    if (L i).in_use = 0 then idx
    else if fits (L i) req_size ∧ leftoverOf (L i) req_size < winner then
      bestFitScan L req_size n (i + 1) (i : Int) (leftoverOf (L i) req_size)
    else bestFitScan L req_size n (i + 1) idx winner

/-- The WORST_FIT loop with its variables `idx` and `winner`. -/
def worstFitScan (L : Nat → Node) (req_size : Nat) : Nat → Nat → Int → Int → Int
  | 0, _, idx, _ => idx
  | n + 1, i, idx, winner =>
    if (L i).in_use = 0 then idx
    else if fits (L i) req_size ∧ leftoverOf (L i) req_size > winner then
      worstFitScan L req_size n (i + 1) (i : Int) (leftoverOf (L i) req_size)
    else worstFitScan L req_size n (i + 1) idx winner

/-- The tail shared by the branches of `mavalloc_alloc`: `insertNode(req_size, i)` followed by
`return LinkedList[i].arena`, storing the pointer in `lastAlloc` when `cursor` is set. -/
def allocAt (s : State) (req_size : Nat) (i : Nat) (cursor : Bool) : Except Fault (State × Nat) :=
  match insertNode s (toInt req_size) i with
  | .error e => .error e
  | .ok s1 =>
    if i < MAX_LINKED_LIST_SIZE then
      if cursor then .ok ({ s1 with lastAlloc := (s1.LinkedList i).arena }, (s1.LinkedList i).arena)
      else .ok (s1, (s1.LinkedList i).arena)
    else .error Fault.outOfBounds

/-- The function `mavalloc_alloc(size)`: the new state and the pointer returned (`0` is
`NULL`). -/
def mavalloc_alloc (s : State) (size : Nat) : Except Fault (State × Nat) :=
  if size = 0 then .ok (s, 0)
  else if s.initialized = 0 then .ok (s, 0)
  else
    let req_size := ALIGN4 size
    match s.alg with
    | ALGORITHM.FIRST_FIT =>
      match firstFitScan s.LinkedList req_size MAX_LINKED_LIST_SIZE 0 with
      | some i => allocAt s req_size i false
      | none => .ok (s, 0)
    | ALGORITHM.NEXT_FIT =>
      let idx := cursorScan s.LinkedList s.lastAlloc MAX_LINKED_LIST_SIZE 0 (-1)
      match nextFitScan s.LinkedList req_size (MAX_LINKED_LIST_SIZE - idx).toNat (idx + 1).toNat with
      | .error e => .error e
      | .ok (some j) => allocAt s req_size j true
      | .ok none =>
        match wrapScan s.LinkedList req_size (idx + 1).toNat 0 with
        | some i => allocAt s req_size i true
        | none => .ok (s, 0)
    | ALGORITHM.BEST_FIT =>
      let idx := bestFitScan s.LinkedList req_size MAX_LINKED_LIST_SIZE 0 (-1) INT_MAX
      if idx ≠ -1 then allocAt s req_size idx.toNat false else .ok (s, 0)
    | ALGORITHM.WORST_FIT =>
      let idx := worstFitScan s.LinkedList req_size MAX_LINKED_LIST_SIZE 0 (-1) (-1)
      if idx ≠ -1 then allocAt s req_size idx.toNat false else .ok (s, 0)

/-! ## mavalloc_free and mavalloc_size -/

/-- The first loop of `mavalloc_free`: every in-use entry whose `arena` is `ptr` becomes a
hole; `n` iterations left, loop variable `i`. -/
def freeMark (ptr : Nat) : Nat → Nat → (Nat → Node) → (Nat → Node)
  | 0, _, L => L
  | n + 1, i, L =>
    if (L i).in_use = 0 then L
    else if ptr = (L i).arena then
      freeMark ptr n (i + 1) (setNode L i { L i with type := TYPE.H })
    else freeMark ptr n (i + 1) L

/-- The second loop of `mavalloc_free`: coalesce adjacent holes; `n` iterations left, loop
variable `i`. -/
def freeCoalesce : Nat → Nat → State → Except Fault State
  | 0, _, s => .ok s
  | n + 1, i, s =>
    if (s.LinkedList i).in_use = 0 then .ok s
    else if (s.LinkedList i).type = TYPE.H ∧ (s.LinkedList (i + 1)).in_use ≠ 0
        ∧ (s.LinkedList (i + 1)).type = TYPE.H then
      match removeNode MAX_LINKED_LIST_SIZE s i with
      | .error e => .error e
      | .ok s1 => freeCoalesce n (i + 1) s1
    else freeCoalesce n (i + 1) s

/-- The function `mavalloc_free(ptr)`. -/
def mavalloc_free (s : State) (ptr : Nat) : Except Fault State :=
  if ptr = 0 then .ok s
  else
    freeCoalesce (MAX_LINKED_LIST_SIZE - 1) 0
      { s with LinkedList := freeMark ptr MAX_LINKED_LIST_SIZE 0 s.LinkedList }

/-- The loop of `mavalloc_size`: `n` iterations left, loop variable `i`, `number_of_nodes` the
count so far of in-use entries. -/
def countInUse (L : Nat → Node) : Nat → Nat → Int → Int
  | 0, _, number_of_nodes => number_of_nodes
  | n + 1, i, number_of_nodes =>
    countInUse L n (i + 1) (if (L i).in_use ≠ 0 then number_of_nodes + 1 else number_of_nodes)

/-- The function `mavalloc_size()`. -/
def mavalloc_size (s : State) : Int := countInUse s.LinkedList MAX_LINKED_LIST_SIZE 0 0

/-! ## Predicates on states -/

/-- Entry `i` is live: it is an array slot whose `in_use` flag is set. -/
def Live (s : State) (i : Nat) : Prop :=
  i < MAX_LINKED_LIST_SIZE ∧ (s.LinkedList i).in_use ≠ 0

instance (s : State) (i : Nat) : Decidable (Live s i) := by
  unfold Live; infer_instance

/-- Sum of the sizes of the live entries, scanned as the loops of the program scan them: from
index `i`, `n` slots left, stopping at the first slot that is not in use. -/
def liveSum (L : Nat → Node) : Nat → Nat → Int
  | 0, _ => 0
  | n + 1, i => if (L i).in_use = 0 then 0 else (L i).size + liveSum L n (i + 1)

/-- The live entries are the slots `0 .. n`, every slot above is zeroed, and every live size is
a multiple of 4. -/
structure Shape (s : State) (n : Nat) : Prop where
  initialized : s.initialized = 1
  last : s.lastUsed = (n : Int)
  bound : n < MAX_LINKED_LIST_SIZE
  used : ∀ i, i ≤ n → (s.LinkedList i).in_use = 1
  unused : ∀ i, n < i → i < MAX_LINKED_LIST_SIZE → s.LinkedList i = Node.zero
  mod4 : ∀ i, i ≤ n → (4 : Int) ∣ (s.LinkedList i).size

/-- No two neighbours among the slots `0 .. n` are both holes. -/
def NoAdj (s : State) (n : Nat) : Prop :=
  ∀ i, i < n → ¬ ((s.LinkedList i).type = TYPE.H ∧ (s.LinkedList (i + 1)).type = TYPE.H)

/-- No two adjacent live entries are both holes. -/
def NoAdjacentHoles (s : State) : Prop :=
  ∀ i, Live s i → Live s (i + 1) →
    ¬ ((s.LinkedList i).type = TYPE.H ∧ (s.LinkedList (i + 1)).type = TYPE.H)

/-- The slots `0 .. n` tile an arena of `total` bytes that fits the `int` range: sizes are not
negative, each entry starts where the one before ends, and all lie inside the arena. -/
structure Sane (s : State) (n : Nat) (total : Nat) : Prop where
  base_ne : s.gArena ≠ 0
  total_le : total ≤ 2147483647
  fit : s.gArena + total ≤ 18446744073709551616
  first : (s.LinkedList 0).arena = s.gArena
  chain : ∀ i, i < n →
    ((s.LinkedList (i + 1)).arena : Int) = (s.LinkedList i).arena + (s.LinkedList i).size
  nonneg : ∀ i, i ≤ n → 0 ≤ (s.LinkedList i).size
  lo : ∀ i, i ≤ n → s.gArena ≤ (s.LinkedList i).arena
  hi : ∀ i, i ≤ n →
    ((s.LinkedList i).arena : Int) + (s.LinkedList i).size ≤ (s.gArena : Int) + total
  last_end : ((s.LinkedList n).arena : Int) + (s.LinkedList n).size = (s.gArena : Int) + total

/-- States reached from a successful `mavalloc_init(totalSize, _)`, whose `malloc` returned the
block at `base`, by calls of `mavalloc_alloc` and `mavalloc_free` that return. -/
inductive Reachable (base totalSize : Nat) : State → Prop
  | init (s0 : State) (algorithm : ALGORITHM) :
      0 < totalSize → totalSize < SIZE_MOD → base ≠ 0 → base < SIZE_MOD →
      base + ALIGN4 totalSize ≤ SIZE_MOD →
      Reachable base totalSize (mavalloc_init s0 totalSize algorithm base).1
  | alloc (s : State) (size : Nat) (r : State × Nat) :
      Reachable base totalSize s → size < SIZE_MOD → mavalloc_alloc s size = .ok r →
      Reachable base totalSize r.1
  | free (s : State) (ptr : Nat) (s' : State) :
      Reachable base totalSize s → mavalloc_free s ptr = .ok s' →
      Reachable base totalSize s'

/-- One round of `removeNode(prev)` in closed form: the sizes of `prev` and `prev + 1` are
added, the entries above move down by one, `lastUsed` drops by one. -/
def removeStep (s : State) (prev : Nat) : State :=
  { s with
    LinkedList := fun j =>
      if j < prev then s.LinkedList j
      else if j = prev then
        { s.LinkedList prev with
          size := toInt ((s.LinkedList prev).size + (s.LinkedList (prev + 1)).size) }
      else if (j : Int) ≤ s.lastUsed then s.LinkedList (j + 1)
      else s.LinkedList j,
    lastUsed := s.lastUsed - 1 }

/-- The split of `insertNode(size, prev)` in closed form: `prev` becomes the allocation, the
hole moves to `prev + 1` with the leftover, the entries above move up by one. -/
def splitStep (s : State) (size : Int) (prev : Nat) : State :=
  { s with
    LinkedList := fun j =>
      if j < prev then s.LinkedList j
      else if j = prev then
        { in_use := 1, size := size, arena := (s.LinkedList prev).arena, type := TYPE.P }
      else if j = prev + 1 then
        { s.LinkedList prev with
          size := toInt ((s.LinkedList prev).size - size),
          arena := ptrAdd (s.LinkedList prev).arena size }
      else if (j : Int) ≤ s.lastUsed + 1 then s.LinkedList (j - 1)
      else s.LinkedList j,
    lastUsed := s.lastUsed + 1 }

/-- The exact-fit branch of `insertNode` in closed form. -/
def markStep (s : State) (prev : Nat) : State :=
  { s with LinkedList := setNode s.LinkedList prev { s.LinkedList prev with type := TYPE.P } }

/-- State after `mavalloc_alloc(size)`; the state itself when the call faults. -/
def stepAlloc (s : State) (size : Nat) : State :=
  match mavalloc_alloc s size with
  | .ok r => r.1
  | .error _ => s

/-- Pointer returned by `mavalloc_alloc(size)`; `0` when the call faults. -/
def retAlloc (s : State) (size : Nat) : Nat :=
  match mavalloc_alloc s size with
  | .ok r => r.2
  | .error _ => 0

/-- State after `mavalloc_free(ptr)`; the state itself when the call faults. -/
def stepFree (s : State) (ptr : Nat) : State :=
  match mavalloc_free s ptr with
  | .ok s' => s'
  | .error _ => s

/-- The first loop of `mavalloc_free` in closed form on a list whose live slots are `0 .. n`:
every live entry that starts at `ptr` is a hole. -/
def markStep_free (s : State) (ptr : Nat) (n : Nat) : State :=
  { s with
    LinkedList := fun j =>
      if j ≤ n ∧ (s.LinkedList j).arena = ptr then { s.LinkedList j with type := TYPE.H }
      else s.LinkedList j }

/-- The index chosen by the scan of `mavalloc_alloc` for the aligned request `req_size`:
the strategy loops without the call of `insertNode`. -/
def selectHole (s : State) (req_size : Nat) : Except Fault (Option Nat) :=
  match s.alg with
  | ALGORITHM.FIRST_FIT => .ok (firstFitScan s.LinkedList req_size MAX_LINKED_LIST_SIZE 0)
  | ALGORITHM.NEXT_FIT =>
    let idx := cursorScan s.LinkedList s.lastAlloc MAX_LINKED_LIST_SIZE 0 (-1)
    match nextFitScan s.LinkedList req_size (MAX_LINKED_LIST_SIZE - idx).toNat (idx + 1).toNat with
    | .error e => .error e
    | .ok (some j) => .ok (some j)
    | .ok none => .ok (wrapScan s.LinkedList req_size (idx + 1).toNat 0)
  | ALGORITHM.BEST_FIT =>
    let idx := bestFitScan s.LinkedList req_size MAX_LINKED_LIST_SIZE 0 (-1) INT_MAX
    if idx ≠ -1 then .ok (some idx.toNat) else .ok none
  | ALGORITHM.WORST_FIT =>
    let idx := worstFitScan s.LinkedList req_size MAX_LINKED_LIST_SIZE 0 (-1) (-1)
    if idx ≠ -1 then .ok (some idx.toNat) else .ok none

/-- Whether `mavalloc_alloc` stores the returned pointer in `lastAlloc`: only NEXT_FIT does. -/
def usesCursor (a : ALGORITHM) : Bool :=
  match a with
  | ALGORITHM.NEXT_FIT => true
  | _ => false

/-- The assignment `lastAlloc = p`, made when `c` is set. -/
def setCursor (c : Bool) (t : State) (p : Nat) : State :=
  if c then { t with lastAlloc := p } else t

/-- The index `c` the NEXT_FIT cursor stands on: the last live index whose start is
`lastAlloc`, and `-1` when no live entry starts there. -/
def IsCursor (s : State) (c : Int) : Prop :=
  (c = -1 ∧ ∀ i, Live s i → (s.LinkedList i).arena ≠ s.lastAlloc) ∨
  (∃ m : Nat, c = (m : Int) ∧ Live s m ∧ (s.LinkedList m).arena = s.lastAlloc
    ∧ ∀ i, Live s i → m < i → (s.LinkedList i).arena ≠ s.lastAlloc)

/-- Entry `k` is the first one that fits in the cyclic order `c + 1, c + 2, ..., last live
index, 0, 1, ..., c`. -/
def CyclicFirst (s : State) (c : Int) (k : Nat) (req_size : Nat) : Prop :=
  fits (s.LinkedList k) req_size ∧
  ((c < (k : Int) ∧ ∀ j : Nat, c < (j : Int) → j < k → ¬ fits (s.LinkedList j) req_size) ∨
   ((k : Int) ≤ c ∧ (∀ j : Nat, Live s j → c < (j : Int) → ¬ fits (s.LinkedList j) req_size)
      ∧ ∀ j : Nat, j < k → ¬ fits (s.LinkedList j) req_size))

/-- Whether `mavalloc_alloc(size)` returns, rather than faults. -/
def allocOk (s : State) (size : Nat) : Bool :=
  match mavalloc_alloc s size with
  | .ok _ => true
  | .error _ => false

/-- Whether `mavalloc_free(ptr)` returns, rather than faults. -/
def freeOk (s : State) (ptr : Nat) : Bool :=
  match mavalloc_free s ptr with
  | .ok _ => true
  | .error _ => false

/-! ## Example runs -/

/-- BEST_FIT on an arena of 200 bytes at address 4096. -/
def exB0 : State := (mavalloc_init State.start 200 ALGORITHM.BEST_FIT 4096).1

/-- Four allocations of 52, 8, 32 and 8 bytes: regions at 4096, 4148, 4156, 4188 and the
remaining hole of 100 bytes at 4196. -/
def exB1 : State := stepAlloc (stepAlloc (stepAlloc (stepAlloc exB0 52) 8) 32) 8

/-- The first region freed: a hole of 52 bytes at 4096. -/
def exB2 : State := stepFree exB1 4096

/-- The third region freed as well: holes of 52, 32 and 100 bytes. -/
def exB3 : State := stepFree exB2 4156

/-- FIRST_FIT on an arena of 2147483648 bytes, one more than `INT_MAX`. -/
def exHuge : State :=
  (mavalloc_init State.start 2147483648 ALGORITHM.FIRST_FIT 140000000000000).1

/-- FIRST_FIT on an arena of 1024 bytes at address 4096. -/
def exF0 : State := (mavalloc_init State.start 1024 ALGORITHM.FIRST_FIT 4096).1

/-- Allocations of 100, 200, 100 and 50 bytes, then the first and the third freed: holes of
100 bytes at 4096 and at 4396, and the remaining hole of 572 bytes at 4548. -/
def exF1 : State :=
  stepFree (stepFree (stepAlloc (stepAlloc (stepAlloc (stepAlloc exF0 100) 200) 100) 50) 4096)
    4396

/-- WORST_FIT on an arena of 200 bytes at address 4096, after the allocations and frees of the
BEST_FIT example run: holes of 52, 32 and 100 bytes at 4096, 4156 and 4196. -/
def exW1 : State :=
  stepFree (stepFree (stepAlloc (stepAlloc (stepAlloc (stepAlloc
    (mavalloc_init State.start 200 ALGORITHM.WORST_FIT 4096).1 52) 8) 32) 8) 4096) 4156

/-- WORST_FIT on an arena of 4294967292 bytes: the `int` size of the only hole is -4. -/
def exWHuge0 : State :=
  (mavalloc_init State.start 4294967292 ALGORITHM.WORST_FIT 140000000000000).1

/-- Allocations of 2147483648 and of 8 bytes in that arena, then the first one freed: a hole
whose `int` size is -2147483648, an allocation of 8, a hole of 2147483636. -/
def exWHuge1 : State :=
  stepFree (stepAlloc (stepAlloc exWHuge0 2147483648) 8) 140000000000000

/-- NEXT_FIT on an arena of 300 bytes at address 4096: two allocations of 50 bytes, then the
first one freed; the cursor `lastAlloc` is the second allocation, at 4148. -/
def exN1 : State :=
  stepFree (stepAlloc (stepAlloc
    (mavalloc_init State.start 300 ALGORITHM.NEXT_FIT 4096).1 50) 50) 4096

/-- FIRST_FIT on an arena of 4294967292 bytes: the `int` size of the only hole is -4. -/
def exFHuge0 : State :=
  (mavalloc_init State.start 4294967292 ALGORITHM.FIRST_FIT 140000000000000).1

/-- FIRST_FIT on an arena of 4294967292 bytes that `malloc` placed at address 65536, after an
allocation of 4294901760 bytes: the hole that is left starts at address 0. -/
def exFLow1 : State :=
  stepAlloc (mavalloc_init State.start 4294967292 ALGORITHM.FIRST_FIT 65536).1 4294901760

/-- Number of slots a scan of the program visits before it stops at the first slot that is not
in use: from index `i`, `n` slots left. -/
def visitCount (L : Nat → Node) : Nat → Nat → Nat
  | 0, _ => 0
  | n + 1, i => if (L i).in_use = 0 then 0 else 1 + visitCount L n (i + 1)

/-- Every size of the slots `0 .. n` is a value of the 32-bit `int` type. -/
def InRange (s : State) (n : Nat) : Prop :=
  ∀ i, i ≤ n → -2147483648 ≤ (s.LinkedList i).size ∧ (s.LinkedList i).size ≤ 2147483647

/-- FIRST_FIT on an arena of 65536 bytes at address 4096, followed by `k` allocations of 4
bytes. -/
def fillRun : Nat → State
  | 0 => (mavalloc_init State.start 65536 ALGORITHM.FIRST_FIT 4096).1
  | k + 1 => stepAlloc (fillRun k) 4

/-- States reached from a successful `mavalloc_init(totalSize, _)` by calls of `mavalloc_free`
and calls of `mavalloc_alloc` whose request is at most `maxReq`. -/
inductive ReachableWithin (maxReq base totalSize : Nat) : State → Prop
  | init (s0 : State) (algorithm : ALGORITHM) :
      0 < totalSize → totalSize < SIZE_MOD → base ≠ 0 → base < SIZE_MOD →
      base + ALIGN4 totalSize ≤ SIZE_MOD →
      ReachableWithin maxReq base totalSize (mavalloc_init s0 totalSize algorithm base).1
  | alloc (s : State) (size : Nat) (r : State × Nat) :
      ReachableWithin maxReq base totalSize s → size ≤ maxReq → size < SIZE_MOD →
      mavalloc_alloc s size = .ok r → ReachableWithin maxReq base totalSize r.1
  | free (s : State) (ptr : Nat) (s' : State) :
      ReachableWithin maxReq base totalSize s → mavalloc_free s ptr = .ok s' →
      ReachableWithin maxReq base totalSize s'

/-- Every start among the slots `0 .. n` lies a multiple of 4 bytes from the arena base. -/
def Aligned (s : State) (n : Nat) : Prop :=
  ∀ i, i ≤ n → (4 : Int) ∣ ((s.LinkedList i).arena : Int) - (s.gArena : Int)

/-- Every size among the slots `0 .. n` is strictly positive. -/
def Positive (s : State) (n : Nat) : Prop :=
  ∀ i, i ≤ n → 0 < (s.LinkedList i).size

/-- Number, 0 or 1, of hole neighbours on the left of entry `i`. -/
def leftHole (s : State) (i : Nat) : Nat :=
  if 0 < i ∧ (s.LinkedList (i - 1)).type = TYPE.H then 1 else 0

/-- Number, 0 or 1, of live hole neighbours on the right of entry `i`. -/
def rightHole (s : State) (i : Nat) : Nat :=
  if Live s (i + 1) ∧ (s.LinkedList (i + 1)).type = TYPE.H then 1 else 0

/-- Sum of the sizes of entry `i` and of its hole neighbours. -/
def mergedSize (s : State) (i : Nat) : Int :=
  (if leftHole s i = 1 then (s.LinkedList (i - 1)).size else 0) + (s.LinkedList i).size
    + (if rightHole s i = 1 then (s.LinkedList (i + 1)).size else 0)

/-- A qualifying hole for the request `req_size`: an entry of type `H` whose size, as an
integer, is at least the request. -/
def Qualifies (nd : Node) (req_size : Nat) : Prop :=
  nd.type = TYPE.H ∧ (req_size : Int) ≤ nd.size

instance (nd : Node) (req_size : Nat) : Decidable (Qualifies nd req_size) := by
  unfold Qualifies; infer_instance

/-- Entry `k` is the first qualifying hole in the cyclic order `c + 1, c + 2, ..., last live
index, 0, 1, ..., c`. -/
def CyclicFirstHole (s : State) (c : Int) (k : Nat) (req_size : Nat) : Prop :=
  Qualifies (s.LinkedList k) req_size ∧
  ((c < (k : Int) ∧
      ∀ j : Nat, c < (j : Int) → j < k → ¬ Qualifies (s.LinkedList j) req_size) ∨
   ((k : Int) ≤ c
      ∧ (∀ j : Nat, Live s j → c < (j : Int) → ¬ Qualifies (s.LinkedList j) req_size)
      ∧ ∀ j : Nat, j < k → ¬ Qualifies (s.LinkedList j) req_size))

/-- FIRST_FIT on an arena of 4294967292 bytes: allocations of 2147483648 and of 8 bytes, then
the first one freed: a hole of `int` size -2147483648 at index 0, the allocation of 8 bytes,
and a hole of 2147483636 bytes at index 2. -/
def exFHuge1 : State :=
  stepFree (stepAlloc (stepAlloc exFHuge0 2147483648) 8) 140000000000000

/-- BEST_FIT on an arena of 4294967292 bytes: allocations of 3221225472 and of 8 bytes, then
the first one freed: a hole of `int` size -1073741824 at index 0, the allocation of 8 bytes,
and a hole of 1073741812 bytes at index 2. -/
def exBHuge1 : State :=
  stepFree (stepAlloc (stepAlloc
    (mavalloc_init State.start 4294967292 ALGORITHM.BEST_FIT 140000000000000).1 3221225472) 8)
    140000000000000

/-- NEXT_FIT on an arena of 4294967292 bytes: allocations of 2147483648 and of 8 bytes, then
the first one freed: a hole of `int` size -2147483648 at index 0, the allocation of 8 bytes on
which the cursor stands, and a hole of 2147483636 bytes at index 2. -/
def exNHuge1 : State :=
  stepFree (stepAlloc (stepAlloc
    (mavalloc_init State.start 4294967292 ALGORITHM.NEXT_FIT 140000000000000).1 2147483648) 8)
    140000000000000

/-! ## Arithmetic lemmas -/

theorem toInt_of_range (x : Int) (h1 : -2147483648 ≤ x) (h2 : x ≤ 2147483647) : toInt x = x := by
  unfold toInt; omega

theorem toInt_dvd4 (x : Int) (h : (4 : Int) ∣ x) : (4 : Int) ∣ toInt x := by
  unfold toInt; omega

theorem toInt_range (x : Int) : -2147483648 ≤ toInt x ∧ toInt x ≤ 2147483647 := by
  unfold toInt; omega

theorem toSizeT_of_nonneg (x : Int) (h1 : 0 ≤ x) (h2 : x < 18446744073709551616) :
    (toSizeT x : Int) = x := by
  unfold toSizeT; omega

theorem toSizeT_lt (x : Int) : toSizeT x < SIZE_MOD := by
  unfold toSizeT SIZE_MOD; omega

theorem ALIGN4_dvd (s : Nat) : 4 ∣ ALIGN4 s := by
  unfold ALIGN4 SIZE_MOD; omega

theorem ALIGN4_lt (s : Nat) : ALIGN4 s < SIZE_MOD := by
  unfold ALIGN4 SIZE_MOD; omega

theorem ALIGN4_bounds (s : Nat) (h : s + 4 ≤ SIZE_MOD) : s ≤ ALIGN4 s ∧ ALIGN4 s < s + 4 := by
  unfold ALIGN4 SIZE_MOD at *; omega

theorem setNode_same (L : Nat → Node) (i : Nat) (v : Node) : setNode L i v i = v := by
  simp [setNode]

theorem setNode_other (L : Nat → Node) (i j : Nat) (v : Node) (h : j ≠ i) :
    setNode L i v j = L j := by
  simp [setNode, h]

/-! ## The shifting loops in closed form -/

theorem removeShift_ok (n : Nat) : ∀ (i : Nat) (L : Nat → Node),
    i + n < MAX_LINKED_LIST_SIZE →
    removeShift n i L = .ok (fun j => if i ≤ j ∧ j < i + n then L (j + 1) else L j) := by
  induction n with
  | zero =>
    intro i L _
    rw [removeShift]
    congr 1
    funext j
    rw [if_neg (by omega)]
  | succ n ih =>
    intro i L h
    have h1 : i + 1 < MAX_LINKED_LIST_SIZE := by omega
    rw [removeShift, if_pos h1, ih (i + 1) _ (by omega)]
    congr 1
    funext j
    by_cases hj : j = i
    · subst hj
      have : ¬ (j + 1 ≤ j ∧ j < j + 1 + n) := by omega
      simp [this, setNode]
    · by_cases hlo : i + 1 ≤ j ∧ j < i + 1 + n
      · have h2 : i ≤ j ∧ j < i + (n + 1) := by omega
        have h3 : j + 1 ≠ i := by omega
        simp [hlo, h2, setNode, h3]
      · have h2 : ¬ (i ≤ j ∧ j < i + (n + 1)) := by omega
        simp [hlo, h2, setNode, hj]

theorem removeShift_fault (n : Nat) : ∀ (i : Nat) (L : Nat → Node),
    0 < n → MAX_LINKED_LIST_SIZE ≤ i + n →
    removeShift n i L = .error Fault.outOfBounds := by
  induction n with
  | zero => intro i L h; omega
  | succ n ih =>
    intro i L _ h
    rw [removeShift]
    by_cases h1 : i + 1 < MAX_LINKED_LIST_SIZE
    · rw [if_pos h1]
      exact ih (i + 1) _ (by omega) (by omega)
    · rw [if_neg h1]

theorem insertShift_ok (prev : Nat) (n : Nat) : ∀ (L : Nat → Node),
    prev + n < MAX_LINKED_LIST_SIZE →
    insertShift prev n L = .ok (fun j => if prev < j ∧ j ≤ prev + n then L (j - 1) else L j) := by
  induction n with
  | zero =>
    intro L _
    rw [insertShift]
    congr 1
    funext j
    rw [if_neg (by omega)]
  | succ n ih =>
    intro L h
    have h1 : prev + n + 1 < MAX_LINKED_LIST_SIZE := by omega
    rw [insertShift, if_pos h1, ih _ (by omega)]
    congr 1
    funext j
    by_cases hj : j = prev + n + 1
    · subst hj
      have h2 : ¬ (prev < prev + n + 1 ∧ prev + n + 1 ≤ prev + n) := by omega
      have h3 : prev < prev + n + 1 ∧ prev + n + 1 ≤ prev + (n + 1) := by omega
      simp [h2, h3, setNode]
    · by_cases hlo : prev < j ∧ j ≤ prev + n
      · have h2 : prev < j ∧ j ≤ prev + (n + 1) := by omega
        have h3 : j - 1 ≠ prev + n + 1 := by omega
        simp [hlo, h2, setNode, h3]
      · have h2 : ¬ (prev < j ∧ j ≤ prev + (n + 1)) := by omega
        simp [hlo, h2, setNode, hj]

theorem insertShift_fault (prev : Nat) (n : Nat) (L : Nat → Node)
    (h0 : 0 < n) (h : MAX_LINKED_LIST_SIZE ≤ prev + n) :
    insertShift prev n L = .error Fault.outOfBounds := by
  cases n with
  | zero => omega
  | succ n =>
    rw [insertShift, if_neg (by omega)]

/-! ## removeNode and insertNode in closed form -/

theorem removeNode_succ (fuel : Nat) (s : State) (prev n : Nat)
    (hlast : s.lastUsed = (n : Int)) (hprev : prev < n) (hcap : n + 1 < MAX_LINKED_LIST_SIZE) :
    removeNode (fuel + 1) s prev =
      if ((removeStep s prev).LinkedList (prev + 1)).in_use ≠ 0
          ∧ ((removeStep s prev).LinkedList (prev + 1)).type = TYPE.H then
        removeNode fuel (removeStep s prev) prev
      else .ok (removeStep s prev) := by
  have hcnt : (s.lastUsed - (prev : Int)).toNat = n - prev := by omega
  have hL : (fun j => if prev + 1 ≤ j ∧ j < prev + 1 + (n - prev) then
        (setNode s.LinkedList prev
          { s.LinkedList prev with
            size := toInt ((s.LinkedList prev).size + (s.LinkedList (prev + 1)).size) }) (j + 1)
      else (setNode s.LinkedList prev
          { s.LinkedList prev with
            size := toInt ((s.LinkedList prev).size + (s.LinkedList (prev + 1)).size) }) j)
      = (removeStep s prev).LinkedList := by
    funext j
    simp only [removeStep, setNode]
    by_cases h1 : j < prev
    · have h2 : ¬ (prev + 1 ≤ j ∧ j < prev + 1 + (n - prev)) := by omega
      have h3 : j ≠ prev := by omega
      simp [h1, h2, h3]
    · by_cases h2 : j = prev
      · subst h2
        have h3 : ¬ (j + 1 ≤ j ∧ j < j + 1 + (n - j)) := by omega
        simp [h3]
      · by_cases h3 : (j : Int) ≤ s.lastUsed
        · have h4 : prev + 1 ≤ j ∧ j < prev + 1 + (n - prev) := by omega
          have h5 : j + 1 ≠ prev := by omega
          simp [h1, h2, h3, h4, h5]
        · have h4 : ¬ (prev + 1 ≤ j ∧ j < prev + 1 + (n - prev)) := by omega
          simp [h1, h2, h3, h4]
  have hs : ({ s with LinkedList := (removeStep s prev).LinkedList, lastUsed := s.lastUsed - 1 } : State)
      = removeStep s prev := by
    simp [removeStep]
  rw [removeNode, if_pos (by omega), hcnt]
  dsimp only
  rw [removeShift_ok _ _ _ (by omega), hL]
  dsimp only
  rw [hs]

theorem removeNode_fault (fuel : Nat) (s : State) (prev n : Nat)
    (hlast : s.lastUsed = (n : Int)) (hprev : prev < n) (hcap : n + 1 = MAX_LINKED_LIST_SIZE) :
    removeNode (fuel + 1) s prev = .error Fault.outOfBounds := by
  have hcnt : (s.lastUsed - (prev : Int)).toNat = n - prev := by omega
  rw [removeNode, if_pos (by omega), hcnt]
  dsimp only
  rw [removeShift_fault _ _ _ (by omega) (by omega)]

theorem insertNode_exact (s : State) (size : Int) (prev : Nat)
    (hprev : prev < MAX_LINKED_LIST_SIZE) (hsize : size = (s.LinkedList prev).size) :
    insertNode s size prev = .ok (markStep s prev) := by
  have h1 : ¬ ((s.initialized ≠ 0 ∧ (prev : Int) < 0) ∨ prev ≥ MAX_LINKED_LIST_SIZE) := by omega
  rw [insertNode, if_neg h1, if_pos hsize]
  rfl

theorem insertNode_split (s : State) (size : Int) (prev n : Nat)
    (hlast : s.lastUsed = (n : Int)) (hprev : prev ≤ n) (hcap : n + 1 < MAX_LINKED_LIST_SIZE)
    (hsize : size ≠ (s.LinkedList prev).size) :
    insertNode s size prev = .ok (splitStep s size prev) := by
  have h1 : ¬ ((s.initialized ≠ 0 ∧ (prev : Int) < 0) ∨ prev ≥ MAX_LINKED_LIST_SIZE) := by omega
  have h2 : ¬ s.lastUsed = -1 := by omega
  have hcnt : (s.lastUsed + 1 - (prev : Int)).toNat = n + 1 - prev := by omega
  rw [insertNode, if_neg h1, if_neg hsize, if_neg h2, hcnt, insertShift_ok _ _ _ (by omega)]
  simp only []
  rw [if_pos (by omega)]
  congr 1
  simp only [splitStep]
  congr 1
  funext j
  simp only [setNode]
  by_cases h3 : j < prev
  · have h4 : j ≠ prev + 1 := by omega
    have h5 : j ≠ prev := by omega
    have h6 : ¬ (prev < j ∧ j ≤ prev + (n + 1 - prev)) := by omega
    simp [h3, h4, h5, h6]
  · by_cases h4 : j = prev
    · subst h4
      have h8 : 1 ≤ n + 1 - j := by omega
      simp [h8]
    · by_cases h5 : j = prev + 1
      · subst h5
        have h8 : 1 ≤ n + 1 - prev := by omega
        simp [h8]
      · by_cases h6 : (j : Int) ≤ s.lastUsed + 1
        · have h7 : prev < j ∧ j ≤ prev + (n + 1 - prev) := by omega
          simp [h3, h4, h5, h6, h7]
        · have h7 : ¬ (prev < j ∧ j ≤ prev + (n + 1 - prev)) := by omega
          simp [h3, h4, h5, h6, h7]

theorem insertNode_fault (s : State) (size : Int) (prev n : Nat)
    (hlast : s.lastUsed = (n : Int)) (hprev : prev ≤ n) (hcap : n + 1 = MAX_LINKED_LIST_SIZE)
    (hsize : size ≠ (s.LinkedList prev).size) :
    insertNode s size prev = .error Fault.outOfBounds := by
  have h1 : ¬ ((s.initialized ≠ 0 ∧ (prev : Int) < 0) ∨ prev ≥ MAX_LINKED_LIST_SIZE) := by omega
  have h2 : ¬ s.lastUsed = -1 := by omega
  have hcnt : (s.lastUsed + 1 - (prev : Int)).toNat = n + 1 - prev := by omega
  rw [insertNode, if_neg h1, if_neg hsize, if_neg h2, hcnt,
    insertShift_fault _ _ _ (by omega) (by omega)]

/-! ## Entries of the closed forms -/

theorem removeStep_lt (s : State) (prev j : Nat) (h : j < prev) :
    (removeStep s prev).LinkedList j = s.LinkedList j := by
  simp [removeStep, h]

theorem removeStep_at (s : State) (prev : Nat) :
    (removeStep s prev).LinkedList prev =
      { s.LinkedList prev with
        size := toInt ((s.LinkedList prev).size + (s.LinkedList (prev + 1)).size) } := by
  simp [removeStep]

theorem removeStep_gt (s : State) (prev j n : Nat) (hlast : s.lastUsed = (n : Int))
    (h1 : prev < j) (h2 : j ≤ n) :
    (removeStep s prev).LinkedList j = s.LinkedList (j + 1) := by
  have h3 : ¬ j < prev := by omega
  have h4 : j ≠ prev := by omega
  have h5 : (j : Int) ≤ s.lastUsed := by omega
  simp [removeStep, h3, h4, h5]

theorem removeStep_far (s : State) (prev j n : Nat) (hlast : s.lastUsed = (n : Int))
    (h1 : prev < j) (h2 : n < j) :
    (removeStep s prev).LinkedList j = s.LinkedList j := by
  have h3 : ¬ j < prev := by omega
  have h4 : j ≠ prev := by omega
  have h5 : ¬ (j : Int) ≤ s.lastUsed := by omega
  simp [removeStep, h3, h4, h5]

theorem splitStep_lt (s : State) (size : Int) (prev j : Nat) (h : j < prev) :
    (splitStep s size prev).LinkedList j = s.LinkedList j := by
  simp [splitStep, h]

theorem splitStep_at (s : State) (size : Int) (prev : Nat) :
    (splitStep s size prev).LinkedList prev =
      { in_use := 1, size := size, arena := (s.LinkedList prev).arena, type := TYPE.P } := by
  simp [splitStep]

theorem splitStep_next (s : State) (size : Int) (prev : Nat) :
    (splitStep s size prev).LinkedList (prev + 1) =
      { s.LinkedList prev with
        size := toInt ((s.LinkedList prev).size - size),
        arena := ptrAdd (s.LinkedList prev).arena size } := by
  simp [splitStep]

theorem splitStep_gt (s : State) (size : Int) (prev j n : Nat) (hlast : s.lastUsed = (n : Int))
    (h1 : prev + 1 < j) (h2 : j ≤ n + 1) :
    (splitStep s size prev).LinkedList j = s.LinkedList (j - 1) := by
  have h3 : ¬ j < prev := by omega
  have h4 : j ≠ prev := by omega
  have h5 : j ≠ prev + 1 := by omega
  have h6 : (j : Int) ≤ s.lastUsed + 1 := by omega
  simp [splitStep, h3, h4, h5, h6]

theorem splitStep_far (s : State) (size : Int) (prev j n : Nat) (hlast : s.lastUsed = (n : Int))
    (h1 : prev + 1 < j) (h2 : n + 1 < j) :
    (splitStep s size prev).LinkedList j = s.LinkedList j := by
  have h3 : ¬ j < prev := by omega
  have h4 : j ≠ prev := by omega
  have h5 : j ≠ prev + 1 := by omega
  have h6 : ¬ (j : Int) ≤ s.lastUsed + 1 := by omega
  simp [splitStep, h3, h4, h5, h6]

theorem markStep_at (s : State) (prev : Nat) :
    (markStep s prev).LinkedList prev = { s.LinkedList prev with type := TYPE.P } := by
  simp [markStep, setNode]

theorem markStep_other (s : State) (prev j : Nat) (h : j ≠ prev) :
    (markStep s prev).LinkedList j = s.LinkedList j := by
  simp [markStep, setNode, h]

/-! ## The shape of the list is kept -/

theorem shape_removeStep {s : State} {n : Nat} (hs : Shape s n) (prev : Nat)
    (hprev : prev < n) (hcap : n + 1 < MAX_LINKED_LIST_SIZE) :
    Shape (removeStep s prev) (n - 1) := by
  refine ⟨hs.initialized, ?_, by have := hs.bound; omega, ?_, ?_, ?_⟩
  · show s.lastUsed - 1 = ((n - 1 : Nat) : Int)
    have := hs.last
    omega
  · intro i hi
    rcases Nat.lt_trichotomy i prev with h | h | h
    · rw [removeStep_lt s prev i h]; exact hs.used i (by omega)
    · subst h; rw [removeStep_at]; exact hs.used i (by omega)
    · rw [removeStep_gt s prev i n hs.last h (by omega)]; exact hs.used (i + 1) (by omega)
  · intro i hi1 hi2
    by_cases h : i = n
    · subst h
      rw [removeStep_gt s prev i i hs.last (by omega) (by omega)]
      exact hs.unused (i + 1) (by omega) (by omega)
    · rw [removeStep_far s prev i n hs.last (by omega) (by omega)]
      exact hs.unused i (by omega) hi2
  · intro i hi
    rcases Nat.lt_trichotomy i prev with h | h | h
    · rw [removeStep_lt s prev i h]; exact hs.mod4 i (by omega)
    · subst h
      rw [removeStep_at]
      apply toInt_dvd4
      exact dvd_add (hs.mod4 i (by omega)) (hs.mod4 (i + 1) (by omega))
    · rw [removeStep_gt s prev i n hs.last h (by omega)]; exact hs.mod4 (i + 1) (by omega)

theorem shape_splitStep {s : State} {n : Nat} (hs : Shape s n) (size : Int) (prev : Nat)
    (hprev : prev ≤ n) (hcap : n + 1 < MAX_LINKED_LIST_SIZE) (hsize : (4 : Int) ∣ size) :
    Shape (splitStep s size prev) (n + 1) := by
  refine ⟨hs.initialized, ?_, hcap, ?_, ?_, ?_⟩
  · show s.lastUsed + 1 = ((n + 1 : Nat) : Int)
    have := hs.last
    omega
  · intro i hi
    by_cases h1 : i < prev
    · rw [splitStep_lt s size prev i h1]; exact hs.used i (by omega)
    · by_cases h2 : i = prev
      · subst h2; rw [splitStep_at]
      · by_cases h3 : i = prev + 1
        · subst h3; rw [splitStep_next]; exact hs.used prev hprev
        · rw [splitStep_gt s size prev i n hs.last (by omega) hi]
          exact hs.used (i - 1) (by omega)
  · intro i hi1 hi2
    rw [splitStep_far s size prev i n hs.last (by omega) hi1]
    exact hs.unused i (by omega) hi2
  · intro i hi
    by_cases h1 : i < prev
    · rw [splitStep_lt s size prev i h1]; exact hs.mod4 i (by omega)
    · by_cases h2 : i = prev
      · subst h2; rw [splitStep_at]; exact hsize
      · by_cases h3 : i = prev + 1
        · subst h3
          rw [splitStep_next]
          apply toInt_dvd4
          exact dvd_sub (hs.mod4 prev hprev) hsize
        · rw [splitStep_gt s size prev i n hs.last (by omega) hi]
          exact hs.mod4 (i - 1) (by omega)

theorem shape_markStep {s : State} {n : Nat} (hs : Shape s n) (prev : Nat) (hprev : prev ≤ n) :
    Shape (markStep s prev) n := by
  refine ⟨hs.initialized, hs.last, hs.bound, ?_, ?_, ?_⟩
  · intro i hi
    by_cases h : i = prev
    · subst h; rw [markStep_at]; exact hs.used i hi
    · rw [markStep_other s prev i h]; exact hs.used i hi
  · intro i hi1 hi2
    rw [markStep_other s prev i (by omega)]
    exact hs.unused i hi1 hi2
  · intro i hi
    by_cases h : i = prev
    · subst h; rw [markStep_at]; exact hs.mod4 i hi
    · rw [markStep_other s prev i h]; exact hs.mod4 i hi

theorem noAdj_splitStep {s : State} {n : Nat} (hs : Shape s n) (hn : NoAdj s n) (size : Int)
    (prev : Nat) (hprev : prev ≤ n) (hH : (s.LinkedList prev).type = TYPE.H) :
    NoAdj (splitStep s size prev) (n + 1) := by
  intro i hi
  by_cases h1 : i + 1 < prev
  · rw [splitStep_lt s size prev i (by omega), splitStep_lt s size prev (i + 1) h1]
    exact hn i (by omega)
  · by_cases h2 : i + 1 = prev
    · rw [← h2, splitStep_at]
      simp
    · by_cases h3 : i = prev
      · subst h3
        rw [splitStep_at]
        simp
      · by_cases h4 : i = prev + 1
        · subst h4
          rw [splitStep_gt s size prev (prev + 1 + 1) n hs.last (by omega) (by omega)]
          have := hn prev (by omega)
          intro hboth
          exact this ⟨hH, hboth.2⟩
        · rw [splitStep_gt s size prev i n hs.last (by omega) (by omega),
            splitStep_gt s size prev (i + 1) n hs.last (by omega) (by omega)]
          have := hn (i - 1) (by omega)
          have e : i - 1 + 1 = i + 1 - 1 := by omega
          rw [e] at this
          exact this

theorem noAdj_markStep {s : State} {n : Nat} (hn : NoAdj s n) (prev : Nat) :
    NoAdj (markStep s prev) n := by
  intro i hi
  by_cases h1 : i = prev
  · subst h1
    rw [markStep_at]
    simp
  · by_cases h2 : i + 1 = prev
    · rw [← h2, markStep_at]
      simp
    · rw [markStep_other s prev i h1, markStep_other s prev (i + 1) h2]
      exact hn i hi

/-! ## mavalloc_free: the marking loop, removeNode, the coalescing loop -/

theorem freeMark_eq (ptr n : Nat) (hn : n < MAX_LINKED_LIST_SIZE) :
    ∀ (cnt i : Nat) (L : Nat → Node),
    i + cnt = MAX_LINKED_LIST_SIZE → i ≤ n + 1 →
    (∀ j, j ≤ n → (L j).in_use ≠ 0) →
    (∀ j, n < j → j < MAX_LINKED_LIST_SIZE → (L j).in_use = 0) →
    freeMark ptr cnt i L =
      fun j => if i ≤ j ∧ j ≤ n ∧ (L j).arena = ptr then { L j with type := TYPE.H } else L j := by
  intro cnt
  induction cnt with
  | zero =>
    intro i L h1 h2 h3 _
    rw [freeMark]
    funext j
    rw [if_neg (by omega)]
  | succ cnt ih =>
    intro i L h1 h2 h3 h4
    rw [freeMark]
    by_cases hu : (L i).in_use = 0
    · rw [if_pos hu]
      funext j
      have hi : n < i := by
        by_contra hc
        exact h3 i (by omega) hu
      rw [if_neg (by omega)]
    · rw [if_neg hu]
      have hi : i ≤ n := by
        by_contra hc
        exact hu (h4 i (by omega) (by omega))
      by_cases hp : ptr = (L i).arena
      · rw [if_pos hp, ih (i + 1) _ (by omega) (by omega)]
        · funext j
          by_cases hj : j = i
          · subst hj
            have : ¬ (j + 1 ≤ j ∧ j ≤ n ∧ (setNode L j { L j with type := TYPE.H } j).arena = ptr) := by
              omega
            rw [if_neg this, if_pos ⟨le_refl j, hi, hp.symm⟩, setNode_same]
          · rw [setNode_other L i j _ hj]
            by_cases hc : i + 1 ≤ j ∧ j ≤ n ∧ (L j).arena = ptr
            · rw [if_pos hc, if_pos ⟨by omega, hc.2.1, hc.2.2⟩]
            · rw [if_neg hc, if_neg]
              intro hc2
              exact hc ⟨by omega, hc2.2.1, hc2.2.2⟩
        · intro j hj
          by_cases hji : j = i
          · subst hji; rw [setNode_same]; exact hu
          · rw [setNode_other L i j _ hji]; exact h3 j hj
        · intro j hj1 hj2
          rw [setNode_other L i j _ (by omega)]
          exact h4 j hj1 hj2
      · rw [if_neg hp, ih (i + 1) L (by omega) (by omega) h3 h4]
        funext j
        by_cases hc : i + 1 ≤ j ∧ j ≤ n ∧ (L j).arena = ptr
        · rw [if_pos hc, if_pos ⟨by omega, hc.2.1, hc.2.2⟩]
        · rw [if_neg hc, if_neg]
          intro hc2
          by_cases hj : j = i
          · subst hj; exact hp hc2.2.2.symm
          · exact hc ⟨by omega, hc2.2.1, hc2.2.2⟩

theorem freeMark_shape {s : State} {n : Nat} (hs : Shape s n) (ptr : Nat) :
    ({ s with LinkedList := freeMark ptr MAX_LINKED_LIST_SIZE 0 s.LinkedList } : State)
      = markStep_free s ptr n := by
  have h := freeMark_eq ptr n hs.bound MAX_LINKED_LIST_SIZE 0 s.LinkedList (by omega) (by omega)
    (fun j hj => by rw [hs.used j hj]; decide)
    (fun j hj1 hj2 => by rw [hs.unused j hj1 hj2]; rfl)
  rw [h]
  simp [markStep_free]

theorem markStep_free_entry (s : State) (ptr n j : Nat) :
    (markStep_free s ptr n).LinkedList j = s.LinkedList j ∨
    ((markStep_free s ptr n).LinkedList j = { s.LinkedList j with type := TYPE.H }
      ∧ j ≤ n ∧ (s.LinkedList j).arena = ptr) := by
  by_cases h : j ≤ n ∧ (s.LinkedList j).arena = ptr
  · right
    simp [markStep_free, h]
  · left
    simp only [markStep_free]
    rw [if_neg h]

theorem shape_markStep_free {s : State} {n : Nat} (hs : Shape s n) (ptr : Nat) :
    Shape (markStep_free s ptr n) n := by
  refine ⟨hs.initialized, hs.last, hs.bound, ?_, ?_, ?_⟩
  · intro i hi
    rcases markStep_free_entry s ptr n i with h | h
    · rw [h]; exact hs.used i hi
    · rw [h.1]; exact hs.used i hi
  · intro i hi1 hi2
    rcases markStep_free_entry s ptr n i with h | h
    · rw [h]; exact hs.unused i hi1 hi2
    · omega
  · intro i hi
    rcases markStep_free_entry s ptr n i with h | h
    · rw [h]; exact hs.mod4 i hi
    · rw [h.1]; exact hs.mod4 i hi

theorem removeNode_run (Q : State → Nat → Prop) (prev : Nat)
    (hQ : ∀ s n, Shape s n → Q s n → prev < n → n + 1 < MAX_LINKED_LIST_SIZE →
      (s.LinkedList prev).type = TYPE.H → (s.LinkedList (prev + 1)).type = TYPE.H →
      Q (removeStep s prev) (n - 1)) :
    ∀ (fuel : Nat) (s : State) (n : Nat), Shape s n → Q s n → prev < n → n - prev ≤ fuel →
      (s.LinkedList prev).type = TYPE.H → (s.LinkedList (prev + 1)).type = TYPE.H →
      (n + 1 = MAX_LINKED_LIST_SIZE ∧ removeNode fuel s prev = .error Fault.outOfBounds) ∨
      ∃ s' n', removeNode fuel s prev = .ok s' ∧ Shape s' n' ∧ Q s' n' ∧ prev ≤ n' ∧ n' < n ∧
        (s'.LinkedList prev).type = TYPE.H ∧
        (prev < n' → (s'.LinkedList (prev + 1)).type ≠ TYPE.H) := by
  intro fuel
  induction fuel with
  | zero =>
    intro s n _ _ h1 h2
    omega
  | succ fuel ih =>
    intro s n hs hq hprev hfuel hH1 hH2
    by_cases hcap : n + 1 = MAX_LINKED_LIST_SIZE
    · left
      exact ⟨hcap, removeNode_fault fuel s prev n hs.last hprev hcap⟩
    · right
      have hb := hs.bound
      have hcap2 : n + 1 < MAX_LINKED_LIST_SIZE := by omega
      have hs1 : Shape (removeStep s prev) (n - 1) := shape_removeStep hs prev hprev hcap2
      have hq1 := hQ s n hs hq hprev hcap2 hH1 hH2
      have hT : ((removeStep s prev).LinkedList prev).type = TYPE.H := by
        rw [removeStep_at]; exact hH1
      rw [removeNode_succ fuel s prev n hs.last hprev hcap2]
      by_cases hc : ((removeStep s prev).LinkedList (prev + 1)).in_use ≠ 0
          ∧ ((removeStep s prev).LinkedList (prev + 1)).type = TYPE.H
      · rw [if_pos hc]
        have hlt : prev < n - 1 := by
          by_contra hcon
          have := hs1.unused (prev + 1) (by omega) (by omega)
          rw [this] at hc
          exact hc.1 rfl
        rcases ih (removeStep s prev) (n - 1) hs1 hq1 hlt (by omega) hT hc.2 with h | h
        · omega
        · obtain ⟨s', n', e, h1, h2, h3, h4, h5, h6⟩ := h
          exact ⟨s', n', e, h1, h2, h3, by omega, h5, h6⟩
      · rw [if_neg hc]
        refine ⟨removeStep s prev, n - 1, rfl, hs1, hq1, by omega, by omega, hT, ?_⟩
        intro hlt htype
        apply hc
        refine ⟨?_, htype⟩
        rw [hs1.used (prev + 1) (by omega)]
        decide

theorem freeCoalesce_run (Q : State → Nat → Prop)
    (hQ : ∀ prev s n, Shape s n → Q s n → prev < n → n + 1 < MAX_LINKED_LIST_SIZE →
      (s.LinkedList prev).type = TYPE.H → (s.LinkedList (prev + 1)).type = TYPE.H →
      Q (removeStep s prev) (n - 1)) :
    ∀ (cnt i : Nat) (s : State) (n : Nat), Shape s n → Q s n →
      i + cnt = MAX_LINKED_LIST_SIZE - 1 →
      (∀ j, j < i → j < n →
        ¬ ((s.LinkedList j).type = TYPE.H ∧ (s.LinkedList (j + 1)).type = TYPE.H)) →
      (n + 1 = MAX_LINKED_LIST_SIZE ∧ freeCoalesce cnt i s = .error Fault.outOfBounds) ∨
      ∃ s' n', freeCoalesce cnt i s = .ok s' ∧ Shape s' n' ∧ Q s' n' ∧ n' ≤ n ∧ NoAdj s' n' := by
  intro cnt
  induction cnt with
  | zero =>
    intro i s n hs hq hi hpairs
    right
    refine ⟨s, n, rfl, hs, hq, le_refl n, ?_⟩
    intro j hj
    have := hs.bound
    exact hpairs j (by omega) hj
  | succ cnt ih =>
    intro i s n hs hq hi hpairs
    rw [freeCoalesce]
    by_cases hu : (s.LinkedList i).in_use = 0
    · rw [if_pos hu]
      right
      refine ⟨s, n, rfl, hs, hq, le_refl n, ?_⟩
      intro j hj
      have hin : n < i := by
        by_contra hc
        have := hs.used i (by omega)
        omega
      exact hpairs j (by omega) hj
    · rw [if_neg hu]
      have hin : i ≤ n := by
        by_contra hc
        exact hu (by rw [hs.unused i (by omega) (by omega)]; rfl)
      by_cases hc : (s.LinkedList i).type = TYPE.H ∧ (s.LinkedList (i + 1)).in_use ≠ 0
          ∧ (s.LinkedList (i + 1)).type = TYPE.H
      · rw [if_pos hc]
        have hlt : i < n := by
          by_contra hcon
          exact hc.2.1 (by rw [hs.unused (i + 1) (by omega) (by omega)]; rfl)
        have hb := hs.bound
        rcases removeNode_run
            (fun t m => Q t m ∧ ∀ j, j < i → t.LinkedList j = s.LinkedList j) i
            (fun t m ht hqt h1 h2 h3 h4 =>
              ⟨hQ i t m ht hqt.1 h1 h2 h3 h4, fun j hj => by
                rw [removeStep_lt t i j hj]; exact hqt.2 j hj⟩)
            MAX_LINKED_LIST_SIZE s n hs ⟨hq, fun _ _ => rfl⟩ hlt (by omega) hc.1 hc.2.2 with h | h
        · left
          rw [h.2]
          exact ⟨h.1, rfl⟩
        · obtain ⟨s', n', e, hs', hq', h3, h4, h5, h6⟩ := h
          rw [e]
          have hpairs' : ∀ j, j < i + 1 → j < n' →
              ¬ ((s'.LinkedList j).type = TYPE.H ∧ (s'.LinkedList (j + 1)).type = TYPE.H) := by
            intro j hj1 hj2 hboth
            by_cases hji : j = i
            · subst hji
              exact h6 hj2 hboth.2
            · have hjlt : j < i := by omega
              by_cases hj3 : j + 1 = i
              · apply hpairs j hjlt (by omega)
                rw [← hq'.2 j hjlt, hj3]
                exact ⟨hboth.1, hc.1⟩
              · apply hpairs j hjlt (by omega)
                rw [← hq'.2 j hjlt, ← hq'.2 (j + 1) (by omega)]
                exact hboth
          rcases ih (i + 1) s' n' hs' hq'.1 (by omega) hpairs' with h | h
          · omega
          · obtain ⟨s'', n'', e2, k1, k2, k3, k4⟩ := h
            right
            exact ⟨s'', n'', e2, k1, k2, by omega, k4⟩
      · rw [if_neg hc]
        have hpairs' : ∀ j, j < i + 1 → j < n →
            ¬ ((s.LinkedList j).type = TYPE.H ∧ (s.LinkedList (j + 1)).type = TYPE.H) := by
          intro j hj1 hj2 hboth
          by_cases hji : j = i
          · subst hji
            apply hc
            refine ⟨hboth.1, ?_, hboth.2⟩
            rw [hs.used (j + 1) (by omega)]
            decide
          · exact hpairs j (by omega) hj2 hboth
        exact ih (i + 1) s n hs hq (by omega) hpairs'

/-! ## mavalloc_alloc: scan, then insert -/

theorem mavalloc_alloc_eq (s : State) (size : Nat) (h1 : size ≠ 0) (h2 : s.initialized ≠ 0) :
    mavalloc_alloc s size =
      match selectHole s (ALIGN4 size) with
      | .error e => .error e
      | .ok none => .ok (s, 0)
      | .ok (some i) => allocAt s (ALIGN4 size) i (usesCursor s.alg) := by
  rw [mavalloc_alloc, if_neg h1, if_neg h2]
  simp only [selectHole]
  cases s.alg with
  | FIRST_FIT =>
    simp only [usesCursor]
    cases firstFitScan s.LinkedList (ALIGN4 size) MAX_LINKED_LIST_SIZE 0 <;> rfl
  | NEXT_FIT =>
    simp only [usesCursor]
    cases nextFitScan s.LinkedList (ALIGN4 size)
        (MAX_LINKED_LIST_SIZE - cursorScan s.LinkedList s.lastAlloc MAX_LINKED_LIST_SIZE 0 (-1)).toNat
        (cursorScan s.LinkedList s.lastAlloc MAX_LINKED_LIST_SIZE 0 (-1) + 1).toNat with
    | error e => rfl
    | ok o =>
      cases o with
      | some j => rfl
      | none =>
        simp only []
        cases wrapScan s.LinkedList (ALIGN4 size)
          (cursorScan s.LinkedList s.lastAlloc MAX_LINKED_LIST_SIZE 0 (-1) + 1).toNat 0 <;> rfl
  | BEST_FIT =>
    simp only [usesCursor]
    by_cases h : bestFitScan s.LinkedList (ALIGN4 size) MAX_LINKED_LIST_SIZE 0 (-1) INT_MAX ≠ -1
    · simp only [if_pos h]
    · simp only [if_neg h]
  | WORST_FIT =>
    simp only [usesCursor]
    by_cases h : worstFitScan s.LinkedList (ALIGN4 size) MAX_LINKED_LIST_SIZE 0 (-1) (-1) ≠ -1
    · simp only [if_pos h]
    · simp only [if_neg h]

/-! ## The scans -/

theorem firstFitScan_spec {s : State} {n : Nat} (hs : Shape s n) (req : Nat) :
    ∀ (cnt i : Nat), i + cnt = MAX_LINKED_LIST_SIZE → i ≤ n + 1 →
      (∃ k, firstFitScan s.LinkedList req cnt i = some k ∧ i ≤ k ∧ k ≤ n
          ∧ fits (s.LinkedList k) req ∧ ∀ j, i ≤ j → j < k → ¬ fits (s.LinkedList j) req) ∨
      (firstFitScan s.LinkedList req cnt i = none
          ∧ ∀ j, i ≤ j → j ≤ n → ¬ fits (s.LinkedList j) req) := by
  intro cnt
  induction cnt with
  | zero =>
    intro i h1 h2
    right
    refine ⟨rfl, ?_⟩
    intro j hj1 hj2
    have := hs.bound
    omega
  | succ cnt ih =>
    intro i h1 h2
    rw [firstFitScan]
    by_cases hu : (s.LinkedList i).in_use = 0
    · right
      rw [if_pos hu]
      refine ⟨rfl, ?_⟩
      intro j hj1 hj2
      have := hs.used i (by omega)
      omega
    · rw [if_neg hu]
      have hin : i ≤ n := by
        by_contra hc
        exact hu (by rw [hs.unused i (by omega) (by omega)]; rfl)
      by_cases hf : fits (s.LinkedList i) req
      · left
        rw [if_pos hf]
        exact ⟨i, rfl, le_refl i, hin, hf, fun j h3 h4 => by omega⟩
      · rw [if_neg hf]
        rcases ih (i + 1) (by omega) (by omega) with h | h
        · left
          obtain ⟨k, e, k1, k2, k3, k4⟩ := h
          refine ⟨k, e, by omega, k2, k3, ?_⟩
          intro j hj1 hj2
          by_cases hji : j = i
          · subst hji; exact hf
          · exact k4 j (by omega) hj2
        · right
          refine ⟨h.1, ?_⟩
          intro j hj1 hj2
          by_cases hji : j = i
          · subst hji; exact hf
          · exact h.2 j (by omega) hj2

theorem cursorScan_spec {s : State} {n : Nat} (hs : Shape s n) (la : Nat) :
    ∀ (cnt i : Nat) (acc : Int), i + cnt = MAX_LINKED_LIST_SIZE → i ≤ n + 1 →
      (cursorScan s.LinkedList la cnt i acc = acc
          ∧ ∀ j, i ≤ j → j ≤ n → (s.LinkedList j).arena ≠ la) ∨
      (∃ k : Nat, cursorScan s.LinkedList la cnt i acc = (k : Int) ∧ i ≤ k ∧ k ≤ n
          ∧ (s.LinkedList k).arena = la ∧ ∀ j, k < j → j ≤ n → (s.LinkedList j).arena ≠ la) := by
  intro cnt
  induction cnt with
  | zero =>
    intro i acc h1 h2
    left
    refine ⟨rfl, ?_⟩
    intro j hj1 hj2
    have := hs.bound
    omega
  | succ cnt ih =>
    intro i acc h1 h2
    rw [cursorScan]
    by_cases hu : (s.LinkedList i).in_use = 0
    · left
      rw [if_pos hu]
      refine ⟨rfl, ?_⟩
      intro j hj1 hj2
      have := hs.used i (by omega)
      omega
    · rw [if_neg hu]
      have hin : i ≤ n := by
        by_contra hc
        exact hu (by rw [hs.unused i (by omega) (by omega)]; rfl)
      by_cases hp : la = (s.LinkedList i).arena
      · rw [if_pos hp]
        right
        rcases ih (i + 1) (i : Int) (by omega) (by omega) with h | h
        · exact ⟨i, h.1, le_refl i, hin, hp.symm, fun j hj1 hj2 => h.2 j (by omega) hj2⟩
        · obtain ⟨k, e, k1, k2, k3, k4⟩ := h
          exact ⟨k, e, by omega, k2, k3, k4⟩
      · rw [if_neg hp]
        rcases ih (i + 1) acc (by omega) (by omega) with h | h
        · left
          refine ⟨h.1, ?_⟩
          intro j hj1 hj2
          by_cases hji : j = i
          · subst hji; exact fun e => hp e.symm
          · exact h.2 j (by omega) hj2
        · right
          obtain ⟨k, e, k1, k2, k3, k4⟩ := h
          exact ⟨k, e, by omega, k2, k3, k4⟩

theorem nextFitScan_spec {s : State} {n : Nat} (hs : Shape s n) (req : Nat) :
    ∀ (cnt j0 : Nat), j0 + cnt = MAX_LINKED_LIST_SIZE + 1 → j0 ≤ n + 1 →
      (∃ k, nextFitScan s.LinkedList req cnt j0 = .ok (some k) ∧ j0 ≤ k ∧ k ≤ n
          ∧ fits (s.LinkedList k) req ∧ ∀ j, j0 ≤ j → j < k → ¬ fits (s.LinkedList j) req) ∨
      (nextFitScan s.LinkedList req cnt j0 = .ok none ∧ n + 1 < MAX_LINKED_LIST_SIZE
          ∧ ∀ j, j0 ≤ j → j ≤ n → ¬ fits (s.LinkedList j) req) ∨
      (nextFitScan s.LinkedList req cnt j0 = .error Fault.outOfBounds
          ∧ n + 1 = MAX_LINKED_LIST_SIZE
          ∧ ∀ j, j0 ≤ j → j ≤ n → ¬ fits (s.LinkedList j) req) := by
  intro cnt
  induction cnt with
  | zero =>
    intro j0 h1 h2
    have := hs.bound
    omega
  | succ cnt ih =>
    intro j0 h1 h2
    have hb := hs.bound
    rw [nextFitScan]
    by_cases hlt : j0 < MAX_LINKED_LIST_SIZE
    · rw [if_pos hlt]
      by_cases hu : (s.LinkedList j0).in_use = 0
      · right; left
        rw [if_pos hu]
        have hin : n < j0 := by
          by_contra hc
          have := hs.used j0 (by omega)
          omega
        exact ⟨rfl, by omega, fun j hj1 hj2 => by omega⟩
      · rw [if_neg hu]
        have hin : j0 ≤ n := by
          by_contra hc
          exact hu (by rw [hs.unused j0 (by omega) hlt]; rfl)
        by_cases hf : fits (s.LinkedList j0) req
        · left
          rw [if_pos hf]
          exact ⟨j0, rfl, le_refl j0, hin, hf, fun j h3 h4 => by omega⟩
        · rw [if_neg hf]
          have hstep : ∀ j, j0 ≤ j → j ≤ n →
              (∀ j, j0 + 1 ≤ j → j ≤ n → ¬ fits (s.LinkedList j) req) →
              ¬ fits (s.LinkedList j) req := by
            intro j hj1 hj2 hall
            by_cases hji : j = j0
            · subst hji; exact hf
            · exact hall j (by omega) hj2
          rcases ih (j0 + 1) (by omega) (by omega) with h | h | h
          · left
            obtain ⟨k, e, k1, k2, k3, k4⟩ := h
            refine ⟨k, e, by omega, k2, k3, ?_⟩
            intro j hj1 hj2
            by_cases hji : j = j0
            · subst hji; exact hf
            · exact k4 j (by omega) hj2
          · right; left
            exact ⟨h.1, h.2.1, fun j hj1 hj2 => hstep j hj1 hj2 h.2.2⟩
          · right; right
            exact ⟨h.1, h.2.1, fun j hj1 hj2 => hstep j hj1 hj2 h.2.2⟩
    · right; right
      rw [if_neg hlt]
      exact ⟨rfl, by omega, fun j hj1 hj2 => by omega⟩

theorem wrapScan_spec (L : Nat → Node) (req : Nat) :
    ∀ (cnt i : Nat),
      (∃ k, wrapScan L req cnt i = some k ∧ i ≤ k ∧ k < i + cnt
          ∧ fits (L k) req ∧ ∀ j, i ≤ j → j < k → ¬ fits (L j) req) ∨
      (wrapScan L req cnt i = none ∧ ∀ j, i ≤ j → j < i + cnt → ¬ fits (L j) req) := by
  intro cnt
  induction cnt with
  | zero =>
    intro i
    right
    exact ⟨rfl, fun j hj1 hj2 => by omega⟩
  | succ cnt ih =>
    intro i
    rw [wrapScan]
    by_cases hf : fits (L i) req
    · left
      rw [if_pos hf]
      exact ⟨i, rfl, le_refl i, by omega, hf, fun j h3 h4 => by omega⟩
    · rw [if_neg hf]
      rcases ih (i + 1) with h | h
      · left
        obtain ⟨k, e, k1, k2, k3, k4⟩ := h
        refine ⟨k, e, by omega, by omega, k3, ?_⟩
        intro j hj1 hj2
        by_cases hji : j = i
        · subst hji; exact hf
        · exact k4 j (by omega) hj2
      · right
        refine ⟨h.1, ?_⟩
        intro j hj1 hj2
        by_cases hji : j = i
        · subst hji; exact hf
        · exact h.2 j (by omega) (by omega)

theorem bestFitScan_spec {s : State} {n : Nat} (hs : Shape s n) (req : Nat) :
    ∀ (cnt i : Nat) (idx0 w0 : Int), i + cnt = MAX_LINKED_LIST_SIZE → i ≤ n + 1 →
      (bestFitScan s.LinkedList req cnt i idx0 w0 = idx0
          ∧ ∀ j, i ≤ j → j ≤ n → fits (s.LinkedList j) req →
              ¬ (leftoverOf (s.LinkedList j) req < w0)) ∨
      (∃ k : Nat, bestFitScan s.LinkedList req cnt i idx0 w0 = (k : Int) ∧ i ≤ k ∧ k ≤ n
          ∧ fits (s.LinkedList k) req ∧ leftoverOf (s.LinkedList k) req < w0
          ∧ (∀ j, i ≤ j → j ≤ n → fits (s.LinkedList j) req →
              leftoverOf (s.LinkedList k) req ≤ leftoverOf (s.LinkedList j) req)
          ∧ (∀ j, i ≤ j → j < k → fits (s.LinkedList j) req →
              leftoverOf (s.LinkedList k) req < leftoverOf (s.LinkedList j) req)) := by
  intro cnt
  induction cnt with
  | zero =>
    intro i idx0 w0 h1 h2
    left
    refine ⟨rfl, ?_⟩
    intro j hj1 hj2
    have := hs.bound
    omega
  | succ cnt ih =>
    intro i idx0 w0 h1 h2
    rw [bestFitScan]
    by_cases hu : (s.LinkedList i).in_use = 0
    · left
      rw [if_pos hu]
      refine ⟨rfl, ?_⟩
      intro j hj1 hj2
      have := hs.used i (by omega)
      omega
    · rw [if_neg hu]
      have hin : i ≤ n := by
        by_contra hc
        exact hu (by rw [hs.unused i (by omega) (by omega)]; rfl)
      by_cases hc : fits (s.LinkedList i) req ∧ leftoverOf (s.LinkedList i) req < w0
      · rw [if_pos hc]
        right
        rcases ih (i + 1) (i : Int) (leftoverOf (s.LinkedList i) req) (by omega) (by omega)
          with h | h
        · refine ⟨i, h.1, le_refl i, hin, hc.1, hc.2, ?_, fun j h3 h4 => by omega⟩
          intro j hj1 hj2 hf
          by_cases hji : j = i
          · subst hji; exact le_refl _
          · have := h.2 j (by omega) hj2 hf
            omega
        · obtain ⟨k, e, k1, k2, k3, k4, k5, k6⟩ := h
          refine ⟨k, e, by omega, k2, k3, by omega, ?_, ?_⟩
          · intro j hj1 hj2 hf
            by_cases hji : j = i
            · subst hji; omega
            · exact k5 j (by omega) hj2 hf
          · intro j hj1 hj2 hf
            by_cases hji : j = i
            · subst hji; exact k4
            · exact k6 j (by omega) hj2 hf
      · rw [if_neg hc]
        rcases ih (i + 1) idx0 w0 (by omega) (by omega) with h | h
        · left
          refine ⟨h.1, ?_⟩
          intro j hj1 hj2 hf
          by_cases hji : j = i
          · subst hji; exact fun hlt => hc ⟨hf, hlt⟩
          · exact h.2 j (by omega) hj2 hf
        · right
          obtain ⟨k, e, k1, k2, k3, k4, k5, k6⟩ := h
          refine ⟨k, e, by omega, k2, k3, k4, ?_, ?_⟩
          · intro j hj1 hj2 hf
            by_cases hji : j = i
            · subst hji
              have : ¬ (leftoverOf (s.LinkedList j) req < w0) := fun hlt => hc ⟨hf, hlt⟩
              omega
            · exact k5 j (by omega) hj2 hf
          · intro j hj1 hj2 hf
            by_cases hji : j = i
            · subst hji
              have : ¬ (leftoverOf (s.LinkedList j) req < w0) := fun hlt => hc ⟨hf, hlt⟩
              omega
            · exact k6 j (by omega) hj2 hf

theorem worstFitScan_spec {s : State} {n : Nat} (hs : Shape s n) (req : Nat) :
    ∀ (cnt i : Nat) (idx0 w0 : Int), i + cnt = MAX_LINKED_LIST_SIZE → i ≤ n + 1 →
      (worstFitScan s.LinkedList req cnt i idx0 w0 = idx0
          ∧ ∀ j, i ≤ j → j ≤ n → fits (s.LinkedList j) req →
              ¬ (leftoverOf (s.LinkedList j) req > w0)) ∨
      (∃ k : Nat, worstFitScan s.LinkedList req cnt i idx0 w0 = (k : Int) ∧ i ≤ k ∧ k ≤ n
          ∧ fits (s.LinkedList k) req ∧ leftoverOf (s.LinkedList k) req > w0
          ∧ (∀ j, i ≤ j → j ≤ n → fits (s.LinkedList j) req →
              leftoverOf (s.LinkedList k) req ≥ leftoverOf (s.LinkedList j) req)
          ∧ (∀ j, i ≤ j → j < k → fits (s.LinkedList j) req →
              leftoverOf (s.LinkedList k) req > leftoverOf (s.LinkedList j) req)) := by
  intro cnt
  induction cnt with
  | zero =>
    intro i idx0 w0 h1 h2
    left
    refine ⟨rfl, ?_⟩
    intro j hj1 hj2
    have := hs.bound
    omega
  | succ cnt ih =>
    intro i idx0 w0 h1 h2
    rw [worstFitScan]
    by_cases hu : (s.LinkedList i).in_use = 0
    · left
      rw [if_pos hu]
      refine ⟨rfl, ?_⟩
      intro j hj1 hj2
      have := hs.used i (by omega)
      omega
    · rw [if_neg hu]
      have hin : i ≤ n := by
        by_contra hc
        exact hu (by rw [hs.unused i (by omega) (by omega)]; rfl)
      by_cases hc : fits (s.LinkedList i) req ∧ leftoverOf (s.LinkedList i) req > w0
      · rw [if_pos hc]
        right
        rcases ih (i + 1) (i : Int) (leftoverOf (s.LinkedList i) req) (by omega) (by omega)
          with h | h
        · refine ⟨i, h.1, le_refl i, hin, hc.1, hc.2, ?_, fun j h3 h4 => by omega⟩
          intro j hj1 hj2 hf
          by_cases hji : j = i
          · subst hji; exact le_refl _
          · have := h.2 j (by omega) hj2 hf
            omega
        · obtain ⟨k, e, k1, k2, k3, k4, k5, k6⟩ := h
          refine ⟨k, e, by omega, k2, k3, by omega, ?_, ?_⟩
          · intro j hj1 hj2 hf
            by_cases hji : j = i
            · subst hji; omega
            · exact k5 j (by omega) hj2 hf
          · intro j hj1 hj2 hf
            by_cases hji : j = i
            · subst hji; exact k4
            · exact k6 j (by omega) hj2 hf
      · rw [if_neg hc]
        rcases ih (i + 1) idx0 w0 (by omega) (by omega) with h | h
        · left
          refine ⟨h.1, ?_⟩
          intro j hj1 hj2 hf
          by_cases hji : j = i
          · subst hji; exact fun hlt => hc ⟨hf, hlt⟩
          · exact h.2 j (by omega) hj2 hf
        · right
          obtain ⟨k, e, k1, k2, k3, k4, k5, k6⟩ := h
          refine ⟨k, e, by omega, k2, k3, k4, ?_, ?_⟩
          · intro j hj1 hj2 hf
            by_cases hji : j = i
            · subst hji
              have : ¬ (leftoverOf (s.LinkedList j) req > w0) := fun hlt => hc ⟨hf, hlt⟩
              omega
            · exact k5 j (by omega) hj2 hf
          · intro j hj1 hj2 hf
            by_cases hji : j = i
            · subst hji
              have : ¬ (leftoverOf (s.LinkedList j) req > w0) := fun hlt => hc ⟨hf, hlt⟩
              omega
            · exact k6 j (by omega) hj2 hf

/-! ## The outcome of an allocation -/

theorem setCursor_list (c : Bool) (t : State) (p : Nat) :
    (setCursor c t p).LinkedList = t.LinkedList := by
  cases c <;> rfl

theorem setCursor_lastUsed (c : Bool) (t : State) (p : Nat) :
    (setCursor c t p).lastUsed = t.lastUsed := by
  cases c <;> rfl

theorem setCursor_gArena (c : Bool) (t : State) (p : Nat) :
    (setCursor c t p).gArena = t.gArena := by
  cases c <;> rfl

theorem setCursor_alg (c : Bool) (t : State) (p : Nat) :
    (setCursor c t p).alg = t.alg := by
  cases c <;> rfl

theorem shape_setCursor {t : State} {n : Nat} (h : Shape t n) (c : Bool) (p : Nat) :
    Shape (setCursor c t p) n := by
  cases c
  · exact h
  · exact ⟨h.initialized, h.last, h.bound, h.used, h.unused, h.mod4⟩

theorem noAdj_setCursor {t : State} {n : Nat} (h : NoAdj t n) (c : Bool) (p : Nat) :
    NoAdj (setCursor c t p) n := by
  cases c
  · exact h
  · exact h

theorem sane_setCursor {t : State} {n total : Nat} (h : Sane t n total) (c : Bool) (p : Nat) :
    Sane (setCursor c t p) n total := by
  cases c
  · exact h
  · exact ⟨h.base_ne, h.total_le, h.fit, h.first, h.chain, h.nonneg, h.lo, h.hi, h.last_end⟩

theorem allocAt_exact (s : State) (req k : Nat) (c : Bool) (hk : k < MAX_LINKED_LIST_SIZE)
    (hsize : toInt req = (s.LinkedList k).size) :
    allocAt s req k c = .ok (setCursor c (markStep s k) (s.LinkedList k).arena,
      (s.LinkedList k).arena) := by
  rw [allocAt, insertNode_exact s _ k hk hsize]
  simp only []
  rw [if_pos hk, markStep_at]
  cases c <;> rfl

theorem allocAt_split (s : State) (req k n : Nat) (c : Bool) (hlast : s.lastUsed = (n : Int))
    (hk : k ≤ n) (hcap : n + 1 < MAX_LINKED_LIST_SIZE)
    (hsize : toInt req ≠ (s.LinkedList k).size) :
    allocAt s req k c = .ok (setCursor c (splitStep s (toInt req) k) (s.LinkedList k).arena,
      (s.LinkedList k).arena) := by
  rw [allocAt, insertNode_split s _ k n hlast hk hcap hsize]
  simp only []
  rw [if_pos (by omega), splitStep_at]
  cases c <;> rfl

theorem allocAt_fault (s : State) (req k n : Nat) (c : Bool) (hlast : s.lastUsed = (n : Int))
    (hk : k ≤ n) (hcap : n + 1 = MAX_LINKED_LIST_SIZE)
    (hsize : toInt req ≠ (s.LinkedList k).size) :
    allocAt s req k c = .error Fault.outOfBounds := by
  rw [allocAt, insertNode_fault s _ k n hlast hk hcap hsize]

theorem selectHole_some {s : State} {n : Nat} (hs : Shape s n) (req k : Nat)
    (h : selectHole s req = .ok (some k)) : k ≤ n ∧ fits (s.LinkedList k) req := by
  have hb := hs.bound
  unfold selectHole at h
  cases halg : s.alg with
  | FIRST_FIT =>
    rw [halg] at h
    simp only [Except.ok.injEq] at h
    rcases firstFitScan_spec hs req MAX_LINKED_LIST_SIZE 0 (by omega) (by omega) with h1 | h1
    · obtain ⟨k', e, _, k2, k3, _⟩ := h1
      rw [e] at h
      cases h
      exact ⟨k2, k3⟩
    · rw [h1.1] at h
      cases h
  | NEXT_FIT =>
    rw [halg] at h
    simp only [] at h
    rcases cursorScan_spec hs s.lastAlloc MAX_LINKED_LIST_SIZE 0 (-1) (by omega) (by omega)
      with hc | hc
    · rw [hc.1] at h
      rcases nextFitScan_spec hs req (MAX_LINKED_LIST_SIZE + 1) 0 (by omega) (by omega)
        with h1 | h1 | h1
      · obtain ⟨k', e, _, k2, k3, _⟩ := h1
        have e' : nextFitScan s.LinkedList req ((MAX_LINKED_LIST_SIZE : Int) - -1).toNat
            ((-1 : Int) + 1).toNat = .ok (some k') := e
        rw [e'] at h
        cases h
        exact ⟨k2, k3⟩
      · have e' : nextFitScan s.LinkedList req ((MAX_LINKED_LIST_SIZE : Int) - -1).toNat
            ((-1 : Int) + 1).toNat = .ok none := h1.1
        rw [e'] at h
        have e2 : wrapScan s.LinkedList req ((-1 : Int) + 1).toNat 0 = none := rfl
        simp only [e2] at h
        cases h
      · have e' : nextFitScan s.LinkedList req ((MAX_LINKED_LIST_SIZE : Int) - -1).toNat
            ((-1 : Int) + 1).toNat = .error Fault.outOfBounds := h1.1
        rw [e'] at h
        cases h
    · obtain ⟨c, ec, _, c2, _, _⟩ := hc
      rw [ec] at h
      have e1 : ((MAX_LINKED_LIST_SIZE : Int) - (c : Int)).toNat = MAX_LINKED_LIST_SIZE - c := by
        omega
      have e2 : ((c : Int) + 1).toNat = c + 1 := by omega
      rw [e1, e2] at h
      rcases nextFitScan_spec hs req (MAX_LINKED_LIST_SIZE - c) (c + 1) (by omega) (by omega)
        with h1 | h1 | h1
      · obtain ⟨k', e, _, k2, k3, _⟩ := h1
        rw [e] at h
        cases h
        exact ⟨k2, k3⟩
      · rw [h1.1] at h
        simp only [] at h
        rcases wrapScan_spec s.LinkedList req (c + 1) 0 with h2 | h2
        · obtain ⟨k', e, _, k2, k3, _⟩ := h2
          rw [e] at h
          cases h
          exact ⟨by omega, k3⟩
        · rw [h2.1] at h
          cases h
      · rw [h1.1] at h
        cases h
  | BEST_FIT =>
    rw [halg] at h
    simp only [] at h
    rcases bestFitScan_spec hs req MAX_LINKED_LIST_SIZE 0 (-1) INT_MAX (by omega) (by omega)
      with h1 | h1
    · rw [h1.1] at h
      simp at h
    · obtain ⟨k', e, _, k2, k3, _⟩ := h1
      rw [e] at h
      have hne : (k' : Int) ≠ -1 := by omega
      rw [if_pos hne] at h
      simp only [Except.ok.injEq, Option.some.injEq, Int.toNat_ofNat] at h
      subst h
      exact ⟨k2, k3⟩
  | WORST_FIT =>
    rw [halg] at h
    simp only [] at h
    rcases worstFitScan_spec hs req MAX_LINKED_LIST_SIZE 0 (-1) (-1) (by omega) (by omega)
      with h1 | h1
    · rw [h1.1] at h
      simp at h
    · obtain ⟨k', e, _, k2, k3, _⟩ := h1
      rw [e] at h
      have hne : (k' : Int) ≠ -1 := by omega
      rw [if_pos hne] at h
      simp only [Except.ok.injEq, Option.some.injEq, Int.toNat_ofNat] at h
      subst h
      exact ⟨k2, k3⟩

theorem selectHole_error {s : State} {n : Nat} (hs : Shape s n) (req : Nat) (e : Fault)
    (h : selectHole s req = .error e) :
    n + 1 = MAX_LINKED_LIST_SIZE ∧ e = Fault.outOfBounds ∧ s.alg = ALGORITHM.NEXT_FIT := by
  have hb := hs.bound
  unfold selectHole at h
  cases halg : s.alg with
  | FIRST_FIT => rw [halg] at h; cases h
  | NEXT_FIT =>
    rw [halg] at h
    simp only [] at h
    have key : ∀ (cnt j0 : Nat), j0 + cnt = MAX_LINKED_LIST_SIZE + 1 → j0 ≤ n + 1 →
        (match nextFitScan s.LinkedList req cnt j0 with
          | .error e => (.error e : Except Fault (Option Nat))
          | .ok (some j) => .ok (some j)
          | .ok none => .ok (wrapScan s.LinkedList req j0 0)) = .error e →
        n + 1 = MAX_LINKED_LIST_SIZE ∧ e = Fault.outOfBounds := by
      intro cnt j0 a1 a2 a3
      rcases nextFitScan_spec hs req cnt j0 a1 a2 with h1 | h1 | h1
      · obtain ⟨k', e', _⟩ := h1
        rw [e'] at a3
        cases a3
      · rw [h1.1] at a3
        cases a3
      · rw [h1.1] at a3
        cases a3
        exact ⟨h1.2.1, rfl⟩
    rcases cursorScan_spec hs s.lastAlloc MAX_LINKED_LIST_SIZE 0 (-1) (by omega) (by omega)
      with hc | hc
    · rw [hc.1] at h
      have := key (MAX_LINKED_LIST_SIZE + 1) 0 (by omega) (by omega) h
      exact ⟨this.1, this.2, rfl⟩
    · obtain ⟨c, ec, _, c2, _, _⟩ := hc
      rw [ec] at h
      have e1 : ((MAX_LINKED_LIST_SIZE : Int) - (c : Int)).toNat = MAX_LINKED_LIST_SIZE - c := by
        omega
      have e2 : ((c : Int) + 1).toNat = c + 1 := by omega
      rw [e1, e2] at h
      have := key (MAX_LINKED_LIST_SIZE - c) (c + 1) (by omega) (by omega) h
      exact ⟨this.1, this.2, rfl⟩
  | BEST_FIT =>
    rw [halg] at h
    simp only [] at h
    split at h <;> cases h
  | WORST_FIT =>
    rw [halg] at h
    simp only [] at h
    split at h <;> cases h

/-- Every call of `mavalloc_alloc` on a well-shaped list ends in one of four ways: it returns
`NULL` and leaves the state alone, it faults with a full array, it turns the chosen hole into an
allocation in place, or it splits the chosen hole. -/
theorem alloc_outcome {s : State} {n : Nat} (hs : Shape s n) (size : Nat) :
    (mavalloc_alloc s size = .ok (s, 0)
        ∧ (size = 0 ∨ selectHole s (ALIGN4 size) = .ok none)) ∨
    (n + 1 = MAX_LINKED_LIST_SIZE ∧ size ≠ 0
        ∧ mavalloc_alloc s size = .error Fault.outOfBounds) ∨
    (∃ k, size ≠ 0 ∧ selectHole s (ALIGN4 size) = .ok (some k) ∧ k ≤ n
        ∧ fits (s.LinkedList k) (ALIGN4 size)
        ∧ ((toInt (ALIGN4 size) = (s.LinkedList k).size
            ∧ mavalloc_alloc s size =
                .ok (setCursor (usesCursor s.alg) (markStep s k) (s.LinkedList k).arena,
                  (s.LinkedList k).arena)) ∨
           (toInt (ALIGN4 size) ≠ (s.LinkedList k).size ∧ n + 1 < MAX_LINKED_LIST_SIZE
            ∧ mavalloc_alloc s size =
                .ok (setCursor (usesCursor s.alg) (splitStep s (toInt (ALIGN4 size)) k)
                  (s.LinkedList k).arena, (s.LinkedList k).arena)))) := by
  have hb := hs.bound
  by_cases h0 : size = 0
  · left
    subst h0
    exact ⟨by simp [mavalloc_alloc], Or.inl rfl⟩
  · have hinit : s.initialized ≠ 0 := by rw [hs.initialized]; decide
    have heq := mavalloc_alloc_eq s size h0 hinit
    cases hsel : selectHole s (ALIGN4 size) with
    | error e =>
      right; left
      have := selectHole_error hs _ e hsel
      rw [hsel] at heq
      rw [heq, this.2.1]
      exact ⟨this.1, h0, rfl⟩
    | ok o =>
      cases o with
      | none =>
        left
        rw [hsel] at heq
        exact ⟨heq, Or.inr rfl⟩
      | some k =>
        rw [hsel] at heq
        simp only [] at heq
        have hk := selectHole_some hs _ k hsel
        by_cases hsz : toInt (ALIGN4 size) = (s.LinkedList k).size
        · right; right
          refine ⟨k, h0, rfl, hk.1, hk.2, Or.inl ⟨hsz, ?_⟩⟩
          rw [heq, allocAt_exact s _ k _ (by omega) hsz]
        · by_cases hcap : n + 1 < MAX_LINKED_LIST_SIZE
          · right; right
            refine ⟨k, h0, rfl, hk.1, hk.2, Or.inr ⟨hsz, hcap, ?_⟩⟩
            rw [heq, allocAt_split s _ k n _ hs.last hk.1 hcap hsz]
          · right; left
            refine ⟨by omega, h0, ?_⟩
            rw [heq, allocAt_fault s _ k n _ hs.last hk.1 (by omega) hsz]

/-! ## Every reachable list is well shaped and has no two adjacent holes -/

theorem shape_init (s0 : State) (size : Nat) (algorithm : ALGORITHM) (base : Nat)
    (h1 : size ≠ 0) (h2 : base ≠ 0) :
    Shape (mavalloc_init s0 size algorithm base).1 0 := by
  rw [mavalloc_init, if_neg h1]
  simp only []
  rw [if_neg h2]
  refine ⟨rfl, rfl, by decide, ?_, ?_, ?_⟩
  · intro i hi
    have : i = 0 := by omega
    subst this
    simp [setNode]
  · intro i hi1 hi2
    have : i ≠ 0 := by omega
    simp [setNode, this, hi2]
  · intro i hi
    have : i = 0 := by omega
    subst this
    simp only [setNode, if_true]
    apply toInt_dvd4
    have := ALIGN4_dvd size
    omega

theorem alloc_keeps {s : State} {n : Nat} (hs : Shape s n) (hn : NoAdj s n) (size : Nat)
    (r : State × Nat) (h : mavalloc_alloc s size = .ok r) :
    ∃ n', Shape r.1 n' ∧ NoAdj r.1 n' := by
  rcases alloc_outcome hs size with h1 | h1 | h1
  · rw [h1.1] at h
    cases h
    exact ⟨n, hs, hn⟩
  · rw [h1.2.2] at h
    cases h
  · obtain ⟨k, _, _, hk, hf, h2 | h2⟩ := h1
    · rw [h2.2] at h
      cases h
      exact ⟨n, shape_setCursor (shape_markStep hs k hk) _ _, noAdj_setCursor (noAdj_markStep hn k) _ _⟩
    · rw [h2.2.2] at h
      cases h
      refine ⟨n + 1, shape_setCursor (shape_splitStep hs _ k hk h2.2.1 ?_) _ _,
        noAdj_setCursor (noAdj_splitStep hs hn _ k hk hf.1) _ _⟩
      apply toInt_dvd4
      have := ALIGN4_dvd size
      omega

theorem free_run (Q : State → Nat → Prop)
    (hQ : ∀ prev s n, Shape s n → Q s n → prev < n → n + 1 < MAX_LINKED_LIST_SIZE →
      (s.LinkedList prev).type = TYPE.H → (s.LinkedList (prev + 1)).type = TYPE.H →
      Q (removeStep s prev) (n - 1))
    (hM : ∀ s n ptr, Shape s n → Q s n → Q (markStep_free s ptr n) n)
    {s : State} {n : Nat} (hs : Shape s n) (hq : Q s n) (hn : NoAdj s n) (ptr : Nat) :
    (n + 1 = MAX_LINKED_LIST_SIZE ∧ mavalloc_free s ptr = .error Fault.outOfBounds) ∨
    ∃ s' n', mavalloc_free s ptr = .ok s' ∧ Shape s' n' ∧ Q s' n' ∧ n' ≤ n ∧ NoAdj s' n' := by
  rw [mavalloc_free]
  by_cases hp : ptr = 0
  · right
    rw [if_pos hp]
    exact ⟨s, n, rfl, hs, hq, le_refl n, hn⟩
  · rw [if_neg hp, freeMark_shape hs ptr]
    exact freeCoalesce_run Q hQ (MAX_LINKED_LIST_SIZE - 1) 0 (markStep_free s ptr n) n
      (shape_markStep_free hs ptr) (hM s n ptr hs hq) (by omega) (fun j hj => by omega)

theorem free_keeps {s : State} {n : Nat} (hs : Shape s n) (hn : NoAdj s n) (ptr : Nat)
    (s' : State) (h : mavalloc_free s ptr = .ok s') :
    ∃ n', Shape s' n' ∧ NoAdj s' n' := by
  rcases free_run (fun _ _ => True) (fun _ _ _ _ _ _ _ _ _ => trivial)
      (fun _ _ _ _ _ => trivial) hs trivial hn ptr with h1 | h1
  · rw [h1.2] at h
    cases h
  · obtain ⟨t, n', e, k1, _, _, k4⟩ := h1
    rw [e] at h
    cases h
    exact ⟨n', k1, k4⟩

theorem reachable_shape {base totalSize : Nat} {s : State} (h : Reachable base totalSize s) :
    ∃ n, Shape s n ∧ NoAdj s n := by
  induction h with
  | init s0 algorithm h1 h2 h3 h4 h5 =>
    exact ⟨0, shape_init s0 totalSize algorithm base (by omega) h3, fun i hi => by omega⟩
  | alloc s size r _ _ hr ih =>
    obtain ⟨n, hs, hn⟩ := ih
    exact alloc_keeps hs hn size r hr
  | free s ptr s' _ hr ih =>
    obtain ⟨n, hs, hn⟩ := ih
    exact free_keeps hs hn ptr s' hr

theorem shape_live_iff {s : State} {n : Nat} (hs : Shape s n) (i : Nat) :
    Live s i ↔ i ≤ n := by
  have hb := hs.bound
  constructor
  · intro h
    by_contra hc
    have := hs.unused i (by omega) h.1
    exact h.2 (by rw [this]; rfl)
  · intro h
    exact ⟨by omega, by rw [hs.used i h]; decide⟩

theorem noAdj_noAdjacentHoles {s : State} {n : Nat} (hs : Shape s n) (hn : NoAdj s n) :
    NoAdjacentHoles s := by
  intro i _ h2
  have := (shape_live_iff hs (i + 1)).1 h2
  exact hn i (by omega)

theorem freeCoalesce_noop {s : State} {n : Nat} (hs : Shape s n) (hn : NoAdj s n) :
    ∀ (cnt i : Nat), i + cnt = MAX_LINKED_LIST_SIZE - 1 → freeCoalesce cnt i s = .ok s := by
  intro cnt
  induction cnt with
  | zero => intro i _; rfl
  | succ cnt ih =>
    intro i hi
    rw [freeCoalesce]
    by_cases hu : (s.LinkedList i).in_use = 0
    · rw [if_pos hu]
    · rw [if_neg hu, if_neg, ih (i + 1) (by omega)]
      intro hc
      have hlive : Live s (i + 1) := ⟨by omega, hc.2.1⟩
      have := (shape_live_iff hs (i + 1)).1 hlive
      exact hn i (by omega) ⟨hc.1, hc.2.2⟩

theorem free_noop {s : State} {n : Nat} (hs : Shape s n) (hn : NoAdj s n) (ptr : Nat)
    (h : ptr = 0 ∨ ∀ i, Live s i → (s.LinkedList i).type = TYPE.P → (s.LinkedList i).arena ≠ ptr) :
    mavalloc_free s ptr = .ok s := by
  rw [mavalloc_free]
  by_cases hp : ptr = 0
  · rw [if_pos hp]
  · rw [if_neg hp, freeMark_shape hs ptr]
    have hno : ∀ i, Live s i → (s.LinkedList i).type = TYPE.P → (s.LinkedList i).arena ≠ ptr := by
      rcases h with h | h
      · exact absurd h hp
      · exact h
    have e : markStep_free s ptr n = s := by
      have eL : (markStep_free s ptr n).LinkedList = s.LinkedList := by
        funext j
        rcases markStep_free_entry s ptr n j with h1 | h1
        · exact h1
        · rw [h1.1]
          have hl : Live s j := (shape_live_iff hs j).2 h1.2.1
          have hty : (s.LinkedList j).type = TYPE.H := by
            cases hT : (s.LinkedList j).type with
            | H => rfl
            | P => exact absurd h1.2.2 (hno j hl hT)
          cases hnode : s.LinkedList j with
          | mk a b c d =>
            rw [hnode] at hty
            simp only at hty
            simp [hty]
      cases s with
      | mk a b c d e f =>
        simp only [markStep_free] at eL ⊢
        rw [eL]
    rw [e]
    exact freeCoalesce_noop hs hn _ 0 (by omega)

/-! ## Arenas that fit the `int` range stay tiled -/

theorem ptrAdd_of_range (a : Nat) (x : Int) (h1 : 0 ≤ (a : Int) + x)
    (h2 : (a : Int) + x < 18446744073709551616) : ((ptrAdd a x : Nat) : Int) = (a : Int) + x := by
  unfold ptrAdd
  exact toSizeT_of_nonneg _ h1 h2

theorem sane_size_le {s : State} {n total : Nat} (h : Sane s n total) (k : Nat) (hk : k ≤ n) :
    0 ≤ (s.LinkedList k).size ∧ (s.LinkedList k).size ≤ (total : Int) := by
  have h1 := h.nonneg k hk
  have h2 := h.lo k hk
  have h3 := h.hi k hk
  omega

theorem sane_fits {s : State} {n total : Nat} (h : Sane s n total) (k : Nat) (hk : k ≤ n)
    (req : Nat) (hf : fits (s.LinkedList k) req) :
    (req : Int) ≤ (s.LinkedList k).size ∧ toInt req = (req : Int) := by
  have h1 := sane_size_le h k hk
  have h2 := h.total_le
  have h3 : (toSizeT (s.LinkedList k).size : Int) = (s.LinkedList k).size :=
    toSizeT_of_nonneg _ h1.1 (by omega)
  have h4 : req ≤ toSizeT (s.LinkedList k).size := hf.2
  have h5 : (req : Int) ≤ (s.LinkedList k).size := by omega
  exact ⟨h5, toInt_of_range _ (by omega) (by omega)⟩

theorem sane_init (s0 : State) (size : Nat) (algorithm : ALGORITHM) (base : Nat)
    (h1 : size ≠ 0) (h2 : base ≠ 0) (h3 : size ≤ 2147483644)
    (h4 : base + ALIGN4 size ≤ SIZE_MOD) :
    Sane (mavalloc_init s0 size algorithm base).1 0 (ALIGN4 size) := by
  have hb := ALIGN4_bounds size (by unfold SIZE_MOD; omega)
  have hd := ALIGN4_dvd size
  have ht : toInt (ALIGN4 size) = (ALIGN4 size : Int) := toInt_of_range _ (by omega) (by omega)
  rw [mavalloc_init, if_neg h1]
  simp only []
  rw [if_neg h2]
  refine ⟨h2, by omega, h4, ?_, ?_, ?_, ?_, ?_, ?_⟩
  · simp [setNode]
  · intro i hi; omega
  · intro i hi
    have : i = 0 := by omega
    subst this
    simp only [setNode, if_true]
    omega
  · intro i hi
    have : i = 0 := by omega
    subst this
    simp [setNode]
  · intro i hi
    have : i = 0 := by omega
    subst this
    simp only [setNode, if_true]
    omega
  · simp only [setNode, if_true]
    omega

theorem sane_markStep {s : State} {n total : Nat} (h : Sane s n total) (prev : Nat) :
    Sane (markStep s prev) n total := by
  have e : ∀ j, ((markStep s prev).LinkedList j).arena = (s.LinkedList j).arena
      ∧ ((markStep s prev).LinkedList j).size = (s.LinkedList j).size := by
    intro j
    by_cases hj : j = prev
    · subst hj; rw [markStep_at]; exact ⟨rfl, rfl⟩
    · rw [markStep_other s prev j hj]; exact ⟨rfl, rfl⟩
  refine ⟨h.base_ne, h.total_le, h.fit, ?_, ?_, ?_, ?_, ?_, ?_⟩
  · rw [(e 0).1]; exact h.first
  · intro i hi; rw [(e (i + 1)).1, (e i).1, (e i).2]; exact h.chain i hi
  · intro i hi; rw [(e i).2]; exact h.nonneg i hi
  · intro i hi; rw [(e i).1]; exact h.lo i hi
  · intro i hi; rw [(e i).1, (e i).2]; exact h.hi i hi
  · rw [(e n).1, (e n).2]; exact h.last_end

theorem sane_markStep_free {s : State} {n total : Nat} (h : Sane s n total) (ptr : Nat) :
    Sane (markStep_free s ptr n) n total := by
  have e : ∀ j, ((markStep_free s ptr n).LinkedList j).arena = (s.LinkedList j).arena
      ∧ ((markStep_free s ptr n).LinkedList j).size = (s.LinkedList j).size := by
    intro j
    rcases markStep_free_entry s ptr n j with h1 | h1
    · rw [h1]; exact ⟨rfl, rfl⟩
    · rw [h1.1]; exact ⟨rfl, rfl⟩
  refine ⟨h.base_ne, h.total_le, h.fit, ?_, ?_, ?_, ?_, ?_, ?_⟩
  · rw [(e 0).1]; exact h.first
  · intro i hi; rw [(e (i + 1)).1, (e i).1, (e i).2]; exact h.chain i hi
  · intro i hi; rw [(e i).2]; exact h.nonneg i hi
  · intro i hi; rw [(e i).1]; exact h.lo i hi
  · intro i hi; rw [(e i).1, (e i).2]; exact h.hi i hi
  · rw [(e n).1, (e n).2]; exact h.last_end

theorem sane_splitStep {s : State} {n total : Nat} (hs : Shape s n) (h : Sane s n total)
    (k : Nat) (hk : k ≤ n) (req : Nat) (hf : fits (s.LinkedList k) req)
    (hne : toInt req ≠ (s.LinkedList k).size) :
    Sane (splitStep s (toInt req) k) (n + 1) total := by
  have hfit := sane_fits h k hk req hf
  have hsz := sane_size_le h k hk
  have hlo := h.lo k hk
  have hhi := h.hi k hk
  have htl := h.total_le
  have hft := h.fit
  have hr : toInt req = (req : Int) := hfit.2
  rw [hr] at hne ⊢
  have hlt : (req : Int) < (s.LinkedList k).size := by omega
  have e1 : ∀ j, j < k → (splitStep s (req : Int) k).LinkedList j = s.LinkedList j :=
    fun j hj => splitStep_lt s _ k j hj
  have e2 : ((splitStep s (req : Int) k).LinkedList k).arena = (s.LinkedList k).arena
      ∧ ((splitStep s (req : Int) k).LinkedList k).size = (req : Int) := by
    rw [splitStep_at]; exact ⟨rfl, rfl⟩
  have e3 : (((splitStep s (req : Int) k).LinkedList (k + 1)).arena : Int)
        = (s.LinkedList k).arena + (req : Int)
      ∧ ((splitStep s (req : Int) k).LinkedList (k + 1)).size
        = (s.LinkedList k).size - (req : Int) := by
    rw [splitStep_next]
    have p1 := ptrAdd_of_range (s.LinkedList k).arena (req : Int) (by omega) (by omega)
    have p2 := toInt_of_range ((s.LinkedList k).size - (req : Int)) (by omega) (by omega)
    exact ⟨p1, p2⟩
  have e4 : ∀ j, k + 1 < j → j ≤ n + 1 →
      (splitStep s (req : Int) k).LinkedList j = s.LinkedList (j - 1) :=
    fun j hj1 hj2 => splitStep_gt s _ k j n hs.last hj1 hj2
  refine ⟨h.base_ne, h.total_le, h.fit, ?_, ?_, ?_, ?_, ?_, ?_⟩
  · by_cases h0 : k = 0
    · subst h0; rw [e2.1]; exact h.first
    · rw [e1 0 (by omega)]; exact h.first
  · intro i hi
    by_cases c1 : i + 1 < k
    · rw [e1 (i + 1) c1, e1 i (by omega)]; exact h.chain i (by omega)
    · by_cases c2 : i + 1 = k
      · rw [e1 i (by omega), c2, e2.1, ← c2]; exact h.chain i (by omega)
      · by_cases c3 : i = k
        · subst c3; rw [e3.1, e2.1, e2.2]
        · by_cases c4 : i = k + 1
          · subst c4
            rw [e4 (k + 1 + 1) (by omega) (by omega), e3.1, e3.2]
            have := h.chain k (by omega)
            simp only [Nat.add_sub_cancel]
            omega
          · rw [e4 (i + 1) (by omega) (by omega), e4 i (by omega) (by omega)]
            have := h.chain (i - 1) (by omega)
            have e : i - 1 + 1 = i + 1 - 1 := by omega
            rw [e] at this
            exact this
  · intro i hi
    by_cases c1 : i < k
    · rw [e1 i c1]; exact h.nonneg i (by omega)
    · by_cases c2 : i = k
      · subst c2; rw [e2.2]; omega
      · by_cases c3 : i = k + 1
        · subst c3; rw [e3.2]; omega
        · rw [e4 i (by omega) hi]; exact h.nonneg (i - 1) (by omega)
  · intro i hi
    by_cases c1 : i < k
    · rw [e1 i c1]; exact h.lo i (by omega)
    · by_cases c2 : i = k
      · subst c2; rw [e2.1]; exact hlo
      · by_cases c3 : i = k + 1
        · subst c3
          have := e3.1
          have : (s.gArena : Int) ≤ ((splitStep s (req : Int) k).LinkedList (k + 1)).arena := by
            omega
          show s.gArena ≤ ((splitStep s (req : Int) k).LinkedList (k + 1)).arena
          exact_mod_cast this
        · rw [e4 i (by omega) hi]; exact h.lo (i - 1) (by omega)
  · intro i hi
    show ((((splitStep s (req : Int) k).LinkedList i).arena : Nat) : Int)
      + ((splitStep s (req : Int) k).LinkedList i).size ≤ (s.gArena : Int) + total
    by_cases c1 : i < k
    · rw [e1 i c1]; exact h.hi i (by omega)
    · by_cases c2 : i = k
      · subst c2; rw [e2.1, e2.2]; omega
      · by_cases c3 : i = k + 1
        · subst c3; rw [e3.1, e3.2]; omega
        · rw [e4 i (by omega) hi]; exact h.hi (i - 1) (by omega)
  · show ((((splitStep s (req : Int) k).LinkedList (n + 1)).arena : Nat) : Int)
      + ((splitStep s (req : Int) k).LinkedList (n + 1)).size = (s.gArena : Int) + total
    by_cases c1 : k = n
    · subst c1
      rw [e3.1, e3.2]
      have := h.last_end
      omega
    · rw [e4 (n + 1) (by omega) (by omega)]
      exact h.last_end

theorem sane_removeStep {s : State} {n total : Nat} (hs : Shape s n) (h : Sane s n total)
    (prev : Nat) (hprev : prev < n) :
    Sane (removeStep s prev) (n - 1) total := by
  have hsz1 := sane_size_le h prev (by omega)
  have hsz2 := sane_size_le h (prev + 1) (by omega)
  have hlo := h.lo prev (by omega)
  have hhi := h.hi (prev + 1) (by omega)
  have hch := h.chain prev hprev
  have htl := h.total_le
  have e1 : ∀ j, j < prev → (removeStep s prev).LinkedList j = s.LinkedList j :=
    fun j hj => removeStep_lt s prev j hj
  have e2 : ((removeStep s prev).LinkedList prev).arena = (s.LinkedList prev).arena
      ∧ ((removeStep s prev).LinkedList prev).size
        = (s.LinkedList prev).size + (s.LinkedList (prev + 1)).size := by
    rw [removeStep_at]
    exact ⟨rfl, toInt_of_range _ (by omega) (by omega)⟩
  have e3 : ∀ j, prev < j → j ≤ n →
      (removeStep s prev).LinkedList j = s.LinkedList (j + 1) :=
    fun j hj1 hj2 => removeStep_gt s prev j n hs.last hj1 hj2
  refine ⟨h.base_ne, h.total_le, h.fit, ?_, ?_, ?_, ?_, ?_, ?_⟩
  · by_cases h0 : prev = 0
    · subst h0; rw [e2.1]; exact h.first
    · rw [e1 0 (by omega)]; exact h.first
  · intro i hi
    by_cases c1 : i + 1 < prev
    · rw [e1 (i + 1) c1, e1 i (by omega)]; exact h.chain i (by omega)
    · by_cases c2 : i + 1 = prev
      · rw [e1 i (by omega), c2, e2.1, ← c2]; exact h.chain i (by omega)
      · by_cases c3 : i = prev
        · subst c3
          rw [e3 (i + 1) (by omega) (by omega), e2.1, e2.2]
          have := h.chain (i + 1) (by omega)
          omega
        · rw [e3 (i + 1) (by omega) (by omega), e3 i (by omega) (by omega)]
          exact h.chain (i + 1) (by omega)
  · intro i hi
    by_cases c1 : i < prev
    · rw [e1 i c1]; exact h.nonneg i (by omega)
    · by_cases c2 : i = prev
      · subst c2; rw [e2.2]; omega
      · rw [e3 i (by omega) (by omega)]; exact h.nonneg (i + 1) (by omega)
  · intro i hi
    by_cases c1 : i < prev
    · rw [e1 i c1]; exact h.lo i (by omega)
    · by_cases c2 : i = prev
      · subst c2; rw [e2.1]; exact hlo
      · rw [e3 i (by omega) (by omega)]; exact h.lo (i + 1) (by omega)
  · intro i hi
    show ((((removeStep s prev).LinkedList i).arena : Nat) : Int)
      + ((removeStep s prev).LinkedList i).size ≤ (s.gArena : Int) + total
    by_cases c1 : i < prev
    · rw [e1 i c1]; exact h.hi i (by omega)
    · by_cases c2 : i = prev
      · subst c2; rw [e2.1, e2.2]; omega
      · rw [e3 i (by omega) (by omega)]; exact h.hi (i + 1) (by omega)
  · show ((((removeStep s prev).LinkedList (n - 1)).arena : Nat) : Int)
      + ((removeStep s prev).LinkedList (n - 1)).size = (s.gArena : Int) + total
    by_cases c1 : prev = n - 1
    · have e : n - 1 = prev := c1.symm
      rw [e, e2.1, e2.2]
      have := h.last_end
      have en : n = prev + 1 := by omega
      rw [en] at this
      omega
    · rw [e3 (n - 1) (by omega) (by omega)]
      have e : n - 1 + 1 = n := by omega
      rw [e]
      exact h.last_end

theorem alloc_keeps_sane {s : State} {n total : Nat} (hs : Shape s n) (hn : NoAdj s n)
    (h : Sane s n total) (size : Nat) (r : State × Nat) (hr : mavalloc_alloc s size = .ok r) :
    ∃ n', Shape r.1 n' ∧ NoAdj r.1 n' ∧ Sane r.1 n' total ∧ r.1.gArena = s.gArena := by
  rcases alloc_outcome hs size with h1 | h1 | h1
  · rw [h1.1] at hr
    cases hr
    exact ⟨n, hs, hn, h, rfl⟩
  · rw [h1.2.2] at hr
    cases hr
  · obtain ⟨k, _, _, hk, hf, h2 | h2⟩ := h1
    · rw [h2.2] at hr
      cases hr
      exact ⟨n, shape_setCursor (shape_markStep hs k hk) _ _,
        noAdj_setCursor (noAdj_markStep hn k) _ _, sane_setCursor (sane_markStep h k) _ _,
        by rw [setCursor_gArena]; rfl⟩
    · rw [h2.2.2] at hr
      cases hr
      refine ⟨n + 1, shape_setCursor (shape_splitStep hs _ k hk h2.2.1 ?_) _ _,
        noAdj_setCursor (noAdj_splitStep hs hn _ k hk hf.1) _ _,
        sane_setCursor (sane_splitStep hs h k hk _ hf h2.1) _ _,
        by rw [setCursor_gArena]; rfl⟩
      apply toInt_dvd4
      have := ALIGN4_dvd size
      omega

theorem free_keeps_sane {s : State} {n total : Nat} (hs : Shape s n) (hn : NoAdj s n)
    (h : Sane s n total) (ptr : Nat) (s' : State) (hr : mavalloc_free s ptr = .ok s') :
    ∃ n', Shape s' n' ∧ NoAdj s' n' ∧ Sane s' n' total ∧ s'.gArena = s.gArena := by
  rcases free_run (fun t m => Sane t m total ∧ t.gArena = s.gArena)
      (fun prev t m ht hq h1 _ _ _ => ⟨sane_removeStep ht hq.1 prev h1, hq.2⟩)
      (fun t m p _ hq => ⟨sane_markStep_free hq.1 p, hq.2⟩) hs ⟨h, rfl⟩ hn ptr with h1 | h1
  · rw [h1.2] at hr
    cases hr
  · obtain ⟨t, n', e, k1, k2, _, k4⟩ := h1
    rw [e] at hr
    cases hr
    exact ⟨n', k1, k4, k2.1, k2.2⟩

/-- Every state reached from an arena whose size fits the `int` range is well shaped, has no
two adjacent holes, and its entries tile the arena. -/
theorem reachable_sane {base totalSize : Nat} {s : State} (h : Reachable base totalSize s)
    (hfit : totalSize ≤ 2147483644) :
    ∃ n, Shape s n ∧ NoAdj s n ∧ Sane s n (ALIGN4 totalSize) ∧ s.gArena = base := by
  induction h with
  | init s0 algorithm h1 h2 h3 h4 h5 =>
    refine ⟨0, shape_init s0 totalSize algorithm base (by omega) h3, fun i hi => by omega,
      sane_init s0 totalSize algorithm base (by omega) h3 hfit h5, ?_⟩
    rw [mavalloc_init, if_neg (by omega)]
    simp only []
    rw [if_neg h3]
  | alloc s size r _ _ hr ih =>
    obtain ⟨n, hs, hn, hsane, hg⟩ := ih
    obtain ⟨n', k1, k2, k3, k4⟩ := alloc_keeps_sane hs hn hsane size r hr
    exact ⟨n', k1, k2, k3, by rw [k4, hg]⟩
  | free s ptr s' _ hr ih =>
    obtain ⟨n, hs, hn, hsane, hg⟩ := ih
    obtain ⟨n', k1, k2, k3, k4⟩ := free_keeps_sane hs hn hsane ptr s' hr
    exact ⟨n', k1, k2, k3, by rw [k4, hg]⟩

/-! ## What the scans select -/

theorem leftoverOf_dvd4 (nd : Node) (req : Nat) (h1 : (4 : Int) ∣ nd.size) (h2 : 4 ∣ req) :
    (4 : Int) ∣ leftoverOf nd req := by
  unfold leftoverOf toInt toSizeT
  omega

theorem leftoverOf_le (nd : Node) (req : Nat) : leftoverOf nd req ≤ 2147483647 := by
  unfold leftoverOf
  exact (toInt_range _).2

theorem leftoverOf_of_range (nd : Node) (req : Nat) (h1 : (req : Int) ≤ nd.size)
    (h2 : nd.size ≤ 2147483647) : leftoverOf nd req = nd.size - (req : Int) := by
  unfold leftoverOf toInt toSizeT
  omega

theorem fits_of_range (nd : Node) (req : Nat) (h1 : 0 ≤ nd.size) (h2 : nd.size ≤ 2147483647) :
    fits nd req ↔ nd.type = TYPE.H ∧ (req : Int) ≤ nd.size := by
  unfold fits toSizeT
  constructor
  · intro h; exact ⟨h.1, by omega⟩
  · intro h; exact ⟨h.1, by omega⟩

theorem selectHole_first (s : State) (req : Nat) (h : s.alg = ALGORITHM.FIRST_FIT) :
    selectHole s req = .ok (firstFitScan s.LinkedList req MAX_LINKED_LIST_SIZE 0) := by
  unfold selectHole
  rw [h]

theorem selectHole_best {s : State} {n : Nat} (hs : Shape s n) (req : Nat) (h4 : 4 ∣ req)
    (h : s.alg = ALGORITHM.BEST_FIT) (i : Nat) (hi : i ≤ n) (hf : fits (s.LinkedList i) req) :
    ∃ k, selectHole s req = .ok (some k) ∧ k ≤ n ∧ fits (s.LinkedList k) req
      ∧ (∀ j, j ≤ n → fits (s.LinkedList j) req →
          leftoverOf (s.LinkedList k) req ≤ leftoverOf (s.LinkedList j) req)
      ∧ (∀ j, j < k → fits (s.LinkedList j) req →
          leftoverOf (s.LinkedList k) req < leftoverOf (s.LinkedList j) req) := by
  have hb := hs.bound
  unfold selectHole
  rw [h]
  simp only []
  rcases bestFitScan_spec hs req MAX_LINKED_LIST_SIZE 0 (-1) INT_MAX (by omega) (by omega)
    with h1 | h1
  · exfalso
    have a1 := h1.2 i (by omega) hi hf
    have a2 := leftoverOf_le (s.LinkedList i) req
    have a3 := leftoverOf_dvd4 (s.LinkedList i) req (hs.mod4 i hi) h4
    unfold INT_MAX at a1
    omega
  · obtain ⟨k, e, _, k2, k3, _, k5, k6⟩ := h1
    rw [e]
    have hne : (k : Int) ≠ -1 := by omega
    rw [if_pos hne]
    refine ⟨k, by simp, k2, k3, fun j hj1 hj2 => k5 j (by omega) hj1 hj2,
      fun j hj1 hj2 => k6 j (by omega) hj1 hj2⟩

theorem selectHole_worst {s : State} {n total : Nat} (hs : Shape s n) (hsane : Sane s n total)
    (req : Nat) (h : s.alg = ALGORITHM.WORST_FIT) (i : Nat) (hi : i ≤ n)
    (hf : fits (s.LinkedList i) req) :
    ∃ k, selectHole s req = .ok (some k) ∧ k ≤ n ∧ fits (s.LinkedList k) req
      ∧ (∀ j, j ≤ n → fits (s.LinkedList j) req →
          leftoverOf (s.LinkedList j) req ≤ leftoverOf (s.LinkedList k) req)
      ∧ (∀ j, j < k → fits (s.LinkedList j) req →
          leftoverOf (s.LinkedList j) req < leftoverOf (s.LinkedList k) req) := by
  have hb := hs.bound
  unfold selectHole
  rw [h]
  simp only []
  rcases worstFitScan_spec hs req MAX_LINKED_LIST_SIZE 0 (-1) (-1) (by omega) (by omega)
    with h1 | h1
  · exfalso
    have a1 := h1.2 i (by omega) hi hf
    have a2 := sane_fits hsane i hi req hf
    have a3 := sane_size_le hsane i hi
    have a4 := hsane.total_le
    have a5 := leftoverOf_of_range (s.LinkedList i) req a2.1 (by omega)
    omega
  · obtain ⟨k, e, _, k2, k3, _, k5, k6⟩ := h1
    rw [e]
    have hne : (k : Int) ≠ -1 := by omega
    rw [if_pos hne]
    refine ⟨k, by simp, k2, k3, fun j hj1 hj2 => ?_, fun j hj1 hj2 => ?_⟩
    · have := k5 j (by omega) hj1 hj2
      omega
    · have := k6 j (by omega) hj1 hj2
      omega

/-- When the scan finds no index, no live hole fits; under WORST_FIT only the holes whose
leftover, converted to `int`, is negative may be left out. -/
theorem selectHole_none {s : State} {n : Nat} (hs : Shape s n) (req : Nat) (h4 : 4 ∣ req)
    (h : selectHole s req = .ok none) (j : Nat) (hj : j ≤ n) (hf : fits (s.LinkedList j) req) :
    s.alg = ALGORITHM.WORST_FIT ∧ leftoverOf (s.LinkedList j) req ≤ -1 := by
  have hb := hs.bound
  unfold selectHole at h
  cases halg : s.alg with
  | FIRST_FIT =>
    exfalso
    rw [halg] at h
    rcases firstFitScan_spec hs req MAX_LINKED_LIST_SIZE 0 (by omega) (by omega) with h1 | h1
    · obtain ⟨k', e, _⟩ := h1
      rw [e] at h
      cases h
    · exact h1.2 j (by omega) hj hf
  | NEXT_FIT =>
    exfalso
    rw [halg] at h
    simp only [] at h
    have key : ∀ (cnt j0 : Nat), j0 + cnt = MAX_LINKED_LIST_SIZE + 1 → j0 ≤ n + 1 →
        (match nextFitScan s.LinkedList req cnt j0 with
          | .error e => (.error e : Except Fault (Option Nat))
          | .ok (some j) => .ok (some j)
          | .ok none => .ok (wrapScan s.LinkedList req j0 0)) = .ok none → False := by
      intro cnt j0 a1 a2 a3
      rcases nextFitScan_spec hs req cnt j0 a1 a2 with h1 | h1 | h1
      · obtain ⟨k', e', _⟩ := h1
        rw [e'] at a3
        cases a3
      · rw [h1.1] at a3
        simp only [] at a3
        rcases wrapScan_spec s.LinkedList req j0 0 with h2 | h2
        · obtain ⟨k', e', _⟩ := h2
          rw [e'] at a3
          cases a3
        · by_cases c : j < j0
          · exact h2.2 j (by omega) (by omega) hf
          · exact h1.2.2 j (by omega) hj hf
      · rw [h1.1] at a3
        cases a3
    rcases cursorScan_spec hs s.lastAlloc MAX_LINKED_LIST_SIZE 0 (-1) (by omega) (by omega)
      with hc | hc
    · rw [hc.1] at h
      exact key (MAX_LINKED_LIST_SIZE + 1) 0 (by omega) (by omega) h
    · obtain ⟨c, ec, _, c2, _, _⟩ := hc
      rw [ec] at h
      have e1 : ((MAX_LINKED_LIST_SIZE : Int) - (c : Int)).toNat = MAX_LINKED_LIST_SIZE - c := by
        omega
      have e2 : ((c : Int) + 1).toNat = c + 1 := by omega
      rw [e1, e2] at h
      exact key (MAX_LINKED_LIST_SIZE - c) (c + 1) (by omega) (by omega) h
  | BEST_FIT =>
    exfalso
    obtain ⟨k, e, _⟩ := selectHole_best hs req h4 halg j hj hf
    unfold selectHole at e
    rw [e] at h
    cases h
  | WORST_FIT =>
    refine ⟨rfl, ?_⟩
    rw [halg] at h
    simp only [] at h
    rcases worstFitScan_spec hs req MAX_LINKED_LIST_SIZE 0 (-1) (-1) (by omega) (by omega)
      with h1 | h1
    · have := h1.2 j (by omega) hj hf
      omega
    · obtain ⟨k, e, _⟩ := h1
      rw [e] at h
      have hne : (k : Int) ≠ -1 := by omega
      rw [if_pos hne] at h
      cases h

/-- The result of `mavalloc_alloc` once the scan has chosen the index `k`: the pointer returned
is the start of entry `k`, which becomes a process allocation of the aligned size at the same
start; the call returns unless it must split with every slot taken. -/
theorem alloc_at_selected {s : State} {n : Nat} (hs : Shape s n) (size : Nat) (hpos : size ≠ 0)
    (k : Nat) (hsel : selectHole s (ALIGN4 size) = .ok (some k)) :
    (∀ r, mavalloc_alloc s size = .ok r →
        r.2 = (s.LinkedList k).arena ∧ (r.1.LinkedList k).type = TYPE.P
        ∧ (r.1.LinkedList k).arena = (s.LinkedList k).arena
        ∧ (r.1.LinkedList k).size = toInt (ALIGN4 size)
        ∧ (r.1.LinkedList k).in_use = 1) ∧
    ((n + 1 < MAX_LINKED_LIST_SIZE ∨ toInt (ALIGN4 size) = (s.LinkedList k).size) →
        ∃ r, mavalloc_alloc s size = .ok r) := by
  have hb := hs.bound
  have hinit : s.initialized ≠ 0 := by rw [hs.initialized]; decide
  have heq := mavalloc_alloc_eq s size hpos hinit
  rw [hsel] at heq
  simp only [] at heq
  have hk := selectHole_some hs _ k hsel
  by_cases hsz : toInt (ALIGN4 size) = (s.LinkedList k).size
  · rw [allocAt_exact s _ k _ (by omega) hsz] at heq
    constructor
    · intro r hr
      rw [heq] at hr
      cases hr
      have e : (setCursor (usesCursor s.alg) (markStep s k) (s.LinkedList k).arena).LinkedList k
          = { s.LinkedList k with type := TYPE.P } := by
        rw [setCursor_list, markStep_at]
      refine ⟨rfl, ?_, ?_, ?_, ?_⟩
      · show ((setCursor (usesCursor s.alg) (markStep s k)
          (s.LinkedList k).arena).LinkedList k).type = TYPE.P
        rw [e]
      · show ((setCursor (usesCursor s.alg) (markStep s k)
          (s.LinkedList k).arena).LinkedList k).arena = (s.LinkedList k).arena
        rw [e]
      · show ((setCursor (usesCursor s.alg) (markStep s k)
          (s.LinkedList k).arena).LinkedList k).size = toInt (ALIGN4 size)
        rw [e]
        exact hsz.symm
      · show ((setCursor (usesCursor s.alg) (markStep s k)
          (s.LinkedList k).arena).LinkedList k).in_use = 1
        rw [e]
        exact hs.used k hk.1
    · intro _
      exact ⟨_, heq⟩
  · by_cases hcap : n + 1 < MAX_LINKED_LIST_SIZE
    · rw [allocAt_split s _ k n _ hs.last hk.1 hcap hsz] at heq
      constructor
      · intro r hr
        rw [heq] at hr
        cases hr
        have e : (setCursor (usesCursor s.alg) (splitStep s (toInt (ALIGN4 size)) k)
            (s.LinkedList k).arena).LinkedList k
            = { in_use := 1, size := toInt (ALIGN4 size), arena := (s.LinkedList k).arena,
                type := TYPE.P } := by
          rw [setCursor_list, splitStep_at]
        refine ⟨rfl, ?_, ?_, ?_, ?_⟩
        · show ((setCursor (usesCursor s.alg) (splitStep s (toInt (ALIGN4 size)) k)
            (s.LinkedList k).arena).LinkedList k).type = TYPE.P
          rw [e]
        · show ((setCursor (usesCursor s.alg) (splitStep s (toInt (ALIGN4 size)) k)
            (s.LinkedList k).arena).LinkedList k).arena = (s.LinkedList k).arena
          rw [e]
        · show ((setCursor (usesCursor s.alg) (splitStep s (toInt (ALIGN4 size)) k)
            (s.LinkedList k).arena).LinkedList k).size = toInt (ALIGN4 size)
          rw [e]
        · show ((setCursor (usesCursor s.alg) (splitStep s (toInt (ALIGN4 size)) k)
            (s.LinkedList k).arena).LinkedList k).in_use = 1
          rw [e]
      · intro _
        exact ⟨_, heq⟩
    · rw [allocAt_fault s _ k n _ hs.last hk.1 (by omega) hsz] at heq
      constructor
      · intro r hr
        rw [heq] at hr
        cases hr
      · intro h
        rcases h with h | h
        · exact absurd h hcap
        · exact absurd h hsz

/-! ## Calls that return, on examples -/

theorem alloc_eq_step (s : State) (size : Nat) (h : allocOk s size = true) :
    mavalloc_alloc s size = .ok (stepAlloc s size, retAlloc s size) := by
  unfold allocOk at h
  unfold stepAlloc retAlloc
  cases e : mavalloc_alloc s size with
  | error f => rw [e] at h; cases h
  | ok r => rfl

theorem free_eq_step (s : State) (ptr : Nat) (h : freeOk s ptr = true) :
    mavalloc_free s ptr = .ok (stepFree s ptr) := by
  unfold freeOk at h
  unfold stepFree
  cases e : mavalloc_free s ptr with
  | error f => rw [e] at h; cases h
  | ok r => rfl

/-! ## Example runs are reachable -/

theorem reach_stepAlloc {base totalSize : Nat} {s : State} (h : Reachable base totalSize s)
    (size : Nat) (hsz : size < SIZE_MOD) : Reachable base totalSize (stepAlloc s size) := by
  unfold stepAlloc
  cases e : mavalloc_alloc s size with
  | error f => exact h
  | ok r => exact Reachable.alloc s size r h hsz e

theorem reach_stepFree {base totalSize : Nat} {s : State} (h : Reachable base totalSize s)
    (ptr : Nat) : Reachable base totalSize (stepFree s ptr) := by
  unfold stepFree
  cases e : mavalloc_free s ptr with
  | error f => exact h
  | ok r => exact Reachable.free s ptr r h e

theorem reach_exB0 : Reachable 4096 200 exB0 :=
  Reachable.init State.start ALGORITHM.BEST_FIT (by decide) (by decide) (by decide) (by decide)
    (by decide)

theorem reach_exB1 : Reachable 4096 200 exB1 :=
  reach_stepAlloc (reach_stepAlloc (reach_stepAlloc (reach_stepAlloc reach_exB0 52 (by decide))
    8 (by decide)) 32 (by decide)) 8 (by decide)

theorem reach_exB2 : Reachable 4096 200 exB2 := reach_stepFree reach_exB1 4096

theorem reach_exB3 : Reachable 4096 200 exB3 := reach_stepFree reach_exB2 4156

/-- In a reachable state whose `lastUsed` is `m`, the live entries are the slots `0 .. m`. -/
theorem reachable_live {base totalSize : Nat} {s : State} (h : Reachable base totalSize s)
    (m : Nat) (hm : s.lastUsed = (m : Int)) (i : Nat) : Live s i ↔ i ≤ m := by
  obtain ⟨n, hs, _⟩ := reachable_shape h
  have := hs.last
  have e : n = m := by omega
  subst e
  exact shape_live_iff hs i

theorem reach_exF0 : Reachable 4096 1024 exF0 :=
  Reachable.init State.start ALGORITHM.FIRST_FIT (by decide) (by decide) (by decide) (by decide)
    (by decide)

theorem reach_exF1 : Reachable 4096 1024 exF1 :=
  reach_stepFree (reach_stepFree (reach_stepAlloc (reach_stepAlloc (reach_stepAlloc
    (reach_stepAlloc reach_exF0 100 (by decide)) 200 (by decide)) 100 (by decide)) 50
    (by decide)) 4096) 4396

/-! ## The sum of the live sizes -/

theorem liveSum_eq {s : State} {n total : Nat} (hs : Shape s n) (h : Sane s n total) :
    ∀ (cnt i : Nat), i + cnt = MAX_LINKED_LIST_SIZE → i ≤ n →
      liveSum s.LinkedList cnt i
        = (s.gArena : Int) + (total : Int) - ((s.LinkedList i).arena : Int) := by
  intro cnt
  induction cnt with
  | zero =>
    intro i h1 h2
    have := hs.bound
    omega
  | succ cnt ih =>
    intro i h1 h2
    have hu : ¬ (s.LinkedList i).in_use = 0 := by rw [hs.used i h2]; decide
    rw [liveSum, if_neg hu]
    by_cases hin : i = n
    · subst hin
      have hz : liveSum s.LinkedList cnt (i + 1) = 0 := by
        cases cnt with
        | zero => rfl
        | succ c =>
          rw [liveSum, if_pos]
          rw [hs.unused (i + 1) (by omega) (by omega)]
          rfl
      rw [hz]
      have := h.last_end
      omega
    · rw [ih (i + 1) (by omega) (by omega)]
      have := h.chain i (by omega)
      omega

theorem firstFitScan_of_lowest {s : State} {n : Nat} (hs : Shape s n) (req k : Nat)
    (hk : k ≤ n) (hf : fits (s.LinkedList k) req)
    (hmin : ∀ j, j < k → ¬ fits (s.LinkedList j) req) :
    firstFitScan s.LinkedList req MAX_LINKED_LIST_SIZE 0 = some k := by
  rcases firstFitScan_spec hs req MAX_LINKED_LIST_SIZE 0 (by omega) (by omega) with h | h
  · obtain ⟨k', e, _, k2, k3, k4⟩ := h
    rw [e]
    have : k' = k := by
      rcases Nat.lt_trichotomy k' k with c | c | c
      · exact absurd k3 (hmin k' c)
      · exact c
      · exact absurd hf (k4 k (by omega) c)
    rw [this]
  · exact absurd hf (h.2 k (by omega) hk)

theorem reach_exW1 : Reachable 4096 200 exW1 :=
  reach_stepFree (reach_stepFree (reach_stepAlloc (reach_stepAlloc (reach_stepAlloc
    (reach_stepAlloc (Reachable.init State.start ALGORITHM.WORST_FIT (by decide) (by decide)
      (by decide) (by decide) (by decide)) 52 (by decide)) 8 (by decide)) 32 (by decide)) 8
    (by decide)) 4096) 4156

theorem reach_exWHuge0 : Reachable 140000000000000 4294967292 exWHuge0 :=
  Reachable.init State.start ALGORITHM.WORST_FIT (by decide) (by decide) (by decide) (by decide)
    (by decide)

theorem reach_exWHuge1 : Reachable 140000000000000 4294967292 exWHuge1 :=
  reach_stepFree (reach_stepAlloc (reach_stepAlloc reach_exWHuge0 2147483648 (by decide)) 8
    (by decide)) 140000000000000

theorem reach_exN1 : Reachable 4096 300 exN1 :=
  reach_stepFree (reach_stepAlloc (reach_stepAlloc
    (Reachable.init State.start ALGORITHM.NEXT_FIT (by decide) (by decide) (by decide)
      (by decide) (by decide)) 50 (by decide)) 50 (by decide)) 4096

theorem selectHole_next (s : State) (req : Nat) (h : s.alg = ALGORITHM.NEXT_FIT) :
    selectHole s req =
      match nextFitScan s.LinkedList req
        (MAX_LINKED_LIST_SIZE - cursorScan s.LinkedList s.lastAlloc MAX_LINKED_LIST_SIZE 0 (-1)).toNat
        (cursorScan s.LinkedList s.lastAlloc MAX_LINKED_LIST_SIZE 0 (-1) + 1).toNat with
      | .error e => .error e
      | .ok (some j) => .ok (some j)
      | .ok none => .ok (wrapScan s.LinkedList req
          (cursorScan s.LinkedList s.lastAlloc MAX_LINKED_LIST_SIZE 0 (-1) + 1).toNat 0) := by
  unfold selectHole
  rw [h]

theorem cursorScan_of_isCursor {s : State} {n : Nat} (hs : Shape s n) (c : Int)
    (hc : IsCursor s c) :
    cursorScan s.LinkedList s.lastAlloc MAX_LINKED_LIST_SIZE 0 (-1) = c
      ∧ -1 ≤ c ∧ c ≤ (n : Int) := by
  have hb := hs.bound
  rcases cursorScan_spec hs s.lastAlloc MAX_LINKED_LIST_SIZE 0 (-1) (by omega) (by omega)
    with h1 | h1
  · rcases hc with h2 | h2
    · rw [h1.1, h2.1]
      omega
    · exfalso
      obtain ⟨m, _, m2, m3, _⟩ := h2
      exact h1.2 m (by omega) ((shape_live_iff hs m).1 m2) m3
  · obtain ⟨k, e, _, k2, k3, k4⟩ := h1
    rcases hc with h2 | h2
    · exfalso
      exact h2.2 k ((shape_live_iff hs k).2 k2) k3
    · obtain ⟨m, m1, m2, m3, m4⟩ := h2
      have hm := (shape_live_iff hs m).1 m2
      have : k = m := by
        rcases Nat.lt_trichotomy k m with c1 | c1 | c1
        · exact absurd m3 (k4 m c1 hm)
        · exact c1
        · exact absurd k3 (m4 k ((shape_live_iff hs k).2 k2) c1)
      rw [e, m1, this]
      omega

theorem reach_exFHuge0 : Reachable 140000000000000 4294967292 exFHuge0 :=
  Reachable.init State.start ALGORITHM.FIRST_FIT (by decide) (by decide) (by decide) (by decide)
    (by decide)

theorem reach_exFLow1 : Reachable 65536 4294967292 exFLow1 :=
  reach_stepAlloc (Reachable.init State.start ALGORITHM.FIRST_FIT (by decide) (by decide)
    (by decide) (by decide) (by decide)) 4294901760 (by decide)

/-! ## Returning NULL -/

theorem alloc_uninit (s : State) (size : Nat) (h : s.initialized = 0) :
    mavalloc_alloc s size = .ok (s, 0) := by
  rw [mavalloc_alloc]
  by_cases h0 : size = 0
  · rw [if_pos h0]
  · rw [if_neg h0, if_pos h]

/-- In an arena that fits the `int` range a call that returns either returns `NULL` and leaves
the state alone, because the size is 0 or no live hole fits, or returns the start of a fitting
live hole, which is not `NULL`. -/
theorem alloc_sane_cases {s : State} {n total : Nat} (hs : Shape s n) (hsane : Sane s n total)
    (size : Nat) (r : State × Nat) (hr : mavalloc_alloc s size = .ok r) :
    (r = (s, 0) ∧ (size = 0 ∨ ∀ j, j ≤ n → ¬ fits (s.LinkedList j) (ALIGN4 size))) ∨
    (r.2 ≠ 0 ∧ size ≠ 0 ∧ ∃ k, k ≤ n ∧ fits (s.LinkedList k) (ALIGN4 size)
      ∧ selectHole s (ALIGN4 size) = .ok (some k)) := by
  rcases alloc_outcome hs size with h1 | h1 | h1
  · left
    rw [h1.1] at hr
    cases hr
    refine ⟨rfl, ?_⟩
    rcases h1.2 with h2 | h2
    · exact Or.inl h2
    · right
      intro j hj hf
      have a1 := (selectHole_none hs _ (ALIGN4_dvd size) h2 j hj hf).2
      have a2 := sane_fits hsane j hj _ hf
      have a3 := sane_size_le hsane j hj
      have a4 := hsane.total_le
      have a5 := leftoverOf_of_range (s.LinkedList j) (ALIGN4 size) a2.1 (by omega)
      omega
  · rw [h1.2.2] at hr
    cases hr
  · right
    obtain ⟨k, h0, hsel, hk, hf, h2⟩ := h1
    have hp : (s.LinkedList k).arena ≠ 0 := by
      have := hsane.lo k hk
      have := hsane.base_ne
      omega
    refine ⟨?_, h0, k, hk, hf, hsel⟩
    rcases h2 with h2 | h2
    · rw [h2.2] at hr
      cases hr
      exact hp
    · rw [h2.2.2] at hr
      cases hr
      exact hp

theorem alloc_returns {s : State} {n : Nat} (hs : Shape s n)
    (hcap : n + 1 < MAX_LINKED_LIST_SIZE) (size : Nat) :
    ∃ r, mavalloc_alloc s size = .ok r := by
  rcases alloc_outcome hs size with h1 | h1 | h1
  · exact ⟨_, h1.1⟩
  · omega
  · obtain ⟨k, _, _, _, _, h2 | h2⟩ := h1
    · exact ⟨_, h2.2⟩
    · exact ⟨_, h2.2.2⟩

/-- In a state reached from an arena of at most 2147483644 bytes the test of the scans, made
in `size_t`, is the comparison of the integers: a live entry fits exactly when it is a hole
whose size is at least the request, and its leftover is then the size minus the request. -/
theorem fits_int_range (base totalSize : Nat) (s : State) (h : Reachable base totalSize s)
    (hfit : totalSize ≤ 2147483644) (j : Nat) (hj : Live s j) (req : Nat) :
    (fits (s.LinkedList j) req ↔
      (s.LinkedList j).type = TYPE.H ∧ (req : Int) ≤ (s.LinkedList j).size)
    ∧ (fits (s.LinkedList j) req →
        leftoverOf (s.LinkedList j) req = (s.LinkedList j).size - (req : Int)) := by
  obtain ⟨n, hs, _, hsane, _⟩ := reachable_sane h hfit
  have hjn := (shape_live_iff hs j).1 hj
  have a3 := sane_size_le hsane j hjn
  have a4 := hsane.total_le
  refine ⟨fits_of_range _ _ a3.1 (by omega), ?_⟩
  intro hf
  have a2 := sane_fits hsane j hjn _ hf
  exact leftoverOf_of_range _ _ a2.1 (by omega)

theorem countInUse_shape {s : State} {n : Nat} (hs : Shape s n) :
    ∀ (cnt i : Nat) (acc : Int), i + cnt = MAX_LINKED_LIST_SIZE →
      countInUse s.LinkedList cnt i acc = acc + ((n + 1 - i : Nat) : Int) := by
  intro cnt
  induction cnt with
  | zero =>
    intro i acc h
    have := hs.bound
    rw [countInUse]
    omega
  | succ cnt ih =>
    intro i acc h
    rw [countInUse, ih (i + 1) _ (by omega)]
    by_cases hi : i ≤ n
    · have hu : (s.LinkedList i).in_use ≠ 0 := by rw [hs.used i hi]; decide
      rw [if_pos hu]
      omega
    · have hu : ¬ (s.LinkedList i).in_use ≠ 0 := by
        rw [hs.unused i (by omega) (by omega)]
        simp [Node.zero]
      rw [if_neg hu]
      omega

theorem mavalloc_size_shape {s : State} {n : Nat} (hs : Shape s n) :
    mavalloc_size s = (n : Int) + 1 := by
  unfold mavalloc_size
  rw [countInUse_shape hs MAX_LINKED_LIST_SIZE 0 0 (by omega)]
  omega

theorem visitCount_shape {s : State} {n : Nat} (hs : Shape s n) :
    ∀ (cnt i : Nat), i + cnt = MAX_LINKED_LIST_SIZE →
      visitCount s.LinkedList cnt i = n + 1 - i := by
  intro cnt
  induction cnt with
  | zero =>
    intro i h
    have := hs.bound
    rw [visitCount]
    omega
  | succ cnt ih =>
    intro i h
    rw [visitCount]
    by_cases hi : i ≤ n
    · have hu : ¬ (s.LinkedList i).in_use = 0 := by rw [hs.used i hi]; decide
      rw [if_neg hu, ih (i + 1) (by omega)]
      omega
    · have hu : (s.LinkedList i).in_use = 0 := by
        rw [hs.unused i (by omega) (by omega)]
        rfl
      rw [if_pos hu]
      omega

theorem countInUse_zero (L : Nat → Node)
    (hz : ∀ j, j < MAX_LINKED_LIST_SIZE → (L j).in_use = 0) :
    ∀ (cnt i : Nat) (acc : Int), i + cnt = MAX_LINKED_LIST_SIZE →
      countInUse L cnt i acc = acc := by
  intro cnt
  induction cnt with
  | zero => intro i acc _; rfl
  | succ cnt ih =>
    intro i acc h
    rw [countInUse, ih (i + 1) _ (by omega)]
    have : ¬ (L i).in_use ≠ 0 := by rw [hz i (by omega)]; simp
    rw [if_neg this]

theorem destroy_unused (s : State) (j : Nat) (hj : j < MAX_LINKED_LIST_SIZE) :
    (mavalloc_destroy s).LinkedList j = Node.zero := by
  simp [mavalloc_destroy, hj]

theorem destroy_idem (s : State) : mavalloc_destroy (mavalloc_destroy s) = mavalloc_destroy s := by
  unfold mavalloc_destroy
  simp only [State.mk.injEq, and_true, true_and]
  funext i
  by_cases h : i < MAX_LINKED_LIST_SIZE
  · simp [h]
  · simp [h]

theorem free_uninit_list (s : State) (ptr : Nat) (h : (s.LinkedList 0).in_use = 0) :
    mavalloc_free s ptr = .ok s := by
  rw [mavalloc_free]
  by_cases hp : ptr = 0
  · rw [if_pos hp]
  · rw [if_neg hp]
    have e1 : freeMark ptr MAX_LINKED_LIST_SIZE 0 s.LinkedList = s.LinkedList := by
      show freeMark ptr (9999 + 1) 0 s.LinkedList = s.LinkedList
      rw [freeMark, if_pos h]
    rw [e1]
    show freeCoalesce (9998 + 1) 0 s = .ok s
    rw [freeCoalesce, if_pos h]

/-! ## Sizes stay in the `int` range -/

theorem range_markStep {s : State} {n : Nat} (h : InRange s n) (prev : Nat) :
    InRange (markStep s prev) n := by
  intro i hi
  by_cases c : i = prev
  · subst c; rw [markStep_at]; exact h i hi
  · rw [markStep_other s prev i c]; exact h i hi

theorem range_markStep_free {s : State} {n : Nat} (h : InRange s n) (ptr : Nat) :
    InRange (markStep_free s ptr n) n := by
  intro i hi
  rcases markStep_free_entry s ptr n i with h1 | h1
  · rw [h1]; exact h i hi
  · rw [h1.1]; exact h i hi

theorem range_splitStep {s : State} {n : Nat} (hs : Shape s n) (h : InRange s n) (x : Int)
    (k : Nat) (hk : k ≤ n) :
    InRange (splitStep s (toInt x) k) (n + 1) := by
  intro i hi
  by_cases c1 : i < k
  · rw [splitStep_lt s _ k i c1]; exact h i (by omega)
  · by_cases c2 : i = k
    · subst c2; rw [splitStep_at]; exact toInt_range x
    · by_cases c3 : i = k + 1
      · subst c3; rw [splitStep_next]; exact toInt_range _
      · rw [splitStep_gt s _ k i n hs.last (by omega) hi]; exact h (i - 1) (by omega)

theorem range_removeStep {s : State} {n : Nat} (hs : Shape s n) (h : InRange s n) (prev : Nat)
    (hprev : prev < n) :
    InRange (removeStep s prev) (n - 1) := by
  intro i hi
  by_cases c1 : i < prev
  · rw [removeStep_lt s prev i c1]; exact h i (by omega)
  · by_cases c2 : i = prev
    · subst c2; rw [removeStep_at]; exact toInt_range _
    · rw [removeStep_gt s prev i n hs.last (by omega) (by omega)]; exact h (i + 1) (by omega)

theorem range_setCursor {t : State} {n : Nat} (h : InRange t n) (c : Bool) (p : Nat) :
    InRange (setCursor c t p) n := by
  cases c
  · exact h
  · exact h

theorem reachable_range {base totalSize : Nat} {s : State} (h : Reachable base totalSize s) :
    ∃ n, Shape s n ∧ NoAdj s n ∧ InRange s n := by
  induction h with
  | init s0 algorithm h1 h2 h3 h4 h5 =>
    refine ⟨0, shape_init s0 totalSize algorithm base (by omega) h3, fun i hi => by omega, ?_⟩
    intro i hi
    have : i = 0 := by omega
    subst this
    rw [mavalloc_init, if_neg (by omega)]
    simp only []
    rw [if_neg h3]
    simp only [setNode, if_true]
    exact toInt_range _
  | alloc s size r _ _ hr ih =>
    obtain ⟨n, hs, hn, hrg⟩ := ih
    rcases alloc_outcome hs size with h1 | h1 | h1
    · rw [h1.1] at hr
      cases hr
      exact ⟨n, hs, hn, hrg⟩
    · rw [h1.2.2] at hr
      cases hr
    · obtain ⟨k, _, _, hk, hf, h2 | h2⟩ := h1
      · rw [h2.2] at hr
        cases hr
        exact ⟨n, shape_setCursor (shape_markStep hs k hk) _ _,
          noAdj_setCursor (noAdj_markStep hn k) _ _, range_setCursor (range_markStep hrg k) _ _⟩
      · rw [h2.2.2] at hr
        cases hr
        refine ⟨n + 1, shape_setCursor (shape_splitStep hs _ k hk h2.2.1 ?_) _ _,
          noAdj_setCursor (noAdj_splitStep hs hn _ k hk hf.1) _ _,
          range_setCursor (range_splitStep hs hrg _ k hk) _ _⟩
        apply toInt_dvd4
        have := ALIGN4_dvd size
        omega
  | free s ptr s' _ hr ih =>
    obtain ⟨n, hs, hn, hrg⟩ := ih
    rcases free_run (fun t m => InRange t m)
        (fun prev t m ht hq h1 _ _ _ => range_removeStep ht hq prev h1)
        (fun t m p _ hq => range_markStep_free hq p) hs hrg hn ptr with h1 | h1
    · rw [h1.2] at hr
      cases hr
    · obtain ⟨t, n', e, k1, k2, _, k4⟩ := h1
      rw [e] at hr
      cases hr
      exact ⟨n', k1, k4, k2⟩

theorem reach_fillRun (k : Nat) : Reachable 4096 65536 (fillRun k) := by
  induction k with
  | zero =>
    exact Reachable.init State.start ALGORITHM.FIRST_FIT (by decide) (by decide) (by decide)
      (by decide) (by decide)
  | succ k ih => exact reach_stepAlloc ih 4 (by decide)

theorem fillRun_select (s : State) (k : Nat) (hs : Shape s k)
    (halg : s.alg = ALGORITHM.FIRST_FIT)
    (hP : ∀ j, j < k → (s.LinkedList j).type = TYPE.P)
    (hH : (s.LinkedList k).type = TYPE.H)
    (hsz : (s.LinkedList k).size = 65536 - 4 * (k : Int)) :
    selectHole s (ALIGN4 4) = .ok (some k) ∧ toInt (ALIGN4 4) = 4
      ∧ toInt (ALIGN4 4) ≠ (s.LinkedList k).size := by
  have hb := hs.bound
  have ha : ALIGN4 4 = 4 := by decide
  have ht : toInt (ALIGN4 4) = 4 := by decide
  refine ⟨?_, ht, ?_⟩
  · rw [selectHole_first s _ halg, firstFitScan_of_lowest hs _ k (le_refl k)]
    · refine ⟨hH, ?_⟩
      rw [hsz, ha]
      unfold toSizeT MAX_LINKED_LIST_SIZE at *
      omega
    · intro j hj hf
      have h1 : (s.LinkedList j).type = TYPE.H := hf.1
      rw [hP j hj] at h1
      cases h1
  · rw [ht, hsz]
    unfold MAX_LINKED_LIST_SIZE at hb
    omega

theorem fillRun_shape : ∀ k, k < MAX_LINKED_LIST_SIZE →
    Shape (fillRun k) k ∧ (fillRun k).alg = ALGORITHM.FIRST_FIT
      ∧ (∀ j, j < k → ((fillRun k).LinkedList j).type = TYPE.P)
      ∧ ((fillRun k).LinkedList k).type = TYPE.H
      ∧ ((fillRun k).LinkedList k).size = 65536 - 4 * (k : Int) := by
  intro k
  induction k with
  | zero =>
    intro _
    refine ⟨shape_init State.start 65536 ALGORITHM.FIRST_FIT 4096 (by decide) (by decide),
      by decide, fun j hj => by omega, by decide, by decide⟩
  | succ k ih =>
    intro hk
    obtain ⟨hs, halg, hP, hH, hsz⟩ := ih (by omega)
    obtain ⟨hsel, ht, hne⟩ := fillRun_select (fillRun k) k hs halg hP hH hsz
    have hinit : (fillRun k).initialized ≠ 0 := by rw [hs.initialized]; decide
    have heq := mavalloc_alloc_eq (fillRun k) 4 (by decide) hinit
    rw [hsel] at heq
    simp only [] at heq
    rw [allocAt_split (fillRun k) _ k k _ hs.last (le_refl k) hk hne] at heq
    have e : fillRun (k + 1) = setCursor (usesCursor (fillRun k).alg)
        (splitStep (fillRun k) (toInt (ALIGN4 4)) k) ((fillRun k).LinkedList k).arena := by
      show stepAlloc (fillRun k) 4 = _
      unfold stepAlloc
      rw [heq]
    have hs' := shape_setCursor (shape_splitStep hs (toInt (ALIGN4 4)) k (le_refl k) hk
      (by rw [ht])) (usesCursor (fillRun k).alg) ((fillRun k).LinkedList k).arena
    rw [← e] at hs'
    have eL : (fillRun (k + 1)).LinkedList
        = (splitStep (fillRun k) (toInt (ALIGN4 4)) k).LinkedList := by
      rw [e, setCursor_list]
    refine ⟨hs', by rw [e, setCursor_alg]; exact halg, ?_, ?_, ?_⟩
    · intro j hj
      rw [eL]
      by_cases c : j < k
      · rw [splitStep_lt _ _ k j c]; exact hP j c
      · have : j = k := by omega
        subst this
        rw [splitStep_at]
    · rw [eL, splitStep_next]
      exact hH
    · rw [eL, splitStep_next]
      show toInt (((fillRun k).LinkedList k).size - toInt (ALIGN4 4)) = _
      rw [ht, hsz]
      unfold MAX_LINKED_LIST_SIZE at hk
      rw [toInt_of_range _ (by omega) (by omega)]
      push_cast
      ring

/-! ## Aligned starts, positive sizes -/

theorem reachable_of_within {maxReq base totalSize : Nat} {s : State}
    (h : ReachableWithin maxReq base totalSize s) : Reachable base totalSize s := by
  induction h with
  | init s0 algorithm h1 h2 h3 h4 h5 => exact Reachable.init s0 algorithm h1 h2 h3 h4 h5
  | alloc s size r _ _ h2 h3 ih => exact Reachable.alloc s size r ih h2 h3
  | free s ptr s' _ h2 ih => exact Reachable.free s ptr s' ih h2

theorem ptrAdd_mod4 (a : Nat) (x : Int) (g : Int) (h1 : (4 : Int) ∣ (a : Int) - g)
    (h2 : (4 : Int) ∣ x) : (4 : Int) ∣ ((ptrAdd a x : Nat) : Int) - g := by
  unfold ptrAdd toSizeT
  omega

theorem aligned_splitStep {s : State} {n : Nat} (hs : Shape s n) (h : Aligned s n) (x : Int)
    (hx : (4 : Int) ∣ x) (k : Nat) (hk : k ≤ n) :
    Aligned (splitStep s x k) (n + 1) := by
  intro i hi
  show (4 : Int) ∣ (((splitStep s x k).LinkedList i).arena : Int) - (s.gArena : Int)
  by_cases c1 : i < k
  · rw [splitStep_lt s _ k i c1]; exact h i (by omega)
  · by_cases c2 : i = k
    · subst c2; rw [splitStep_at]; exact h i hk
    · by_cases c3 : i = k + 1
      · subst c3; rw [splitStep_next]; exact ptrAdd_mod4 _ _ _ (h k hk) hx
      · rw [splitStep_gt s _ k i n hs.last (by omega) hi]; exact h (i - 1) (by omega)

theorem aligned_removeStep {s : State} {n : Nat} (hs : Shape s n) (h : Aligned s n) (prev : Nat)
    (hprev : prev < n) :
    Aligned (removeStep s prev) (n - 1) := by
  intro i hi
  show (4 : Int) ∣ (((removeStep s prev).LinkedList i).arena : Int) - (s.gArena : Int)
  by_cases c1 : i < prev
  · rw [removeStep_lt s prev i c1]; exact h i (by omega)
  · by_cases c2 : i = prev
    · subst c2; rw [removeStep_at]; exact h i (by omega)
    · rw [removeStep_gt s prev i n hs.last (by omega) (by omega)]; exact h (i + 1) (by omega)

theorem aligned_markStep {s : State} {n : Nat} (h : Aligned s n) (prev : Nat) :
    Aligned (markStep s prev) n := by
  intro i hi
  show (4 : Int) ∣ (((markStep s prev).LinkedList i).arena : Int) - (s.gArena : Int)
  by_cases c : i = prev
  · subst c; rw [markStep_at]; exact h i hi
  · rw [markStep_other s prev i c]; exact h i hi

theorem aligned_markStep_free {s : State} {n : Nat} (h : Aligned s n) (ptr : Nat) :
    Aligned (markStep_free s ptr n) n := by
  intro i hi
  show (4 : Int) ∣ (((markStep_free s ptr n).LinkedList i).arena : Int) - (s.gArena : Int)
  rcases markStep_free_entry s ptr n i with h1 | h1
  · rw [h1]; exact h i hi
  · rw [h1.1]; exact h i hi

theorem aligned_setCursor {t : State} {n : Nat} (h : Aligned t n) (c : Bool) (p : Nat) :
    Aligned (setCursor c t p) n := by
  cases c
  · exact h
  · exact h

theorem reachable_aligned {base totalSize : Nat} {s : State} (h : Reachable base totalSize s) :
    ∃ n, Shape s n ∧ NoAdj s n ∧ Aligned s n ∧ s.gArena = base := by
  induction h with
  | init s0 algorithm h1 h2 h3 h4 h5 =>
    have e : mavalloc_init s0 totalSize algorithm base =
        ({ initialized := 1, lastUsed := 0,
           LinkedList := setNode
             (fun i => if i < MAX_LINKED_LIST_SIZE then Node.zero else s0.LinkedList i) 0
             { in_use := 1, size := toInt (ALIGN4 totalSize), arena := base, type := TYPE.H },
           gArena := base, alg := algorithm, lastAlloc := 0 }, 0) := by
      rw [mavalloc_init, if_neg (by omega)]
      simp only []
      rw [if_neg h3]
    refine ⟨0, shape_init s0 totalSize algorithm base (by omega) h3, fun i hi => by omega, ?_,
      by rw [e]⟩
    intro i hi
    have : i = 0 := by omega
    subst this
    rw [e]
    simp [setNode]
  | alloc s size r _ _ hr ih =>
    obtain ⟨n, hs, hn, hal, hg⟩ := ih
    have h4 : (4 : Int) ∣ toInt (ALIGN4 size) := by
      apply toInt_dvd4
      have := ALIGN4_dvd size
      omega
    rcases alloc_outcome hs size with h1 | h1 | h1
    · rw [h1.1] at hr
      cases hr
      exact ⟨n, hs, hn, hal, hg⟩
    · rw [h1.2.2] at hr
      cases hr
    · obtain ⟨k, _, _, hk, hf, h2 | h2⟩ := h1
      · rw [h2.2] at hr
        cases hr
        exact ⟨n, shape_setCursor (shape_markStep hs k hk) _ _,
          noAdj_setCursor (noAdj_markStep hn k) _ _,
          aligned_setCursor (aligned_markStep hal k) _ _, by rw [setCursor_gArena]; exact hg⟩
      · rw [h2.2.2] at hr
        cases hr
        exact ⟨n + 1, shape_setCursor (shape_splitStep hs _ k hk h2.2.1 h4) _ _,
          noAdj_setCursor (noAdj_splitStep hs hn _ k hk hf.1) _ _,
          aligned_setCursor (aligned_splitStep hs hal _ h4 k hk) _ _,
          by rw [setCursor_gArena]; exact hg⟩
  | free s ptr s' _ hr ih =>
    obtain ⟨n, hs, hn, hal, hg⟩ := ih
    rcases free_run (fun t m => Aligned t m ∧ t.gArena = base)
        (fun prev t m ht hq h1 _ _ _ => ⟨aligned_removeStep ht hq.1 prev h1, hq.2⟩)
        (fun t m p _ hq => ⟨aligned_markStep_free hq.1 p, hq.2⟩) hs ⟨hal, hg⟩ hn ptr
      with h1 | h1
    · rw [h1.2] at hr
      cases hr
    · obtain ⟨t, n', e, k1, k2, _, k4⟩ := h1
      rw [e] at hr
      cases hr
      exact ⟨n', k1, k4, k2.1, k2.2⟩

theorem positive_splitStep {s : State} {n total : Nat} (hs : Shape s n) (h : Sane s n total)
    (hp : Positive s n) (k : Nat) (hk : k ≤ n) (req : Nat) (hreq : 0 < req)
    (hf : fits (s.LinkedList k) req) (hne : toInt req ≠ (s.LinkedList k).size) :
    Positive (splitStep s (toInt req) k) (n + 1) := by
  have hfit := sane_fits h k hk req hf
  have hsz := sane_size_le h k hk
  have htl := h.total_le
  intro i hi
  by_cases c1 : i < k
  · rw [splitStep_lt s _ k i c1]; exact hp i (by omega)
  · by_cases c2 : i = k
    · subst c2
      rw [splitStep_at]
      show 0 < toInt req
      rw [hfit.2]
      omega
    · by_cases c3 : i = k + 1
      · subst c3
        rw [splitStep_next]
        show 0 < toInt ((s.LinkedList k).size - toInt req)
        rw [hfit.2] at hne ⊢
        rw [toInt_of_range _ (by omega) (by omega)]
        omega
      · rw [splitStep_gt s _ k i n hs.last (by omega) hi]; exact hp (i - 1) (by omega)

theorem positive_removeStep {s : State} {n total : Nat} (hs : Shape s n) (h : Sane s n total)
    (hp : Positive s n) (prev : Nat) (hprev : prev < n) :
    Positive (removeStep s prev) (n - 1) := by
  have hsane' := sane_removeStep hs h prev hprev
  intro i hi
  by_cases c1 : i < prev
  · rw [removeStep_lt s prev i c1]; exact hp i (by omega)
  · by_cases c2 : i = prev
    · subst c2
      have hsz1 := sane_size_le h i (by omega)
      have hsz2 := sane_size_le h (i + 1) (by omega)
      have hlo := h.lo i (by omega)
      have hhi := h.hi (i + 1) (by omega)
      have hch := h.chain i hprev
      have htl := h.total_le
      have p1 := hp i (by omega)
      have p2 := hp (i + 1) (by omega)
      rw [removeStep_at]
      show 0 < toInt ((s.LinkedList i).size + (s.LinkedList (i + 1)).size)
      rw [toInt_of_range _ (by omega) (by omega)]
      omega
    · rw [removeStep_gt s prev i n hs.last (by omega) (by omega)]; exact hp (i + 1) (by omega)

theorem positive_markStep {s : State} {n : Nat} (h : Positive s n) (prev : Nat) :
    Positive (markStep s prev) n := by
  intro i hi
  by_cases c : i = prev
  · subst c; rw [markStep_at]; exact h i hi
  · rw [markStep_other s prev i c]; exact h i hi

theorem positive_markStep_free {s : State} {n : Nat} (h : Positive s n) (ptr : Nat) :
    Positive (markStep_free s ptr n) n := by
  intro i hi
  rcases markStep_free_entry s ptr n i with h1 | h1
  · rw [h1]; exact h i hi
  · rw [h1.1]; exact h i hi

theorem positive_setCursor {t : State} {n : Nat} (h : Positive t n) (c : Bool) (p : Nat) :
    Positive (setCursor c t p) n := by
  cases c
  · exact h
  · exact h

theorem within_positive {base totalSize : Nat} {s : State}
    (h : ReachableWithin 18446744073709551612 base totalSize s)
    (hfit : totalSize ≤ 2147483644) :
    ∃ n, Shape s n ∧ NoAdj s n ∧ Sane s n (ALIGN4 totalSize) ∧ Positive s n := by
  induction h with
  | init s0 algorithm h1 h2 h3 h4 h5 =>
    have hb := ALIGN4_bounds totalSize (by unfold SIZE_MOD; omega)
    refine ⟨0, shape_init s0 totalSize algorithm base (by omega) h3, fun i hi => by omega,
      sane_init s0 totalSize algorithm base (by omega) h3 hfit h5, ?_⟩
    intro i hi
    have : i = 0 := by omega
    subst this
    rw [mavalloc_init, if_neg (by omega)]
    simp only []
    rw [if_neg h3]
    simp only [setNode, if_true]
    rw [toInt_of_range _ (by omega) (by omega)]
    omega
  | alloc s size r _ hmax _ hr ih =>
    obtain ⟨n, hs, hn, hsane, hp⟩ := ih
    have h4 : (4 : Int) ∣ toInt (ALIGN4 size) := by
      apply toInt_dvd4
      have := ALIGN4_dvd size
      omega
    rcases alloc_outcome hs size with h1 | h1 | h1
    · rw [h1.1] at hr
      cases hr
      exact ⟨n, hs, hn, hsane, hp⟩
    · rw [h1.2.2] at hr
      cases hr
    · obtain ⟨k, h0, _, hk, hf, h2 | h2⟩ := h1
      · rw [h2.2] at hr
        cases hr
        exact ⟨n, shape_setCursor (shape_markStep hs k hk) _ _,
          noAdj_setCursor (noAdj_markStep hn k) _ _,
          sane_setCursor (sane_markStep hsane k) _ _,
          positive_setCursor (positive_markStep hp k) _ _⟩
      · rw [h2.2.2] at hr
        cases hr
        have hb := ALIGN4_bounds size (by unfold SIZE_MOD; omega)
        exact ⟨n + 1, shape_setCursor (shape_splitStep hs _ k hk h2.2.1 h4) _ _,
          noAdj_setCursor (noAdj_splitStep hs hn _ k hk hf.1) _ _,
          sane_setCursor (sane_splitStep hs hsane k hk _ hf h2.1) _ _,
          positive_setCursor
            (positive_splitStep hs hsane hp k hk _ (by omega) hf h2.1) _ _⟩
  | free s ptr s' _ hr ih =>
    obtain ⟨n, hs, hn, hsane, hp⟩ := ih
    rcases free_run (fun t m => Sane t m (ALIGN4 totalSize) ∧ Positive t m)
        (fun prev t m ht hq h1 _ _ _ =>
          ⟨sane_removeStep ht hq.1 prev h1, positive_removeStep ht hq.1 hq.2 prev h1⟩)
        (fun t m p _ hq => ⟨sane_markStep_free hq.1 p, positive_markStep_free hq.2 p⟩)
        hs ⟨hsane, hp⟩ hn ptr with h1 | h1
    · rw [h1.2] at hr
      cases hr
    · obtain ⟨t, n', e, k1, k2, _, k4⟩ := h1
      rw [e] at hr
      cases hr
      exact ⟨n', k1, k4, k2.1, k2.2⟩

theorem starts_increase {s : State} {n total : Nat} (h : Sane s n total) (hp : Positive s n)
    (i : Nat) : ∀ j, i < j → j ≤ n →
      ((s.LinkedList i).arena : Int) < ((s.LinkedList j).arena : Int) := by
  intro j
  induction j with
  | zero => intro h1 _; omega
  | succ j ih =>
    intro h1 h2
    have hc := h.chain j (by omega)
    have hpj := hp j (by omega)
    by_cases c : i = j
    · subst c
      omega
    · have := ih (by omega) (by omega)
      omega

theorem within_stepAlloc {maxReq base totalSize : Nat} {s : State}
    (h : ReachableWithin maxReq base totalSize s) (size : Nat) (hmax : size ≤ maxReq)
    (hsz : size < SIZE_MOD) : ReachableWithin maxReq base totalSize (stepAlloc s size) := by
  unfold stepAlloc
  cases e : mavalloc_alloc s size with
  | error f => exact h
  | ok r => exact ReachableWithin.alloc s size r h hmax hsz e

theorem within_stepFree {maxReq base totalSize : Nat} {s : State}
    (h : ReachableWithin maxReq base totalSize s) (ptr : Nat) :
    ReachableWithin maxReq base totalSize (stepFree s ptr) := by
  unfold stepFree
  cases e : mavalloc_free s ptr with
  | error f => exact h
  | ok r => exact ReachableWithin.free s ptr r h e

theorem within_exB3 : ReachableWithin 18446744073709551612 4096 200 exB3 :=
  within_stepFree (within_stepFree (within_stepAlloc (within_stepAlloc (within_stepAlloc
    (within_stepAlloc
      (ReachableWithin.init State.start ALGORITHM.BEST_FIT (by decide) (by decide) (by decide)
        (by decide) (by decide))
      52 (by decide) (by decide)) 8 (by decide) (by decide)) 32 (by decide) (by decide)) 8
    (by decide) (by decide)) 4096) 4156

/-! ## mavalloc_free computed exactly -/

theorem toInt_add_toInt (a b : Int) : toInt (a + toInt b) = toInt (a + b) := by
  unfold toInt; omega

theorem toInt_toInt_add (a b : Int) : toInt (toInt a + b) = toInt (a + b) := by
  unfold toInt; omega

/-- The coalescing loop walks over the indices at which no two neighbours are both holes. -/
theorem freeCoalesce_skip {s : State} {n : Nat} (hs : Shape s n) :
    ∀ (d c i : Nat), i + d ≤ n + 1 → i + d + c ≤ MAX_LINKED_LIST_SIZE - 1 →
      (∀ j, i ≤ j → j < i + d → j < n →
        ¬ ((s.LinkedList j).type = TYPE.H ∧ (s.LinkedList (j + 1)).type = TYPE.H)) →
      freeCoalesce (d + c) i s = freeCoalesce c (i + d) s := by
  intro d
  induction d with
  | zero =>
    intro c i _ _ _
    rw [Nat.zero_add, Nat.add_zero]
  | succ d ih =>
    intro c i hi hcnt hp
    have e1 : d + 1 + c = (d + c) + 1 := by omega
    have e2 : i + (d + 1) = i + 1 + d := by omega
    have hb := hs.bound
    rw [e1, freeCoalesce, if_neg (by rw [hs.used i (by omega)]; decide), if_neg, e2]
    · exact ih c (i + 1) (by omega) (by omega)
        (fun j h1 h2 h3 => hp j (by omega) (by omega) h3)
    · intro hc
      by_cases hin : i < n
      · exact hp i (le_refl i) (by omega) hin ⟨hc.1, hc.2.2⟩
      · exact hc.2.1 (by rw [hs.unused (i + 1) (by omega) (by omega)]; rfl)

/-- The coalescing loop changes nothing from an index on above which no two neighbours are both
holes. -/
theorem freeCoalesce_noop_from {s : State} {n : Nat} (hs : Shape s n) :
    ∀ (cnt i : Nat), i + cnt = MAX_LINKED_LIST_SIZE - 1 →
      (∀ j, i ≤ j → j < n →
        ¬ ((s.LinkedList j).type = TYPE.H ∧ (s.LinkedList (j + 1)).type = TYPE.H)) →
      freeCoalesce cnt i s = .ok s := by
  intro cnt
  induction cnt with
  | zero => intro i _ _; rfl
  | succ cnt ih =>
    intro i hi hp
    rw [freeCoalesce]
    by_cases hu : (s.LinkedList i).in_use = 0
    · rw [if_pos hu]
    · rw [if_neg hu, if_neg, ih (i + 1) (by omega) (fun j h1 h2 => hp j (by omega) h2)]
      intro hc
      have hlive : Live s (i + 1) := ⟨by omega, hc.2.1⟩
      have := (shape_live_iff hs (i + 1)).1 hlive
      exact hp i (le_refl i) (by omega) ⟨hc.1, hc.2.2⟩

/-- The coalescing loop when the only neighbouring holes of the list start at index `k`: it
is the call `removeNode(k)`. -/
theorem freeCoalesce_at {t : State} {n : Nat} (ht : Shape t n) (k : Nat) (hk : k < n)
    (h1 : (t.LinkedList k).type = TYPE.H) (h2 : (t.LinkedList (k + 1)).type = TYPE.H)
    (hbefore : ∀ j, j < k →
      ¬ ((t.LinkedList j).type = TYPE.H ∧ (t.LinkedList (j + 1)).type = TYPE.H))
    (t1 : State) (n1 : Nat) (hrem : removeNode MAX_LINKED_LIST_SIZE t k = .ok t1)
    (ht1 : Shape t1 n1)
    (hafter : ∀ j, k < j → j < n1 →
      ¬ ((t1.LinkedList j).type = TYPE.H ∧ (t1.LinkedList (j + 1)).type = TYPE.H)) :
    freeCoalesce (MAX_LINKED_LIST_SIZE - 1) 0 t = .ok t1 := by
  have hb := ht.bound
  have e : MAX_LINKED_LIST_SIZE - 1 = k + ((MAX_LINKED_LIST_SIZE - 2 - k) + 1) := by omega
  rw [e, freeCoalesce_skip ht k _ 0 (by omega) (by omega) (fun j _ h3 _ => hbefore j (by omega)),
    Nat.zero_add, freeCoalesce, if_neg (by rw [ht.used k (by omega)]; decide),
    if_pos ⟨h1, by rw [ht.used (k + 1) (by omega)]; decide, h2⟩, hrem]
  exact freeCoalesce_noop_from ht1 _ (k + 1) (by omega) (fun j h3 h4 => hafter j (by omega) h4)

/-- One round of `removeNode(prev)`: the entry that moves next to `prev` is not a hole. -/
theorem removeNode_once (s : State) (prev n : Nat) (hs : Shape s n) (hprev : prev < n)
    (hcap : n + 1 < MAX_LINKED_LIST_SIZE)
    (hnext : prev + 2 ≤ n → (s.LinkedList (prev + 2)).type ≠ TYPE.H) :
    removeNode MAX_LINKED_LIST_SIZE s prev = .ok (removeStep s prev) := by
  have e : MAX_LINKED_LIST_SIZE = (MAX_LINKED_LIST_SIZE - 1) + 1 := by decide
  rw [e, removeNode_succ _ s prev n hs.last hprev hcap, if_neg]
  intro hc
  have hs1 := shape_removeStep hs prev hprev hcap
  have hl : prev + 1 ≤ n - 1 := (shape_live_iff hs1 (prev + 1)).1 ⟨by omega, hc.1⟩
  rw [removeStep_gt s prev (prev + 1) n hs.last (by omega) (by omega)] at hc
  exact hnext (by omega) hc.2

/-- Two rounds of `removeNode(prev)`: three holes in a row, followed by no hole. -/
theorem removeNode_twice (s : State) (prev n : Nat) (hs : Shape s n) (hprev : prev + 1 < n)
    (hcap : n + 1 < MAX_LINKED_LIST_SIZE)
    (h2 : (s.LinkedList (prev + 2)).type = TYPE.H)
    (hnext : prev + 3 ≤ n → (s.LinkedList (prev + 3)).type ≠ TYPE.H) :
    removeNode MAX_LINKED_LIST_SIZE s prev = .ok (removeStep (removeStep s prev) prev) := by
  have e : MAX_LINKED_LIST_SIZE = (MAX_LINKED_LIST_SIZE - 2) + 1 + 1 := by decide
  have hs1 := shape_removeStep hs prev (by omega) hcap
  have e1 : (removeStep s prev).LinkedList (prev + 1) = s.LinkedList (prev + 2) :=
    removeStep_gt s prev (prev + 1) n hs.last (by omega) (by omega)
  rw [e, removeNode_succ _ s prev n hs.last (by omega) hcap, if_pos, 
    removeNode_succ _ _ prev (n - 1) hs1.last (by omega) (by omega), if_neg]
  · intro hc
    have hs2 := shape_removeStep hs1 prev (by omega) (by omega)
    have hl : prev + 1 ≤ n - 1 - 1 := (shape_live_iff hs2 (prev + 1)).1 ⟨by omega, hc.1⟩
    rw [removeStep_gt _ prev (prev + 1) (n - 1) hs1.last (by omega) (by omega),
      removeStep_gt s prev (prev + 1 + 1) n hs.last (by omega) (by omega)] at hc
    exact hnext (by omega) hc.2
  · rw [e1]
    exact ⟨by rw [hs.used (prev + 2) (by omega)]; decide, h2⟩

theorem node_setH (nd : Node) (h : nd.type = TYPE.H) : { nd with type := TYPE.H } = nd := by
  cases nd with
  | mk a b c d =>
    simp only at h
    simp [h]

theorem free_eq_coalesce {s : State} {n : Nat} (hs : Shape s n) (ptr : Nat) (hp : ptr ≠ 0) :
    mavalloc_free s ptr
      = freeCoalesce (MAX_LINKED_LIST_SIZE - 1) 0 (markStep_free s ptr n) := by
  rw [mavalloc_free, if_neg hp, freeMark_shape hs ptr]

/-- The marking loop of `mavalloc_free(ptr)` when entry `i` is the only process allocation
that starts at `ptr`: entry `i` becomes a hole, nothing else changes. -/
theorem markStep_free_list (u : State) (n ptr i : Nat) (hi : i ≤ n)
    (harena : (u.LinkedList i).arena = ptr)
    (huniq : ∀ j, j ≤ n → j ≠ i → (u.LinkedList j).arena = ptr →
      (u.LinkedList j).type = TYPE.H) :
    (markStep_free u ptr n).LinkedList i = { u.LinkedList i with type := TYPE.H }
    ∧ ∀ j, j ≠ i → (markStep_free u ptr n).LinkedList j = u.LinkedList j := by
  constructor
  · simp [markStep_free, hi, harena]
  · intro j hj
    rcases markStep_free_entry u ptr n j with h1 | h1
    · exact h1
    · rw [h1.1]
      exact node_setH _ (huniq j h1.2.1 hj h1.2.2)

theorem mavalloc_size_list (s t : State) (h : t.LinkedList = s.LinkedList) :
    mavalloc_size t = mavalloc_size s := by
  unfold mavalloc_size
  rw [h]

/-- Freeing the start of entry `k` right after the exact-fit branch of `insertNode` turned the
hole `k` into a process allocation. -/
theorem free_after_mark {s : State} {n : Nat} (hs : Shape s n) (hn : NoAdj s n) (k : Nat)
    (hk : k ≤ n) (hH : (s.LinkedList k).type = TYPE.H) (c : Bool)
    (hne : (s.LinkedList k).arena ≠ 0)
    (hfresh : ∀ j, j ≤ n → (s.LinkedList j).type = TYPE.P →
      (s.LinkedList j).arena ≠ (s.LinkedList k).arena) :
    ∃ s', mavalloc_free (setCursor c (markStep s k) (s.LinkedList k).arena)
        (s.LinkedList k).arena = .ok s'
      ∧ s'.LinkedList = s.LinkedList ∧ s'.lastUsed = s.lastUsed := by
  have hu : Shape (setCursor c (markStep s k) (s.LinkedList k).arena) n :=
    shape_setCursor (shape_markStep hs k hk) _ _
  have hm := markStep_free_list (setCursor c (markStep s k) (s.LinkedList k).arena) n
    (s.LinkedList k).arena k hk (by rw [setCursor_list, markStep_at])
    (by
      intro j hj hjk ha
      rw [setCursor_list, markStep_other s k j hjk] at ha ⊢
      cases hT : (s.LinkedList j).type with
      | H => rfl
      | P => exact absurd ha (hfresh j hj hT))
  have eL : (markStep_free (setCursor c (markStep s k) (s.LinkedList k).arena)
      (s.LinkedList k).arena n).LinkedList = s.LinkedList := by
    funext j
    by_cases hj : j = k
    · subst hj
      rw [hm.1, setCursor_list, markStep_at]
      exact node_setH _ hH
    · rw [hm.2 j hj, setCursor_list, markStep_other s k j hj]
  have ht := shape_markStep_free hu (s.LinkedList k).arena
  have hnt : NoAdj (markStep_free (setCursor c (markStep s k) (s.LinkedList k).arena)
      (s.LinkedList k).arena n) n := by
    intro j hj
    rw [eL]
    exact hn j hj
  refine ⟨_, ?_, eL, ?_⟩
  · rw [free_eq_coalesce hu _ hne]
    exact freeCoalesce_noop ht hnt _ 0 (by omega)
  · rw [ht.last, hs.last]

/-- Freeing the start of entry `k` right after the split branch of `insertNode` cut the
request out of the hole `k`: the two parts are merged again. -/
theorem free_after_split {s : State} {n : Nat} (hs : Shape s n) (hn : NoAdj s n)
    (hr : InRange s n) (k : Nat) (hk : k ≤ n) (hH : (s.LinkedList k).type = TYPE.H)
    (c : Bool) (x : Int) (h4 : (4 : Int) ∣ x) (hx : x ≠ (s.LinkedList k).size)
    (hcap : n + 2 < MAX_LINKED_LIST_SIZE)
    (hne : (s.LinkedList k).arena ≠ 0)
    (hfresh : ∀ j, j ≤ n → (s.LinkedList j).type = TYPE.P →
      (s.LinkedList j).arena ≠ (s.LinkedList k).arena) :
    ∃ s', mavalloc_free (setCursor c (splitStep s x k) (s.LinkedList k).arena)
        (s.LinkedList k).arena = .ok s'
      ∧ s'.LinkedList = s.LinkedList ∧ s'.lastUsed = s.lastUsed := by
  have hb := hs.bound
  have hu : Shape (setCursor c (splitStep s x k) (s.LinkedList k).arena) (n + 1) :=
    shape_setCursor (shape_splitStep hs _ k hk (by omega) h4) _ _
  have hm := markStep_free_list (setCursor c (splitStep s x k) (s.LinkedList k).arena) (n + 1)
    (s.LinkedList k).arena k (by omega) (by rw [setCursor_list, splitStep_at])
    (by
      intro j hj hjk ha
      rw [setCursor_list] at ha ⊢
      by_cases c1 : j < k
      · rw [splitStep_lt s x k j c1] at ha ⊢
        cases hT : (s.LinkedList j).type with
        | H => rfl
        | P => exact absurd ha (hfresh j (by omega) hT)
      · by_cases c2 : j = k + 1
        · subst c2
          rw [splitStep_next]
          exact hH
        · rw [splitStep_gt s x k j n hs.last (by omega) hj] at ha ⊢
          cases hT : (s.LinkedList (j - 1)).type with
          | H => rfl
          | P => exact absurd ha (hfresh (j - 1) (by omega) hT))
  have ht := shape_markStep_free hu (s.LinkedList k).arena
  generalize htdef : markStep_free (setCursor c (splitStep s x k) (s.LinkedList k).arena)
      (s.LinkedList k).arena (n + 1) = t at hm ht
  have tk : t.LinkedList k
      = { in_use := 1, size := x, arena := (s.LinkedList k).arena, type := TYPE.H } := by
    rw [hm.1, setCursor_list, splitStep_at]
  have tlt : ∀ j, j < k → t.LinkedList j = s.LinkedList j := by
    intro j hj
    rw [hm.2 j (by omega), setCursor_list, splitStep_lt s x k j hj]
  have tnext : t.LinkedList (k + 1) = { s.LinkedList k with
        size := toInt ((s.LinkedList k).size - x),
        arena := ptrAdd (s.LinkedList k).arena x } := by
    rw [hm.2 (k + 1) (by omega), setCursor_list, splitStep_next]
  have tgt : ∀ j, k < j → j ≤ n → t.LinkedList (j + 1) = s.LinkedList j := by
    intro j h1 h2
    rw [hm.2 (j + 1) (by omega), setCursor_list,
      splitStep_gt s x k (j + 1) n hs.last (by omega) (by omega)]
    rfl
  have tfar : ∀ j, n + 1 < j → t.LinkedList j = s.LinkedList j := by
    intro j h1
    rw [hm.2 j (by omega), setCursor_list,
      splitStep_far s x k j n hs.last (by omega) (by omega)]
  have hnextH : k < n → (s.LinkedList (k + 1)).type ≠ TYPE.H :=
    fun h1 h2 => hn k h1 ⟨hH, h2⟩
  have ht1 := shape_removeStep ht k (by omega) (by omega)
  have hrem : removeNode MAX_LINKED_LIST_SIZE t k = .ok (removeStep t k) := by
    apply removeNode_once t k (n + 1) ht (by omega) (by omega)
    intro h1
    rw [tgt (k + 1) (by omega) (by omega)]
    exact hnextH (by omega)
  have r_gt : ∀ j, k < j → j ≤ n → (removeStep t k).LinkedList j = s.LinkedList j := by
    intro j h1 h2
    rw [removeStep_gt t k j (n + 1) ht.last h1 (by omega), tgt j h1 h2]
  have hfree : mavalloc_free (setCursor c (splitStep s x k) (s.LinkedList k).arena)
      (s.LinkedList k).arena = .ok (removeStep t k) := by
    rw [free_eq_coalesce hu _ hne, htdef]
    apply freeCoalesce_at ht k (by omega) (by rw [tk]) (by rw [tnext]; exact hH) ?_
      (removeStep t k) (n + 1 - 1) hrem ht1 ?_
    · intro j hj hc
      rw [tlt j hj] at hc
      apply hn j (by omega)
      refine ⟨hc.1, ?_⟩
      by_cases c1 : j + 1 = k
      · rw [c1]; exact hH
      · have := hc.2
        rw [tlt (j + 1) (by omega)] at this
        exact this
    · intro j h1 h2 hc
      rw [r_gt j h1 (by omega), r_gt (j + 1) (by omega) (by omega)] at hc
      exact hn j (by omega) hc
  refine ⟨_, hfree, ?_, ?_⟩
  · funext j
    by_cases c1 : j < k
    · rw [removeStep_lt t k j c1, tlt j c1]
    · by_cases c2 : j = k
      · subst c2
        have hrg := hr j hk
        have hus := hs.used j hk
        rw [removeStep_at, tk, tnext]
        cases hnode : s.LinkedList j with
        | mk a b c d =>
          rw [hnode] at hH hrg hus
          simp only at hH hrg hus
          simp only [Node.mk.injEq]
          refine ⟨hus.symm, ?_, trivial, hH.symm⟩
          rw [toInt_add_toInt]
          have e : x + (b - x) = b := by omega
          rw [e]
          exact toInt_of_range _ hrg.1 hrg.2
      · by_cases c3 : j ≤ n
        · exact r_gt j (by omega) c3
        · by_cases c4 : j = n + 1
          · subst c4
            rw [removeStep_gt t k (n + 1) (n + 1) ht.last (by omega) (by omega),
              tfar (n + 1 + 1) (by omega), hs.unused (n + 1 + 1) (by omega) (by omega),
              hs.unused (n + 1) (by omega) (by omega)]
          · rw [removeStep_far t k j (n + 1) ht.last (by omega) (by omega), tfar j (by omega)]
  · have := ht1.last
    rw [this, hs.last]
    omega

/-! ## mavalloc_free merges the neighbours -/

/-- The coalescing loop on a list whose only neighbouring holes are the entries `k` and
`k + 1`. -/
theorem coalesce_one {t : State} {n : Nat} (ht : Shape t n) (k : Nat) (hk : k < n)
    (hcap : n + 1 < MAX_LINKED_LIST_SIZE)
    (h1 : (t.LinkedList k).type = TYPE.H) (h2 : (t.LinkedList (k + 1)).type = TYPE.H)
    (hpairs : ∀ j, j < n → (t.LinkedList j).type = TYPE.H →
      (t.LinkedList (j + 1)).type = TYPE.H → j = k) :
    freeCoalesce (MAX_LINKED_LIST_SIZE - 1) 0 t = .ok (removeStep t k) := by
  have ht1 := shape_removeStep ht k hk hcap
  apply freeCoalesce_at ht k hk h1 h2 ?_ (removeStep t k) (n - 1) ?_ ht1 ?_
  · intro j hj hc
    have := hpairs j (by omega) hc.1 hc.2
    omega
  · apply removeNode_once t k n ht hk hcap
    intro h3 hc
    have := hpairs (k + 1) (by omega) h2 hc
    omega
  · intro j h3 h4 hc
    rw [removeStep_gt t k j n ht.last h3 (by omega),
      removeStep_gt t k (j + 1) n ht.last (by omega) (by omega)] at hc
    have := hpairs (j + 1) (by omega) hc.1 hc.2
    omega

/-- The coalescing loop on a list whose only neighbouring holes are the entries `k`, `k + 1`
and `k + 2`. -/
theorem coalesce_two {t : State} {n : Nat} (ht : Shape t n) (k : Nat) (hk : k + 1 < n)
    (hcap : n + 1 < MAX_LINKED_LIST_SIZE)
    (h1 : (t.LinkedList k).type = TYPE.H) (h2 : (t.LinkedList (k + 1)).type = TYPE.H)
    (h3 : (t.LinkedList (k + 2)).type = TYPE.H)
    (hpairs : ∀ j, j < n → (t.LinkedList j).type = TYPE.H →
      (t.LinkedList (j + 1)).type = TYPE.H → j = k ∨ j = k + 1) :
    freeCoalesce (MAX_LINKED_LIST_SIZE - 1) 0 t = .ok (removeStep (removeStep t k) k) := by
  have ht1 := shape_removeStep ht k (by omega) hcap
  have ht2 := shape_removeStep ht1 k (by omega) (by omega)
  apply freeCoalesce_at ht k (by omega) h1 h2 ?_ (removeStep (removeStep t k) k) (n - 1 - 1) ?_
    ht2 ?_
  · intro j hj hc
    have := hpairs j (by omega) hc.1 hc.2
    omega
  · apply removeNode_twice t k n ht hk hcap h3
    intro h4 hc
    have := hpairs (k + 2) (by omega) h3 hc
    omega
  · intro j h4 h5 hc
    rw [removeStep_gt _ k j (n - 1) ht1.last h4 (by omega),
      removeStep_gt _ k (j + 1) (n - 1) ht1.last (by omega) (by omega),
      removeStep_gt t k (j + 1) n ht.last (by omega) (by omega),
      removeStep_gt t k (j + 1 + 1) n ht.last (by omega) (by omega)] at hc
    have := hpairs (j + 1 + 1) (by omega) hc.1 hc.2
    omega

/-- The coalescing loop faults on a full list that holds two neighbouring holes. -/
theorem freeCoalesce_full {t : State} {n : Nat} (ht : Shape t n) (k : Nat) (hk : k < n)
    (hcap : n + 1 = MAX_LINKED_LIST_SIZE)
    (h1 : (t.LinkedList k).type = TYPE.H) (h2 : (t.LinkedList (k + 1)).type = TYPE.H)
    (hbefore : ∀ j, j < k →
      ¬ ((t.LinkedList j).type = TYPE.H ∧ (t.LinkedList (j + 1)).type = TYPE.H)) :
    freeCoalesce (MAX_LINKED_LIST_SIZE - 1) 0 t = .error Fault.outOfBounds := by
  have hb := ht.bound
  have e : MAX_LINKED_LIST_SIZE - 1 = k + ((MAX_LINKED_LIST_SIZE - 2 - k) + 1) := by omega
  have e2 : MAX_LINKED_LIST_SIZE = (MAX_LINKED_LIST_SIZE - 1) + 1 := by decide
  rw [e, freeCoalesce_skip ht k _ 0 (by omega) (by omega) (fun j _ h3 _ => hbefore j (by omega)),
    Nat.zero_add, freeCoalesce, if_neg (by rw [ht.used k (by omega)]; decide),
    if_pos ⟨h1, by rw [ht.used (k + 1) (by omega)]; decide, h2⟩, e2,
    removeNode_fault _ t k n ht.last hk hcap]

/-! ## Freeing in a full list -/

theorem fillRun_step (k : Nat) (hk : k + 1 < MAX_LINKED_LIST_SIZE) :
    (fillRun (k + 1)).LinkedList
      = (splitStep (fillRun k) (toInt (ALIGN4 4)) k).LinkedList := by
  obtain ⟨hs, halg, hP, hH, hsz⟩ := fillRun_shape k (by omega)
  obtain ⟨hsel, ht, hne⟩ := fillRun_select (fillRun k) k hs halg hP hH hsz
  have hinit : (fillRun k).initialized ≠ 0 := by rw [hs.initialized]; decide
  have heq := mavalloc_alloc_eq (fillRun k) 4 (by decide) hinit
  rw [hsel] at heq
  simp only [] at heq
  rw [allocAt_split (fillRun k) _ k k _ hs.last (le_refl k) hk hne] at heq
  show (stepAlloc (fillRun k) 4).LinkedList = _
  unfold stepAlloc
  rw [heq]
  simp only []
  rw [setCursor_list]

theorem fillRun_arena : ∀ k, k < MAX_LINKED_LIST_SIZE → ∀ j, j ≤ k →
    ((fillRun k).LinkedList j).arena = 4096 + 4 * j := by
  intro k
  induction k with
  | zero =>
    intro _ j hj
    have : j = 0 := by omega
    subst this
    decide
  | succ k ih =>
    intro hk j hj
    have ht : toInt (ALIGN4 4) = 4 := by decide
    rw [fillRun_step k hk]
    by_cases c1 : j < k
    · rw [splitStep_lt _ _ k j c1]
      exact ih (by omega) j (by omega)
    · by_cases c2 : j = k
      · subst c2
        rw [splitStep_at]
        exact ih (by omega) j (le_refl j)
      · have c3 : j = k + 1 := by omega
        subst c3
        rw [splitStep_next]
        show ptrAdd ((fillRun k).LinkedList k).arena (toInt (ALIGN4 4)) = _
        rw [ih (by omega) k (le_refl k), ht]
        unfold ptrAdd toSizeT
        unfold MAX_LINKED_LIST_SIZE at hk
        omega

/-- With all 10000 slots live, the last one a hole, freeing the allocation before it makes
`removeNode` shift from slot 10000, outside the array. -/
theorem free_fillRun_full :
    mavalloc_free (fillRun 9999) 44088 = .error Fault.outOfBounds := by
  obtain ⟨hs, _, hP, hH, _⟩ := fillRun_shape 9999 (by decide)
  have ha := fillRun_arena 9999 (by decide)
  have hm := markStep_free_list (fillRun 9999) 9999 44088 9998 (by omega)
    (by rw [ha 9998 (by omega)])
    (by
      intro j hj hji hj2
      rw [ha j hj] at hj2
      omega)
  have ht := shape_markStep_free hs 44088
  rw [free_eq_coalesce hs 44088 (by decide)]
  generalize markStep_free (fillRun 9999) 44088 9999 = t at hm ht
  have e : 9998 + 1 = 9999 := rfl
  apply freeCoalesce_full ht 9998 (by omega) (by decide) (by rw [hm.1])
    (by rw [e, hm.2 9999 (by omega)]; exact hH)
  intro j hj hc
  have h1 := hc.1
  rw [hm.2 j (by omega), hP j (by omega)] at h1
  cases h1

/-! ## The test of the scans in arenas that fit the `int` range -/

/-- In a tiled list the test of the scans is the comparison of the integers. -/
theorem sane_qualifies {s : State} {n total : Nat} (h : Sane s n total) (j : Nat) (hj : j ≤ n)
    (req : Nat) : fits (s.LinkedList j) req ↔ Qualifies (s.LinkedList j) req := by
  have a3 := sane_size_le h j hj
  have a4 := h.total_le
  unfold Qualifies
  exact fits_of_range _ _ a3.1 (by omega)

theorem reach_exFHuge1 : Reachable 140000000000000 4294967292 exFHuge1 :=
  reach_stepFree (reach_stepAlloc (reach_stepAlloc reach_exFHuge0 2147483648 (by decide)) 8
    (by decide)) 140000000000000

theorem reach_exBHuge1 : Reachable 140000000000000 4294967292 exBHuge1 :=
  reach_stepFree (reach_stepAlloc (reach_stepAlloc
    (Reachable.init State.start ALGORITHM.BEST_FIT (by decide) (by decide) (by decide)
      (by decide) (by decide)) 3221225472 (by decide)) 8 (by decide)) 140000000000000

theorem reach_exNHuge1 : Reachable 140000000000000 4294967292 exNHuge1 :=
  reach_stepFree (reach_stepAlloc (reach_stepAlloc
    (Reachable.init State.start ALGORITHM.NEXT_FIT (by decide) (by decide) (by decide)
      (by decide) (by decide)) 2147483648 (by decide)) 8 (by decide)) 140000000000000

/-- A hit can return the address 0. In the arena of 4294967292 bytes placed at address 65536,
after an allocation of 4294901760 bytes the hole that is left starts at address 0; the scan of
`mavalloc_alloc(8)` selects that hole, the call turns entry 1 into an allocation, raises
`lastUsed` from 1 to 2 and returns the start of the allocation, which is the value of
`NULL`. -/
theorem alloc_hit_at_address_zero :
    Reachable 65536 4294967292 exFLow1
      ∧ firstFitScan exFLow1.LinkedList (ALIGN4 8) MAX_LINKED_LIST_SIZE 0 = some 1
      ∧ mavalloc_alloc exFLow1 8 = .ok (stepAlloc exFLow1 8, retAlloc exFLow1 8)
      ∧ retAlloc exFLow1 8 = 0
      ∧ exFLow1.lastUsed = 1 ∧ (stepAlloc exFLow1 8).lastUsed = 2
      ∧ (exFLow1.LinkedList 1).type = TYPE.H
      ∧ ((stepAlloc exFLow1 8).LinkedList 1).type = TYPE.P :=
  ⟨reach_exFLow1, by decide, alloc_eq_step _ _ (by decide), by decide, by decide, by decide,
    by decide, by decide⟩

/-! ## The claims -/

/-- C2. No-adjacent-holes invariant: in every state reachable from `mavalloc_init` by
`mavalloc_alloc` / `mavalloc_free` calls, whenever `mavalloc_free(ptr)` returns, for any `ptr`,
no two adjacent live entries of the resulting list are both holes; and the call does return
whenever fewer than `MAX_LINKED_LIST_SIZE` entries are live. -/
theorem no_adjacent_holes_after_free (base totalSize : Nat) (s : State)
    (h : Reachable base totalSize s) (ptr : Nat) :
    (∀ s', mavalloc_free s ptr = .ok s' → NoAdjacentHoles s') ∧
    (s.lastUsed + 1 < MAX_LINKED_LIST_SIZE → ∃ s', mavalloc_free s ptr = .ok s') := by
  obtain ⟨n, hs, hn⟩ := reachable_shape h
  constructor
  · intro s' e
    obtain ⟨n', hs', hn'⟩ := free_keeps hs hn ptr s' e
    exact noAdj_noAdjacentHoles hs' hn'
  · intro hcap
    rcases free_run (fun _ _ => True) (fun _ _ _ _ _ _ _ _ _ => trivial)
        (fun _ _ _ _ _ => trivial) hs trivial hn ptr with h1 | h1
    · have := hs.last
      omega
    · obtain ⟨t, _, e, _⟩ := h1
      exact ⟨t, e⟩

/-- Witness of C2: freeing the second region of the example run, next to the hole left by the
first. -/
theorem no_adjacent_holes_after_free_witness :
    (∀ s', mavalloc_free exB2 4148 = .ok s' → NoAdjacentHoles s') ∧
    (exB2.lastUsed + 1 < MAX_LINKED_LIST_SIZE → ∃ s', mavalloc_free exB2 4148 = .ok s') :=
  no_adjacent_holes_after_free 4096 200 exB2 (reach_stepFree reach_exB1 4096) 4148

/-- C10. Free tolerates bad handles: in every state reachable from `mavalloc_init` by alloc/free
calls, for every `ptr` that is `NULL` or is not the start of any live allocated region (an
unknown address, or the start of a region that is already a hole), `mavalloc_free(ptr)` returns
and leaves the whole state, hence the region list and the live count, unchanged. -/
theorem free_tolerates_bad_handles (base totalSize : Nat) (s : State)
    (h : Reachable base totalSize s) (ptr : Nat)
    (hbad : ptr = 0 ∨
      ∀ i, Live s i → (s.LinkedList i).type = TYPE.P → (s.LinkedList i).arena ≠ ptr) :
    mavalloc_free s ptr = .ok s := by
  obtain ⟨n, hs, hn⟩ := reachable_shape h
  exact free_noop hs hn ptr hbad

/-- Witness of C10: a double free of the first region of the example run. -/
theorem free_tolerates_bad_handles_witness : mavalloc_free exB2 4096 = .ok exB2 :=
  free_tolerates_bad_handles 4096 200 exB2 (reach_stepFree reach_exB1 4096) 4096
    (Or.inr (fun i hl hP => by
      have hi := (reachable_live reach_exB2 4 (by decide) i).1 hl
      interval_cases i <;> revert hP <;> decide))


/-- C1, as amended. Partition invariant: for every state reached from a successful
`mavalloc_init(totalSize, strategy)` with `totalSize ≤ 2147483644`, so that the size rounded up
to a multiple of 4 fits the `int` field of a node, by any finite sequence of `mavalloc_alloc`
and `mavalloc_free` calls that return, the live entries are the slots `0 .. n`, entry 0 starts
at the arena base, each later entry starts at the previous entry's start plus size, and the sum
of all live sizes is `totalSize` rounded up to a multiple of 4. -/
theorem partition_invariant (base totalSize : Nat) (s : State)
    (h : Reachable base totalSize s) (hfit : totalSize ≤ 2147483644) :
    ∃ n : Nat, (∀ i, Live s i ↔ i ≤ n)
      ∧ (s.LinkedList 0).arena = base
      ∧ (∀ i, i < n →
          ((s.LinkedList (i + 1)).arena : Int) = (s.LinkedList i).arena + (s.LinkedList i).size)
      ∧ liveSum s.LinkedList MAX_LINKED_LIST_SIZE 0 = (ALIGN4 totalSize : Int)
      ∧ 4 ∣ ALIGN4 totalSize ∧ totalSize ≤ ALIGN4 totalSize ∧ ALIGN4 totalSize < totalSize + 4 := by
  obtain ⟨n, hs, _, hsane, hg⟩ := reachable_sane h hfit
  have hb := ALIGN4_bounds totalSize (by unfold SIZE_MOD; omega)
  refine ⟨n, shape_live_iff hs, by rw [hsane.first, hg], hsane.chain, ?_, ALIGN4_dvd totalSize,
    hb.1, hb.2⟩
  rw [liveSum_eq hs hsane MAX_LINKED_LIST_SIZE 0 (by omega) (by omega), hsane.first]
  omega

/-- Witness of C1: the example run with holes of 52, 32 and 100 bytes in an arena of 200. -/
theorem partition_invariant_witness :
    ∃ n : Nat, (∀ i, Live exB3 i ↔ i ≤ n)
      ∧ (exB3.LinkedList 0).arena = 4096
      ∧ (∀ i, i < n → ((exB3.LinkedList (i + 1)).arena : Int)
          = (exB3.LinkedList i).arena + (exB3.LinkedList i).size)
      ∧ liveSum exB3.LinkedList MAX_LINKED_LIST_SIZE 0 = (ALIGN4 200 : Int)
      ∧ 4 ∣ ALIGN4 200 ∧ 200 ≤ ALIGN4 200 ∧ ALIGN4 200 < 200 + 4 :=
  partition_invariant 4096 200 exB3 (reach_stepFree reach_exB2 4156) (by decide)

/-- Counterexample to C1 as stated: `mavalloc_init(2147483648, FIRST_FIT)` succeeds and leaves
one live hole whose `int` size is -2147483648, so the live sizes do not sum to the total size
rounded up, 2147483648. -/
theorem partition_invariant_counterexample :
    Reachable 140000000000000 2147483648 exHuge
      ∧ (exHuge.LinkedList 0).size = -2147483648
      ∧ liveSum exHuge.LinkedList MAX_LINKED_LIST_SIZE 0 = -2147483648
      ∧ liveSum exHuge.LinkedList MAX_LINKED_LIST_SIZE 0 ≠ (ALIGN4 2147483648 : Int) :=
  ⟨Reachable.init State.start ALGORITHM.FIRST_FIT (by decide) (by decide) (by decide)
    (by decide) (by decide), by decide, by decide, by decide⟩

/-- The FIRST_FIT branch in terms of the test of its scan, in any arena: when some live entry
passes the test (`type == H` and the `size_t` comparison of the size) against the 4-aligned
request, there is a lowest such index `k`; whenever `mavalloc_alloc(size)` returns, the pointer
returned is the start of entry `k` and entry `k` is then the allocated region at that start;
and the call returns whenever fewer than `MAX_LINKED_LIST_SIZE` entries are live. -/
theorem first_fit_scan_choice (base totalSize : Nat) (s : State)
    (h : Reachable base totalSize s) (halg : s.alg = ALGORITHM.FIRST_FIT)
    (size : Nat) (hpos : 0 < size)
    (hex : ∃ i, Live s i ∧ fits (s.LinkedList i) (ALIGN4 size)) :
    ∃ k, Live s k ∧ fits (s.LinkedList k) (ALIGN4 size)
      ∧ (∀ j, j < k → ¬ fits (s.LinkedList j) (ALIGN4 size))
      ∧ (∀ r, mavalloc_alloc s size = .ok r →
          r.2 = (s.LinkedList k).arena ∧ Live r.1 k ∧ (r.1.LinkedList k).type = TYPE.P
          ∧ (r.1.LinkedList k).arena = (s.LinkedList k).arena
          ∧ (r.1.LinkedList k).size = toInt (ALIGN4 size))
      ∧ (s.lastUsed + 1 < MAX_LINKED_LIST_SIZE → ∃ r, mavalloc_alloc s size = .ok r) := by
  obtain ⟨n, hs, _⟩ := reachable_shape h
  have hb := hs.bound
  obtain ⟨i, hi1, hi2⟩ := hex
  have hin := (shape_live_iff hs i).1 hi1
  rcases firstFitScan_spec hs (ALIGN4 size) MAX_LINKED_LIST_SIZE 0 (by omega) (by omega)
    with h1 | h1
  · obtain ⟨k, e, _, k2, k3, k4⟩ := h1
    have hsel : selectHole s (ALIGN4 size) = .ok (some k) := by
      rw [selectHole_first s _ halg, e]
    have ha := alloc_at_selected hs size (by omega) k hsel
    refine ⟨k, (shape_live_iff hs k).2 k2, k3, fun j hj => k4 j (by omega) hj, ?_, ?_⟩
    · intro r hr
      obtain ⟨a1, a2, a3, a4, a5⟩ := ha.1 r hr
      exact ⟨a1, ⟨by omega, by rw [a5]; decide⟩, a2, a3, a4⟩
    · intro hcap
      have := hs.last
      exact ha.2 (Or.inl (by omega))
  · exact absurd hi2 (h1.2 i (by omega) hin)

/-- The BEST_FIT branch in terms of the test and the leftover of its scan, in any arena: when
some live entry passes the test, there is such an entry `k` whose leftover (the `int` value
`size - req_size` the scan computes) is minimal, and which has the lowest index among the
entries of that leftover; whenever `mavalloc_alloc(size)` returns, the pointer returned is the
start of entry `k`, which is then the allocated region; the call returns whenever fewer than
`MAX_LINKED_LIST_SIZE` entries are live. In an arena of at most 2147483644 bytes the leftover
is the hole size minus the aligned request. -/
theorem best_fit_scan_choice (base totalSize : Nat) (s : State)
    (h : Reachable base totalSize s) (halg : s.alg = ALGORITHM.BEST_FIT)
    (size : Nat) (hpos : 0 < size)
    (hex : ∃ i, Live s i ∧ fits (s.LinkedList i) (ALIGN4 size)) :
    ∃ k, Live s k ∧ fits (s.LinkedList k) (ALIGN4 size)
      ∧ (∀ j, Live s j → fits (s.LinkedList j) (ALIGN4 size) →
          leftoverOf (s.LinkedList k) (ALIGN4 size) ≤ leftoverOf (s.LinkedList j) (ALIGN4 size))
      ∧ (∀ j, Live s j → fits (s.LinkedList j) (ALIGN4 size) →
          leftoverOf (s.LinkedList j) (ALIGN4 size) = leftoverOf (s.LinkedList k) (ALIGN4 size) →
          k ≤ j)
      ∧ (∀ r, mavalloc_alloc s size = .ok r →
          r.2 = (s.LinkedList k).arena ∧ Live r.1 k ∧ (r.1.LinkedList k).type = TYPE.P
          ∧ (r.1.LinkedList k).arena = (s.LinkedList k).arena
          ∧ (r.1.LinkedList k).size = toInt (ALIGN4 size))
      ∧ (s.lastUsed + 1 < MAX_LINKED_LIST_SIZE → ∃ r, mavalloc_alloc s size = .ok r)
      ∧ (totalSize ≤ 2147483644 → ∀ j, Live s j → fits (s.LinkedList j) (ALIGN4 size) →
          leftoverOf (s.LinkedList j) (ALIGN4 size)
            = (s.LinkedList j).size - (ALIGN4 size : Int)) := by
  obtain ⟨n, hs, _⟩ := reachable_shape h
  have hb := hs.bound
  obtain ⟨i, hi1, hi2⟩ := hex
  have hin := (shape_live_iff hs i).1 hi1
  obtain ⟨k, hsel, k2, k3, k5, k6⟩ :=
    selectHole_best hs (ALIGN4 size) (ALIGN4_dvd size) halg i hin hi2
  have ha := alloc_at_selected hs size (by omega) k hsel
  refine ⟨k, (shape_live_iff hs k).2 k2, k3,
    fun j hj hf => k5 j ((shape_live_iff hs j).1 hj) hf, ?_, ?_, ?_, ?_⟩
  · intro j _ hf he
    by_contra hc
    have := k6 j (by omega) hf
    omega
  · intro r hr
    obtain ⟨a1, a2, a3, a4, a5⟩ := ha.1 r hr
    exact ⟨a1, ⟨by omega, by rw [a5]; decide⟩, a2, a3, a4⟩
  · intro hcap
    have := hs.last
    exact ha.2 (Or.inl (by omega))
  · intro hfit j hj hf
    obtain ⟨n', hs', _, hsane, _⟩ := reachable_sane h hfit
    have hjn := (shape_live_iff hs' j).1 hj
    have a2 := sane_fits hsane j hjn _ hf
    have a3 := sane_size_le hsane j hjn
    have a4 := hsane.total_le
    exact leftoverOf_of_range _ _ a2.1 (by omega)

/-- The scenario of C4: in the arena of 200 bytes with holes of 52 and 32 bytes (and the rest),
`mavalloc_alloc(20)` under BEST_FIT lands in the hole of 32 bytes, at 4156. -/
theorem best_fit_scenario :
    retAlloc exB3 20 = 4156 ∧ (exB3.LinkedList 2).size = 32 ∧ (exB3.LinkedList 2).arena = 4156
      ∧ (exB3.LinkedList 0).size = 52 ∧ (exB3.LinkedList 0).type = TYPE.H := by
  decide

/-- C5, as amended. Worst-fit: in a WORST_FIT state reached from an arena of at most 2147483644
bytes (so that every size fits the `int` field), for every request `size > 0` for which some
live hole passes the test of the scan, there is a fitting live hole `k` whose leftover (hole
size minus aligned request) is maximal, and which has the lowest index among the holes of that
leftover; whenever `mavalloc_alloc(size)` returns, the pointer returned is the start of hole
`k`, which is then the allocated region; the call returns whenever fewer than
`MAX_LINKED_LIST_SIZE` entries are live. -/
theorem worst_fit_maximal_leftover (base totalSize : Nat) (s : State)
    (h : Reachable base totalSize s) (hfit : totalSize ≤ 2147483644)
    (halg : s.alg = ALGORITHM.WORST_FIT) (size : Nat) (hpos : 0 < size)
    (hex : ∃ i, Live s i ∧ fits (s.LinkedList i) (ALIGN4 size)) :
    ∃ k, Live s k ∧ fits (s.LinkedList k) (ALIGN4 size)
      ∧ (∀ j, Live s j → fits (s.LinkedList j) (ALIGN4 size) →
          (s.LinkedList j).size - (ALIGN4 size : Int)
            ≤ (s.LinkedList k).size - (ALIGN4 size : Int))
      ∧ (∀ j, Live s j → fits (s.LinkedList j) (ALIGN4 size) →
          (s.LinkedList j).size - (ALIGN4 size : Int)
            = (s.LinkedList k).size - (ALIGN4 size : Int) → k ≤ j)
      ∧ (∀ r, mavalloc_alloc s size = .ok r →
          r.2 = (s.LinkedList k).arena ∧ Live r.1 k ∧ (r.1.LinkedList k).type = TYPE.P
          ∧ (r.1.LinkedList k).arena = (s.LinkedList k).arena
          ∧ (r.1.LinkedList k).size = toInt (ALIGN4 size))
      ∧ (s.lastUsed + 1 < MAX_LINKED_LIST_SIZE → ∃ r, mavalloc_alloc s size = .ok r) := by
  obtain ⟨n, hs, _, hsane, _⟩ := reachable_sane h hfit
  have hb := hs.bound
  obtain ⟨i, hi1, hi2⟩ := hex
  have hin := (shape_live_iff hs i).1 hi1
  obtain ⟨k, hsel, k2, k3, k5, k6⟩ := selectHole_worst hs hsane (ALIGN4 size) halg i hin hi2
  have ha := alloc_at_selected hs size (by omega) k hsel
  have hlo : ∀ j, j ≤ n → fits (s.LinkedList j) (ALIGN4 size) →
      leftoverOf (s.LinkedList j) (ALIGN4 size)
        = (s.LinkedList j).size - (ALIGN4 size : Int) := by
    intro j hjn hf
    have a2 := sane_fits hsane j hjn _ hf
    have a3 := sane_size_le hsane j hjn
    have a4 := hsane.total_le
    exact leftoverOf_of_range _ _ a2.1 (by omega)
  refine ⟨k, (shape_live_iff hs k).2 k2, k3, ?_, ?_, ?_, ?_⟩
  · intro j hj hf
    have hjn := (shape_live_iff hs j).1 hj
    rw [← hlo j hjn hf, ← hlo k k2 k3]
    exact k5 j hjn hf
  · intro j hj hf he
    have hjn := (shape_live_iff hs j).1 hj
    by_contra hc
    have := k6 j (by omega) hf
    rw [hlo j hjn hf, hlo k k2 k3] at this
    omega
  · intro r hr
    obtain ⟨a1, a2, a3, a4, a5⟩ := ha.1 r hr
    exact ⟨a1, ⟨by omega, by rw [a5]; decide⟩, a2, a3, a4⟩
  · intro hcap
    have := hs.last
    exact ha.2 (Or.inl (by omega))

/-- Witness of C5: a request of 20 bytes in the WORST_FIT example run with holes of 52, 32 and
100 bytes. -/
theorem worst_fit_maximal_leftover_witness :
    ∃ k, Live exW1 k ∧ fits (exW1.LinkedList k) (ALIGN4 20)
      ∧ (∀ j, Live exW1 j → fits (exW1.LinkedList j) (ALIGN4 20) →
          (exW1.LinkedList j).size - (ALIGN4 20 : Int)
            ≤ (exW1.LinkedList k).size - (ALIGN4 20 : Int))
      ∧ (∀ j, Live exW1 j → fits (exW1.LinkedList j) (ALIGN4 20) →
          (exW1.LinkedList j).size - (ALIGN4 20 : Int)
            = (exW1.LinkedList k).size - (ALIGN4 20 : Int) → k ≤ j)
      ∧ (∀ r, mavalloc_alloc exW1 20 = .ok r →
          r.2 = (exW1.LinkedList k).arena ∧ Live r.1 k ∧ (r.1.LinkedList k).type = TYPE.P
          ∧ (r.1.LinkedList k).arena = (exW1.LinkedList k).arena
          ∧ (r.1.LinkedList k).size = toInt (ALIGN4 20))
      ∧ (exW1.lastUsed + 1 < MAX_LINKED_LIST_SIZE → ∃ r, mavalloc_alloc exW1 20 = .ok r) :=
  worst_fit_maximal_leftover 4096 200 exW1 reach_exW1 (by decide) (by decide) 20 (by decide)
    ⟨0, by decide, by decide⟩

/-- Counterexample to C5 as stated, in the arena of 4294967292 bytes under WORST_FIT. First,
right after `mavalloc_init` the only hole passes the test of the scan for a request of 8 bytes
(its size -4 is compared as a `size_t`), yet `mavalloc_alloc(8)` returns `NULL` and changes
nothing. Second, with holes of `int` size -2147483648 at index 0 and 2147483636 at index 2,
the scan of `mavalloc_alloc(16)` ends with `idx = 0` and the call returns the start of the hole
at index 0, whose size is below the request, instead of the hole of 2147483636 bytes. -/
theorem worst_fit_maximal_leftover_counterexample :
    (Reachable 140000000000000 4294967292 exWHuge0
      ∧ exWHuge0.alg = ALGORITHM.WORST_FIT
      ∧ Live exWHuge0 0 ∧ fits (exWHuge0.LinkedList 0) (ALIGN4 8)
      ∧ (exWHuge0.LinkedList 0).size = -4
      ∧ retAlloc exWHuge0 8 = 0 ∧ (stepAlloc exWHuge0 8).lastUsed = exWHuge0.lastUsed
      ∧ ((stepAlloc exWHuge0 8).LinkedList 0).type = TYPE.H)
    ∧ (Reachable 140000000000000 4294967292 exWHuge1
      ∧ exWHuge1.alg = ALGORITHM.WORST_FIT
      ∧ (exWHuge1.LinkedList 0).type = TYPE.H ∧ (exWHuge1.LinkedList 0).size = -2147483648
      ∧ (exWHuge1.LinkedList 0).arena = 140000000000000
      ∧ (exWHuge1.LinkedList 2).type = TYPE.H ∧ (exWHuge1.LinkedList 2).size = 2147483636
      ∧ Live exWHuge1 2
      ∧ worstFitScan exWHuge1.LinkedList (ALIGN4 16) MAX_LINKED_LIST_SIZE 0 (-1) (-1) = 0
      ∧ retAlloc exWHuge1 16 = 140000000000000
      ∧ ((stepAlloc exWHuge1 16).LinkedList 0).type = TYPE.P) :=
  ⟨⟨reach_exWHuge0, by decide, by decide, by decide, by decide, by decide, by decide,
      by decide⟩,
    ⟨reach_exWHuge1, by decide, by decide, by decide, by decide, by decide, by decide,
      by decide, by decide, by decide, by decide⟩⟩

/-- The NEXT_FIT branch in terms of the test of its scans, in any arena: with `c` the last
live index whose start is the `lastAlloc` cursor, or `-1` if no live entry starts there, when
some live entry passes the test there is a first such entry `k` in the cyclic order
`c + 1, ..., last live index, 0, ..., c`; when `c = -1` it is the choice of the first-fit scan;
whenever `mavalloc_alloc(size)` returns, the pointer returned is the start of entry `k`, which
is then the allocated region; the call returns whenever fewer than `MAX_LINKED_LIST_SIZE`
entries are live. -/
theorem next_fit_scan_choice (base totalSize : Nat) (s : State)
    (h : Reachable base totalSize s) (halg : s.alg = ALGORITHM.NEXT_FIT)
    (c : Int) (hc : IsCursor s c) (size : Nat) (hpos : 0 < size)
    (hex : ∃ i, Live s i ∧ fits (s.LinkedList i) (ALIGN4 size)) :
    ∃ k, Live s k ∧ CyclicFirst s c k (ALIGN4 size)
      ∧ (c = -1 → firstFitScan s.LinkedList (ALIGN4 size) MAX_LINKED_LIST_SIZE 0 = some k)
      ∧ (∀ r, mavalloc_alloc s size = .ok r →
          r.2 = (s.LinkedList k).arena ∧ Live r.1 k ∧ (r.1.LinkedList k).type = TYPE.P
          ∧ (r.1.LinkedList k).arena = (s.LinkedList k).arena
          ∧ (r.1.LinkedList k).size = toInt (ALIGN4 size))
      ∧ (s.lastUsed + 1 < MAX_LINKED_LIST_SIZE → ∃ r, mavalloc_alloc s size = .ok r) := by
  obtain ⟨n, hs, _⟩ := reachable_shape h
  have hb := hs.bound
  have hlast := hs.last
  obtain ⟨i, hi1, hi2⟩ := hex
  have hin := (shape_live_iff hs i).1 hi1
  obtain ⟨hcur, hc1, hc2⟩ := cursorScan_of_isCursor hs c hc
  have hsel0 := selectHole_next s (ALIGN4 size) halg
  rw [hcur] at hsel0
  have hj0 : (c + 1).toNat + ((MAX_LINKED_LIST_SIZE : Int) - c).toNat
      = MAX_LINKED_LIST_SIZE + 1 := by omega
  have hinit : s.initialized ≠ 0 := by rw [hs.initialized]; decide
  have heq := mavalloc_alloc_eq s size (by omega) hinit
  -- the part of the conclusion that follows once the scan has chosen `k`
  have fin : ∀ k, k ≤ n → CyclicFirst s c k (ALIGN4 size) →
      (selectHole s (ALIGN4 size) = .ok (some k) ∨
        (n + 1 = MAX_LINKED_LIST_SIZE ∧ selectHole s (ALIGN4 size) = .error Fault.outOfBounds)) →
      ∃ k, Live s k ∧ CyclicFirst s c k (ALIGN4 size)
        ∧ (c = -1 → firstFitScan s.LinkedList (ALIGN4 size) MAX_LINKED_LIST_SIZE 0 = some k)
        ∧ (∀ r, mavalloc_alloc s size = .ok r →
            r.2 = (s.LinkedList k).arena ∧ Live r.1 k ∧ (r.1.LinkedList k).type = TYPE.P
            ∧ (r.1.LinkedList k).arena = (s.LinkedList k).arena
            ∧ (r.1.LinkedList k).size = toInt (ALIGN4 size))
        ∧ (s.lastUsed + 1 < MAX_LINKED_LIST_SIZE → ∃ r, mavalloc_alloc s size = .ok r) := by
    intro k hk hcyc hsel
    refine ⟨k, (shape_live_iff hs k).2 hk, hcyc, ?_, ?_, ?_⟩
    · intro hneg
      apply firstFitScan_of_lowest hs _ k hk hcyc.1
      intro j hj
      rcases hcyc.2 with h1 | h1
      · exact h1.2 j (by omega) hj
      · omega
    · intro r hr
      rcases hsel with hsel | hsel
      · obtain ⟨a1, a2, a3, a4, a5⟩ := (alloc_at_selected hs size (by omega) k hsel).1 r hr
        exact ⟨a1, ⟨by omega, by rw [a5]; decide⟩, a2, a3, a4⟩
      · rw [hsel.2] at heq
        rw [heq] at hr
        cases hr
    · intro hcap
      rcases hsel with hsel | hsel
      · exact (alloc_at_selected hs size (by omega) k hsel).2 (Or.inl (by omega))
      · omega
  -- the wrap-around scan, used when nothing fits after the cursor
  have wrap : (∀ j, (c + 1).toNat ≤ j → j ≤ n → ¬ fits (s.LinkedList j) (ALIGN4 size)) →
      ∃ k, k ≤ n ∧ CyclicFirst s c k (ALIGN4 size)
        ∧ wrapScan s.LinkedList (ALIGN4 size) (c + 1).toNat 0 = some k := by
    intro hnone
    rcases wrapScan_spec s.LinkedList (ALIGN4 size) (c + 1).toNat 0 with h2 | h2
    · obtain ⟨k, e, _, k2, k3, k4⟩ := h2
      refine ⟨k, by omega, ⟨k3, Or.inr ⟨by omega, ?_, fun j hj => k4 j (by omega) hj⟩⟩, e⟩
      intro j hj hcj
      exact hnone j (by omega) ((shape_live_iff hs j).1 hj)
    · exfalso
      by_cases hlt : i < (c + 1).toNat
      · exact h2.2 i (by omega) (by omega) hi2
      · exact hnone i (by omega) hin hi2
  rcases nextFitScan_spec hs (ALIGN4 size) ((MAX_LINKED_LIST_SIZE : Int) - c).toNat
      (c + 1).toNat (by omega) (by omega) with h1 | h1 | h1
  · obtain ⟨k, e, k1, k2, k3, k4⟩ := h1
    rw [e] at hsel0
    exact fin k k2 ⟨k3, Or.inl ⟨by omega, fun j hj1 hj2 => k4 j (by omega) hj2⟩⟩ (Or.inl hsel0)
  · rw [h1.1] at hsel0
    obtain ⟨k, hk, hcyc, e⟩ := wrap h1.2.2
    simp only [e] at hsel0
    exact fin k hk hcyc (Or.inl hsel0)
  · rw [h1.1] at hsel0
    obtain ⟨k, hk, hcyc, _⟩ := wrap h1.2.2
    exact fin k hk hcyc (Or.inr ⟨h1.2.1, hsel0⟩)

/-- The scenario of C6: the third allocation is placed after the second one, not in the hole
at index 0, and the regions are then Hole, Allocated, Allocated, Hole. -/
theorem next_fit_scenario :
    retAlloc exN1 40 = 4200
      ∧ ((stepAlloc exN1 40).LinkedList 0).type = TYPE.H
      ∧ ((stepAlloc exN1 40).LinkedList 1).type = TYPE.P
      ∧ ((stepAlloc exN1 40).LinkedList 2).type = TYPE.P
      ∧ ((stepAlloc exN1 40).LinkedList 2).arena = 4200
      ∧ ((stepAlloc exN1 40).LinkedList 3).type = TYPE.H
      ∧ (stepAlloc exN1 40).lastUsed = 3 := by
  decide

/-- C7, as amended. Alignment of allocations: in every reachable state and for every strategy,
if `mavalloc_alloc(size)` returns a pointer other than `NULL` then that pointer is the start of
a live entry `k` of type `P` (the entry the scan chose) whose size is the aligned request
converted to `int`, a multiple of 4; and for every request `size ≤ 2147483644`, so that the
aligned request fits the `int` range, that size is at least `size` and less than `size + 4`. -/
theorem alloc_size_aligned (base totalSize : Nat) (s : State)
    (h : Reachable base totalSize s) (size : Nat) (r : State × Nat)
    (hr : mavalloc_alloc s size = .ok r) (hne : r.2 ≠ 0) :
    ∃ k, selectHole s (ALIGN4 size) = .ok (some k) ∧ Live r.1 k
      ∧ (r.1.LinkedList k).type = TYPE.P ∧ (r.1.LinkedList k).arena = r.2
      ∧ (r.1.LinkedList k).size = toInt (ALIGN4 size)
      ∧ (4 : Int) ∣ (r.1.LinkedList k).size
      ∧ (size ≤ 2147483644 →
          (size : Int) ≤ (r.1.LinkedList k).size ∧ (r.1.LinkedList k).size < (size : Int) + 4) := by
  obtain ⟨n, hs, _⟩ := reachable_shape h
  have hb := hs.bound
  rcases alloc_outcome hs size with h1 | h1 | h1
  · rw [h1.1] at hr
    cases hr
    exact absurd rfl hne
  · rw [h1.2.2] at hr
    cases hr
  · obtain ⟨k, h0, hsel, hk, _, _⟩ := h1
    obtain ⟨a1, a2, a3, a4, a5⟩ := (alloc_at_selected hs size h0 k hsel).1 r hr
    refine ⟨k, hsel, ⟨by omega, by rw [a5]; decide⟩, a2, by rw [a3, a1], a4, ?_, ?_⟩
    · rw [a4]
      apply toInt_dvd4
      have := ALIGN4_dvd size
      omega
    · intro hsz
      have hbd := ALIGN4_bounds size (by unfold SIZE_MOD; omega)
      have hd := ALIGN4_dvd size
      rw [a4, toInt_of_range _ (by omega) (by omega)]
      omega

/-- Witness of C7: a request of 20 bytes in the BEST_FIT example run. -/
theorem alloc_size_aligned_witness :
    ∃ k, selectHole exB3 (ALIGN4 20) = .ok (some k) ∧ Live (stepAlloc exB3 20) k
      ∧ ((stepAlloc exB3 20).LinkedList k).type = TYPE.P
      ∧ ((stepAlloc exB3 20).LinkedList k).arena = retAlloc exB3 20
      ∧ ((stepAlloc exB3 20).LinkedList k).size = toInt (ALIGN4 20)
      ∧ (4 : Int) ∣ ((stepAlloc exB3 20).LinkedList k).size
      ∧ (20 ≤ 2147483644 →
          ((20 : Nat) : Int) ≤ ((stepAlloc exB3 20).LinkedList k).size
          ∧ ((stepAlloc exB3 20).LinkedList k).size < ((20 : Nat) : Int) + 4) :=
  alloc_size_aligned 4096 200 exB3 reach_exB3 20 (stepAlloc exB3 20, retAlloc exB3 20)
    (alloc_eq_step exB3 20 (by decide)) (by decide)

/-- Counterexample to C7 as stated. In the arena of 1024 bytes, `mavalloc_alloc` of
18446744073709551615 bytes (`SIZE_MAX`) returns 4096, the start of an allocated region of size
0; in the arena of 4294967292 bytes, `mavalloc_alloc(2147483648)` returns the start of an
allocated region whose `int` size is -2147483648. Neither size is at least the request. -/
theorem alloc_size_aligned_counterexample :
    (Reachable 4096 1024 exF0
      ∧ mavalloc_alloc exF0 18446744073709551615
          = .ok (stepAlloc exF0 18446744073709551615, retAlloc exF0 18446744073709551615)
      ∧ retAlloc exF0 18446744073709551615 = 4096
      ∧ ((stepAlloc exF0 18446744073709551615).LinkedList 0).type = TYPE.P
      ∧ ((stepAlloc exF0 18446744073709551615).LinkedList 0).arena = 4096
      ∧ ((stepAlloc exF0 18446744073709551615).LinkedList 0).size = 0
      ∧ ¬ ((18446744073709551615 : Int)
            ≤ ((stepAlloc exF0 18446744073709551615).LinkedList 0).size))
    ∧ (Reachable 140000000000000 4294967292 exFHuge0
      ∧ mavalloc_alloc exFHuge0 2147483648
          = .ok (stepAlloc exFHuge0 2147483648, retAlloc exFHuge0 2147483648)
      ∧ retAlloc exFHuge0 2147483648 = 140000000000000
      ∧ ((stepAlloc exFHuge0 2147483648).LinkedList 0).type = TYPE.P
      ∧ ((stepAlloc exFHuge0 2147483648).LinkedList 0).arena = 140000000000000
      ∧ ((stepAlloc exFHuge0 2147483648).LinkedList 0).size = -2147483648
      ∧ ¬ ((2147483648 : Int) ≤ ((stepAlloc exFHuge0 2147483648).LinkedList 0).size)) :=
  ⟨⟨reach_exF0, alloc_eq_step _ _ (by decide), by decide, by decide, by decide, by decide,
      by decide⟩,
    ⟨reach_exFHuge0, alloc_eq_step _ _ (by decide), by decide, by decide, by decide, by decide,
      by decide⟩⟩

/-- C8, as amended. Alloc succeeds exactly when it can: in every state that is uninitialized
or reached from an arena of at most 2147483644 bytes (so that every size fits the `int`
field), for every strategy and every size, whenever `mavalloc_alloc(size)` returns, it returns
`NULL` if and only if `size = 0`, or the allocator is uninitialized, or no live hole passes the
test against the aligned request; and the call returns whenever the allocator is uninitialized
or fewer than `MAX_LINKED_LIST_SIZE` entries are live. -/
theorem alloc_null_iff (s : State) (size : Nat)
    (h : s.initialized = 0 ∨
      ∃ base totalSize, totalSize ≤ 2147483644 ∧ Reachable base totalSize s) :
    (∀ r, mavalloc_alloc s size = .ok r →
      (r.2 = 0 ↔ (size = 0 ∨ s.initialized = 0 ∨
        ¬ ∃ i, Live s i ∧ fits (s.LinkedList i) (ALIGN4 size))))
    ∧ ((s.initialized = 0 ∨ s.lastUsed + 1 < MAX_LINKED_LIST_SIZE) →
        ∃ r, mavalloc_alloc s size = .ok r) := by
  by_cases hu : s.initialized = 0
  · constructor
    · intro r hr
      rw [alloc_uninit s size hu] at hr
      cases hr
      exact ⟨fun _ => Or.inr (Or.inl hu), fun _ => rfl⟩
    · intro _
      exact ⟨_, alloc_uninit s size hu⟩
  · rcases h with h | h
    · exact absurd h hu
    · obtain ⟨base, totalSize, hfit, hreach⟩ := h
      obtain ⟨n, hs, _, hsane, _⟩ := reachable_sane hreach hfit
      constructor
      · intro r hr
        rcases alloc_sane_cases hs hsane size r hr with h1 | h1
        · rw [h1.1]
          refine ⟨fun _ => ?_, fun _ => rfl⟩
          rcases h1.2 with h2 | h2
          · exact Or.inl h2
          · right; right
            rintro ⟨i, hi1, hi2⟩
            exact h2 i ((shape_live_iff hs i).1 hi1) hi2
        · constructor
          · intro h0
            exact absurd h0 h1.1
          · intro hcase
            exfalso
            obtain ⟨k, hk, hf, _⟩ := h1.2.2
            rcases hcase with c | c | c
            · exact h1.2.1 c
            · exact hu c
            · exact c ⟨k, (shape_live_iff hs k).2 hk, hf⟩
      · intro hcap
        rcases hcap with c | c
        · exact absurd c hu
        · have := hs.last
          exact alloc_returns hs (by omega) size

/-- Witness of C8: a request of 150 bytes in the BEST_FIT example run, whose holes have 52, 32
and 100 bytes. -/
theorem alloc_null_iff_witness :
    (∀ r, mavalloc_alloc exB3 150 = .ok r →
      (r.2 = 0 ↔ (150 = 0 ∨ exB3.initialized = 0 ∨
        ¬ ∃ i, Live exB3 i ∧ fits (exB3.LinkedList i) (ALIGN4 150))))
    ∧ ((exB3.initialized = 0 ∨ exB3.lastUsed + 1 < MAX_LINKED_LIST_SIZE) →
        ∃ r, mavalloc_alloc exB3 150 = .ok r) :=
  alloc_null_iff exB3 150 (Or.inr ⟨4096, 200, by decide, reach_exB3⟩)

/-- Counterexample to C8 as stated, in an arena of 4294967292 bytes, whose only hole has the
`int` size -4. Under FIRST_FIT `mavalloc_alloc(8)` returns a pointer other than `NULL` although
the size of the only live entry is below 8; under WORST_FIT `mavalloc_alloc(16)` returns `NULL`
although the size is not 0, the allocator is initialized and the hole passes the test of the
scan, in which the size is compared as a `size_t`. -/
theorem alloc_null_iff_counterexample :
    (Reachable 140000000000000 4294967292 exFHuge0
      ∧ Live exFHuge0 0 ∧ ¬ Live exFHuge0 1 ∧ (exFHuge0.LinkedList 0).size = -4
      ∧ mavalloc_alloc exFHuge0 8 = .ok (stepAlloc exFHuge0 8, retAlloc exFHuge0 8)
      ∧ retAlloc exFHuge0 8 = 140000000000000)
    ∧ (Reachable 140000000000000 4294967292 exWHuge0
      ∧ exWHuge0.initialized = 1
      ∧ Live exWHuge0 0 ∧ fits (exWHuge0.LinkedList 0) (ALIGN4 16)
      ∧ mavalloc_alloc exWHuge0 16 = .ok (stepAlloc exWHuge0 16, retAlloc exWHuge0 16)
      ∧ retAlloc exWHuge0 16 = 0) :=
  ⟨⟨reach_exFHuge0, by decide, by decide, by decide, alloc_eq_step _ _ (by decide), by decide⟩,
    ⟨reach_exWHuge0, by decide, by decide, by decide, alloc_eq_step _ _ (by decide),
      by decide⟩⟩

/-- C18. Live prefix and `mavalloc_size()`: in every state reachable from a successful
`mavalloc_init` by alloc/free calls, the entries with `in_use` set are exactly the indices
`0 .. lastUsed`, every slot above has `in_use = 0`, and `mavalloc_size()` returns
`lastUsed + 1`, which is also the number of slots a scan visits before it stops at the first
slot that is not in use. -/
theorem live_prefix_and_size (base totalSize : Nat) (s : State)
    (h : Reachable base totalSize s) :
    ∃ n : Nat, s.lastUsed = (n : Int) ∧ n < MAX_LINKED_LIST_SIZE
      ∧ (∀ i, i < MAX_LINKED_LIST_SIZE → ((s.LinkedList i).in_use ≠ 0 ↔ i ≤ n))
      ∧ (∀ i, n < i → i < MAX_LINKED_LIST_SIZE → (s.LinkedList i).in_use = 0)
      ∧ mavalloc_size s = s.lastUsed + 1
      ∧ ((visitCount s.LinkedList MAX_LINKED_LIST_SIZE 0 : Nat) : Int) = mavalloc_size s := by
  obtain ⟨n, hs, _⟩ := reachable_shape h
  have hb := hs.bound
  refine ⟨n, hs.last, hb, ?_, ?_, ?_, ?_⟩
  · intro i hi
    constructor
    · intro hu
      exact (shape_live_iff hs i).1 ⟨hi, hu⟩
    · intro hle
      exact ((shape_live_iff hs i).2 hle).2
  · intro i h1 h2
    rw [hs.unused i h1 h2]
    rfl
  · rw [mavalloc_size_shape hs, hs.last]
  · rw [mavalloc_size_shape hs, visitCount_shape hs MAX_LINKED_LIST_SIZE 0 (by omega)]
    omega

/-- Witness of C18: the BEST_FIT example run, with five live entries. -/
theorem live_prefix_and_size_witness :
    ∃ n : Nat, exB3.lastUsed = (n : Int) ∧ n < MAX_LINKED_LIST_SIZE
      ∧ (∀ i, i < MAX_LINKED_LIST_SIZE → ((exB3.LinkedList i).in_use ≠ 0 ↔ i ≤ n))
      ∧ (∀ i, n < i → i < MAX_LINKED_LIST_SIZE → (exB3.LinkedList i).in_use = 0)
      ∧ mavalloc_size exB3 = exB3.lastUsed + 1
      ∧ ((visitCount exB3.LinkedList MAX_LINKED_LIST_SIZE 0 : Nat) : Int) = mavalloc_size exB3 :=
  live_prefix_and_size 4096 200 exB3 reach_exB3

/-- C17, as amended. Cursor update on a hit: in every reachable state, after a successful
`mavalloc_alloc` the pointer returned is the start of a live entry of type `P`, the newly
allocated region; under NEXT_FIT the cursor `lastAlloc` then equals that pointer, and under
FIRST_FIT, BEST_FIT and WORST_FIT the call leaves `lastAlloc` as it was. -/
theorem cursor_update (base totalSize : Nat) (s : State)
    (h : Reachable base totalSize s) (size : Nat) (r : State × Nat)
    (hr : mavalloc_alloc s size = .ok r) (hne : r.2 ≠ 0) :
    (∃ k, Live r.1 k ∧ (r.1.LinkedList k).type = TYPE.P ∧ (r.1.LinkedList k).arena = r.2)
    ∧ (s.alg = ALGORITHM.NEXT_FIT → r.1.lastAlloc = r.2)
    ∧ (s.alg ≠ ALGORITHM.NEXT_FIT → r.1.lastAlloc = s.lastAlloc) := by
  obtain ⟨n, hs, _⟩ := reachable_shape h
  have hb := hs.bound
  rcases alloc_outcome hs size with h1 | h1 | h1
  · rw [h1.1] at hr
    cases hr
    exact absurd rfl hne
  · rw [h1.2.2] at hr
    cases hr
  · obtain ⟨k, h0, hsel, hk, _, h2⟩ := h1
    obtain ⟨a1, a2, a3, _, a5⟩ := (alloc_at_selected hs size h0 k hsel).1 r hr
    refine ⟨⟨k, ⟨by omega, by rw [a5]; decide⟩, a2, by rw [a3, a1]⟩, ?_, ?_⟩
    · intro halg
      rcases h2 with h2 | h2
      · rw [h2.2] at hr
        cases hr
        rw [halg]
        rfl
      · rw [h2.2.2] at hr
        cases hr
        rw [halg]
        rfl
    · intro halg
      have hc : usesCursor s.alg = false := by
        cases hal : s.alg with
        | NEXT_FIT => exact absurd hal halg
        | FIRST_FIT => rfl
        | BEST_FIT => rfl
        | WORST_FIT => rfl
      rcases h2 with h2 | h2
      · rw [h2.2] at hr
        cases hr
        rw [hc]
        rfl
      · rw [h2.2.2] at hr
        cases hr
        rw [hc]
        rfl

/-- Witness of C17: the NEXT_FIT scenario, whose third allocation returns 4200. -/
theorem cursor_update_witness :
    (∃ k, Live (stepAlloc exN1 40) k ∧ ((stepAlloc exN1 40).LinkedList k).type = TYPE.P
        ∧ ((stepAlloc exN1 40).LinkedList k).arena = retAlloc exN1 40)
    ∧ (exN1.alg = ALGORITHM.NEXT_FIT → (stepAlloc exN1 40).lastAlloc = retAlloc exN1 40)
    ∧ (exN1.alg ≠ ALGORITHM.NEXT_FIT → (stepAlloc exN1 40).lastAlloc = exN1.lastAlloc) :=
  cursor_update 4096 300 exN1 reach_exN1 40 (stepAlloc exN1 40, retAlloc exN1 40)
    (alloc_eq_step exN1 40 (by decide)) (by decide)

/-- Counterexample to C17 as stated: under FIRST_FIT, BEST_FIT and WORST_FIT a successful
`mavalloc_alloc` returns the start of the new region, 4096, and the cursor `lastAlloc` is still
`NULL`. -/
theorem cursor_update_counterexample :
    (Reachable 4096 1024 exF0 ∧ exF0.alg = ALGORITHM.FIRST_FIT
      ∧ mavalloc_alloc exF0 100 = .ok (stepAlloc exF0 100, retAlloc exF0 100)
      ∧ retAlloc exF0 100 = 4096
      ∧ ((stepAlloc exF0 100).LinkedList 0).type = TYPE.P
      ∧ ((stepAlloc exF0 100).LinkedList 0).arena = 4096
      ∧ (stepAlloc exF0 100).lastAlloc = 0)
    ∧ (Reachable 4096 200 exB0 ∧ exB0.alg = ALGORITHM.BEST_FIT
      ∧ retAlloc exB0 52 = 4096 ∧ (stepAlloc exB0 52).lastAlloc = 0)
    ∧ (Reachable 4096 200 exW1 ∧ exW1.alg = ALGORITHM.WORST_FIT
      ∧ retAlloc exW1 20 = 4196 ∧ (stepAlloc exW1 20).lastAlloc = 0) :=
  ⟨⟨reach_exF0, by decide, alloc_eq_step _ _ (by decide), by decide, by decide, by decide,
      by decide⟩,
    ⟨reach_exB0, by decide, by decide, by decide⟩,
    ⟨reach_exW1, by decide, by decide, by decide⟩⟩

/-- C12, as amended. Init postcondition: for every `totalSize` with
`0 < totalSize ≤ 2147483644`, so that the size rounded up to a multiple of 4 fits the `int`
field of a node, and every strategy, when `malloc` succeeds `mavalloc_init` returns 0 and leaves
exactly one live entry, a hole whose start is the arena base and whose size is `totalSize`
rounded up to the next multiple of 4, with the strategy recorded and the next-fit cursor
`NULL`; for `totalSize = 0` it returns -1 and changes no state. -/
theorem init_postcondition (s0 : State) (totalSize : Nat) (algorithm : ALGORITHM) (base : Nat)
    (hpos : 0 < totalSize) (hfit : totalSize ≤ 2147483644) (hbase : base ≠ 0) :
    (mavalloc_init s0 totalSize algorithm base).2 = 0
    ∧ (mavalloc_init s0 totalSize algorithm base).1.initialized = 1
    ∧ (∀ i, Live (mavalloc_init s0 totalSize algorithm base).1 i ↔ i = 0)
    ∧ mavalloc_size (mavalloc_init s0 totalSize algorithm base).1 = 1
    ∧ (mavalloc_init s0 totalSize algorithm base).1.LinkedList 0
        = { in_use := 1, size := (ALIGN4 totalSize : Int), arena := base, type := TYPE.H }
    ∧ 4 ∣ ALIGN4 totalSize ∧ totalSize ≤ ALIGN4 totalSize ∧ ALIGN4 totalSize < totalSize + 4
    ∧ (mavalloc_init s0 totalSize algorithm base).1.alg = algorithm
    ∧ (mavalloc_init s0 totalSize algorithm base).1.lastAlloc = 0
    ∧ (mavalloc_init s0 totalSize algorithm base).1.gArena = base
    ∧ mavalloc_init s0 0 algorithm base = (s0, -1) := by
  have hs := shape_init s0 totalSize algorithm base (by omega) hbase
  have hb := ALIGN4_bounds totalSize (by unfold SIZE_MOD; omega)
  have hd := ALIGN4_dvd totalSize
  have ht : toInt (ALIGN4 totalSize) = (ALIGN4 totalSize : Int) :=
    toInt_of_range _ (by omega) (by omega)
  have hsz := mavalloc_size_shape hs
  have hlive := shape_live_iff hs
  have e : mavalloc_init s0 totalSize algorithm base =
      ({ initialized := 1, lastUsed := 0,
         LinkedList := setNode
           (fun i => if i < MAX_LINKED_LIST_SIZE then Node.zero else s0.LinkedList i) 0
           { in_use := 1, size := toInt (ALIGN4 totalSize), arena := base, type := TYPE.H },
         gArena := base, alg := algorithm, lastAlloc := 0 }, 0) := by
    rw [mavalloc_init, if_neg (by omega)]
    simp only []
    rw [if_neg hbase]
  refine ⟨by rw [e], by rw [e], fun i => by rw [hlive i]; omega, by rw [hsz]; rfl, ?_, hd,
    hb.1, hb.2, by rw [e], by rw [e], by rw [e], ?_⟩
  · rw [e]
    simp only [setNode, if_true]
    rw [ht]
  · rw [mavalloc_init, if_pos rfl]

/-- Witness of C12: `mavalloc_init(200, BEST_FIT)` with the arena at 4096. -/
theorem init_postcondition_witness :
    (mavalloc_init State.start 200 ALGORITHM.BEST_FIT 4096).2 = 0
    ∧ (mavalloc_init State.start 200 ALGORITHM.BEST_FIT 4096).1.initialized = 1
    ∧ (∀ i, Live (mavalloc_init State.start 200 ALGORITHM.BEST_FIT 4096).1 i ↔ i = 0)
    ∧ mavalloc_size (mavalloc_init State.start 200 ALGORITHM.BEST_FIT 4096).1 = 1
    ∧ (mavalloc_init State.start 200 ALGORITHM.BEST_FIT 4096).1.LinkedList 0
        = { in_use := 1, size := (ALIGN4 200 : Int), arena := 4096, type := TYPE.H }
    ∧ 4 ∣ ALIGN4 200 ∧ 200 ≤ ALIGN4 200 ∧ ALIGN4 200 < 200 + 4
    ∧ (mavalloc_init State.start 200 ALGORITHM.BEST_FIT 4096).1.alg = ALGORITHM.BEST_FIT
    ∧ (mavalloc_init State.start 200 ALGORITHM.BEST_FIT 4096).1.lastAlloc = 0
    ∧ (mavalloc_init State.start 200 ALGORITHM.BEST_FIT 4096).1.gArena = 4096
    ∧ mavalloc_init State.start 0 ALGORITHM.BEST_FIT 4096 = (State.start, -1) :=
  init_postcondition State.start 200 ALGORITHM.BEST_FIT 4096 (by decide) (by decide) (by decide)

/-- Counterexample to C12 as stated: `mavalloc_init(4294967292, _)` returns 0 and leaves a hole
whose `int` size is -4, not 4294967292; and `mavalloc_init` of 18446744073709551615 bytes
(`SIZE_MAX`), for which the aligned size wraps to 0, returns 0 and leaves a hole of size 0. -/
theorem init_postcondition_counterexample :
    ((mavalloc_init State.start 4294967292 ALGORITHM.FIRST_FIT 140000000000000).2 = 0
      ∧ ((mavalloc_init State.start 4294967292 ALGORITHM.FIRST_FIT
            140000000000000).1.LinkedList 0).size = -4
      ∧ ALIGN4 4294967292 = 4294967292)
    ∧ ((mavalloc_init State.start 18446744073709551615 ALGORITHM.FIRST_FIT 4096).2 = 0
      ∧ ((mavalloc_init State.start 18446744073709551615 ALGORITHM.FIRST_FIT
            4096).1.LinkedList 0).size = 0
      ∧ ((mavalloc_init State.start 18446744073709551615 ALGORITHM.FIRST_FIT
            4096).1.LinkedList 0).in_use = 1) := by
  decide

/-- C13. Lifecycle: from every state, after `mavalloc_destroy()` the allocator is
uninitialized, `mavalloc_size()` is 0 and `mavalloc_alloc(size)` returns `NULL` for every size,
changing nothing; a further `mavalloc_destroy()` or `mavalloc_free(ptr)` changes nothing; and a
subsequent successful `mavalloc_init` returns 0 and yields `mavalloc_size() = 1`: one hole at
the new base, every other slot zeroed, and the cursor `NULL`. -/
theorem lifecycle (s : State) (totalSize : Nat) (algorithm : ALGORITHM) (base : Nat)
    (hpos : 0 < totalSize) (hbase : base ≠ 0) :
    (mavalloc_destroy s).initialized = 0
    ∧ mavalloc_size (mavalloc_destroy s) = 0
    ∧ (∀ size, mavalloc_alloc (mavalloc_destroy s) size = .ok (mavalloc_destroy s, 0))
    ∧ mavalloc_destroy (mavalloc_destroy s) = mavalloc_destroy s
    ∧ (∀ ptr, mavalloc_free (mavalloc_destroy s) ptr = .ok (mavalloc_destroy s))
    ∧ (mavalloc_init (mavalloc_destroy s) totalSize algorithm base).2 = 0
    ∧ (mavalloc_init (mavalloc_destroy s) totalSize algorithm base).1.initialized = 1
    ∧ mavalloc_size (mavalloc_init (mavalloc_destroy s) totalSize algorithm base).1 = 1
    ∧ (∀ i, Live (mavalloc_init (mavalloc_destroy s) totalSize algorithm base).1 i ↔ i = 0)
    ∧ (mavalloc_init (mavalloc_destroy s) totalSize algorithm base).1.LinkedList 0
        = { in_use := 1, size := toInt (ALIGN4 totalSize), arena := base, type := TYPE.H }
    ∧ (∀ i, 0 < i → i < MAX_LINKED_LIST_SIZE →
        (mavalloc_init (mavalloc_destroy s) totalSize algorithm base).1.LinkedList i = Node.zero)
    ∧ (mavalloc_init (mavalloc_destroy s) totalSize algorithm base).1.lastAlloc = 0
    ∧ (mavalloc_init (mavalloc_destroy s) totalSize algorithm base).1.lastUsed = 0
    ∧ (mavalloc_init (mavalloc_destroy s) totalSize algorithm base).1.alg = algorithm := by
  have hs := shape_init (mavalloc_destroy s) totalSize algorithm base (by omega) hbase
  have hsz := mavalloc_size_shape hs
  have hlive := shape_live_iff hs
  have e : mavalloc_init (mavalloc_destroy s) totalSize algorithm base =
      ({ initialized := 1, lastUsed := 0,
         LinkedList := setNode
           (fun i => if i < MAX_LINKED_LIST_SIZE then Node.zero
             else (mavalloc_destroy s).LinkedList i) 0
           { in_use := 1, size := toInt (ALIGN4 totalSize), arena := base, type := TYPE.H },
         gArena := base, alg := algorithm, lastAlloc := 0 }, 0) := by
    rw [mavalloc_init, if_neg (by omega)]
    simp only []
    rw [if_neg hbase]
  refine ⟨rfl, ?_, fun size => alloc_uninit _ size rfl, destroy_idem s, ?_, by rw [e],
    by rw [e], by rw [hsz]; rfl, fun i => by rw [hlive i]; omega, ?_, ?_, by rw [e], by rw [e],
    by rw [e]⟩
  · unfold mavalloc_size
    exact countInUse_zero _ (fun j hj => by rw [destroy_unused s j hj]; rfl)
      MAX_LINKED_LIST_SIZE 0 0 (by omega)
  · intro ptr
    exact free_uninit_list _ ptr (by rw [destroy_unused s 0 (by decide)]; rfl)
  · rw [e]
    simp only [setNode, if_true]
  · intro i h1 h2
    exact hs.unused i h1 h2

/-- Witness of C13: the BEST_FIT example run destroyed, then initialized again with 300 bytes
at 8192 under NEXT_FIT. -/
theorem lifecycle_witness :
    (mavalloc_destroy exB3).initialized = 0
    ∧ mavalloc_size (mavalloc_destroy exB3) = 0
    ∧ (∀ size, mavalloc_alloc (mavalloc_destroy exB3) size = .ok (mavalloc_destroy exB3, 0))
    ∧ mavalloc_destroy (mavalloc_destroy exB3) = mavalloc_destroy exB3
    ∧ (∀ ptr, mavalloc_free (mavalloc_destroy exB3) ptr = .ok (mavalloc_destroy exB3))
    ∧ (mavalloc_init (mavalloc_destroy exB3) 300 ALGORITHM.NEXT_FIT 8192).2 = 0
    ∧ (mavalloc_init (mavalloc_destroy exB3) 300 ALGORITHM.NEXT_FIT 8192).1.initialized = 1
    ∧ mavalloc_size (mavalloc_init (mavalloc_destroy exB3) 300 ALGORITHM.NEXT_FIT 8192).1 = 1
    ∧ (∀ i, Live (mavalloc_init (mavalloc_destroy exB3) 300 ALGORITHM.NEXT_FIT 8192).1 i
        ↔ i = 0)
    ∧ (mavalloc_init (mavalloc_destroy exB3) 300 ALGORITHM.NEXT_FIT 8192).1.LinkedList 0
        = { in_use := 1, size := toInt (ALIGN4 300), arena := 8192, type := TYPE.H }
    ∧ (∀ i, 0 < i → i < MAX_LINKED_LIST_SIZE →
        (mavalloc_init (mavalloc_destroy exB3) 300 ALGORITHM.NEXT_FIT 8192).1.LinkedList i
          = Node.zero)
    ∧ (mavalloc_init (mavalloc_destroy exB3) 300 ALGORITHM.NEXT_FIT 8192).1.lastAlloc = 0
    ∧ (mavalloc_init (mavalloc_destroy exB3) 300 ALGORITHM.NEXT_FIT 8192).1.lastUsed = 0
    ∧ (mavalloc_init (mavalloc_destroy exB3) 300 ALGORITHM.NEXT_FIT 8192).1.alg
        = ALGORITHM.NEXT_FIT :=
  lifecycle exB3 300 ALGORITHM.NEXT_FIT 8192 (by decide) (by decide)

/-- C15. Split/insert postcondition: in a reachable state with fewer than
`MAX_LINKED_LIST_SIZE` live entries, for a live hole at index `k` with start `a` and size `h`
and an aligned size `sz` with `0 < sz ≤ h`, `insertNode(sz, k)` returns and yields: if
`sz = h`, entry `k` becomes allocated and nothing else changes; otherwise entry `k` is allocated
with start `a` and size `sz`, entry `k + 1` is a hole with start `a + sz` (pointer addition,
which is the sum of the integers in an arena of at most 2147483644 bytes) and size `h - sz`,
every live entry formerly at `j > k` is at `j + 1` unchanged, the entries below `k` are
unchanged, and the live count grows by exactly 1. -/
theorem split_insert_postcondition (base totalSize : Nat) (s : State)
    (h : Reachable base totalSize s) (k : Nat) (hk : Live s k)
    (hH : (s.LinkedList k).type = TYPE.H) (sz : Int) (hpos : 0 < sz) (h4 : (4 : Int) ∣ sz)
    (hle : sz ≤ (s.LinkedList k).size) (hcap : s.lastUsed + 1 < MAX_LINKED_LIST_SIZE) :
    ∃ t, insertNode s sz k = .ok t
      ∧ (sz = (s.LinkedList k).size →
          t.lastUsed = s.lastUsed ∧ mavalloc_size t = mavalloc_size s
          ∧ t.LinkedList k = { s.LinkedList k with type := TYPE.P }
          ∧ ∀ j, j ≠ k → t.LinkedList j = s.LinkedList j)
      ∧ (sz ≠ (s.LinkedList k).size →
          t.lastUsed = s.lastUsed + 1 ∧ mavalloc_size t = mavalloc_size s + 1
          ∧ t.LinkedList k
              = { in_use := 1, size := sz, arena := (s.LinkedList k).arena, type := TYPE.P }
          ∧ t.LinkedList (k + 1)
              = { in_use := 1, size := (s.LinkedList k).size - sz,
                  arena := ptrAdd (s.LinkedList k).arena sz, type := TYPE.H }
          ∧ (∀ j, j < k → t.LinkedList j = s.LinkedList j)
          ∧ (∀ j, k < j → Live s j → t.LinkedList (j + 1) = s.LinkedList j)
          ∧ (∀ j, Live t j ↔ (j : Int) ≤ s.lastUsed + 1)
          ∧ (totalSize ≤ 2147483644 →
              ((ptrAdd (s.LinkedList k).arena sz : Nat) : Int)
                = ((s.LinkedList k).arena : Int) + sz)) := by
  obtain ⟨n, hs, hn, hrg⟩ := reachable_range h
  have hb := hs.bound
  have hlast := hs.last
  have hkn := (shape_live_iff hs k).1 hk
  have hr := hrg k hkn
  by_cases hsz : sz = (s.LinkedList k).size
  · refine ⟨markStep s k, insertNode_exact s sz k (by omega) hsz, ?_, fun c => absurd hsz c⟩
    intro _
    refine ⟨rfl, ?_, markStep_at s k, fun j hj => markStep_other s k j hj⟩
    rw [mavalloc_size_shape (shape_markStep hs k hkn), mavalloc_size_shape hs]
  · refine ⟨splitStep s sz k, insertNode_split s sz k n hlast hkn (by omega) hsz,
      fun c => absurd c hsz, ?_⟩
    intro _
    have hs' := shape_splitStep hs sz k hkn (by omega) h4
    refine ⟨rfl, ?_, splitStep_at s sz k, ?_, fun j hj => splitStep_lt s sz k j hj, ?_, ?_, ?_⟩
    · rw [mavalloc_size_shape hs', mavalloc_size_shape hs]
      push_cast
      ring
    · rw [splitStep_next]
      have e1 : toInt ((s.LinkedList k).size - sz) = (s.LinkedList k).size - sz :=
        toInt_of_range _ (by omega) (by omega)
      rw [e1]
      have e2 := hs.used k hkn
      cases hnode : s.LinkedList k with
      | mk a b c d =>
        rw [hnode] at e2 hH
        simp only at e2 hH
        simp [e2, hH]
    · intro j hj1 hj2
      have hjn := (shape_live_iff hs j).1 hj2
      rw [splitStep_gt s sz k (j + 1) n hlast (by omega) (by omega)]
      rfl
    · intro j
      rw [shape_live_iff hs' j]
      omega
    · intro hfit
      obtain ⟨n2, hs2, _, hsane, _⟩ := reachable_sane h hfit
      have hk2 := (shape_live_iff hs2 k).1 hk
      have a1 := hsane.lo k hk2
      have a2 := hsane.hi k hk2
      have a3 := hsane.fit
      have a4 := hsane.total_le
      exact ptrAdd_of_range _ _ (by omega) (by omega)

/-- Witness of C15: the hole of 52 bytes at index 0 of the BEST_FIT example run and the size
20. -/
theorem split_insert_postcondition_witness :
    ∃ t, insertNode exB3 20 0 = .ok t
      ∧ ((20 : Int) = (exB3.LinkedList 0).size →
          t.lastUsed = exB3.lastUsed ∧ mavalloc_size t = mavalloc_size exB3
          ∧ t.LinkedList 0 = { exB3.LinkedList 0 with type := TYPE.P }
          ∧ ∀ j, j ≠ 0 → t.LinkedList j = exB3.LinkedList j)
      ∧ ((20 : Int) ≠ (exB3.LinkedList 0).size →
          t.lastUsed = exB3.lastUsed + 1 ∧ mavalloc_size t = mavalloc_size exB3 + 1
          ∧ t.LinkedList 0
              = { in_use := 1, size := 20, arena := (exB3.LinkedList 0).arena, type := TYPE.P }
          ∧ t.LinkedList (0 + 1)
              = { in_use := 1, size := (exB3.LinkedList 0).size - 20,
                  arena := ptrAdd (exB3.LinkedList 0).arena 20, type := TYPE.H }
          ∧ (∀ j, j < 0 → t.LinkedList j = exB3.LinkedList j)
          ∧ (∀ j, 0 < j → Live exB3 j → t.LinkedList (j + 1) = exB3.LinkedList j)
          ∧ (∀ j, Live t j ↔ (j : Int) ≤ exB3.lastUsed + 1)
          ∧ (200 ≤ 2147483644 →
              ((ptrAdd (exB3.LinkedList 0).arena 20 : Nat) : Int)
                = ((exB3.LinkedList 0).arena : Int) + 20)) :=
  split_insert_postcondition 4096 200 exB3 reach_exB3 0 (by decide) (by decide) 20 (by decide)
    (by decide) (by decide) (by decide)

/-- C20 on the code: after `mavalloc_init(65536, FIRST_FIT)` and 9999 calls `mavalloc_alloc(4)`
all 10000 slots are live; the next `mavalloc_alloc(4)` chooses the hole in the last slot, which
must be split, and `insertNode` then shifts into slot 10000, outside the array: the call is not
rejected, it leaves defined behaviour. In the same state `mavalloc_free` of the allocation at
44088, the entry before the last hole, makes `removeNode` shift from slot 10000. -/
theorem capacity_overflow :
    Reachable 4096 65536 (fillRun 9999)
      ∧ (fillRun 9999).lastUsed = 9999
      ∧ (∀ i, i < MAX_LINKED_LIST_SIZE → Live (fillRun 9999) i)
      ∧ selectHole (fillRun 9999) (ALIGN4 4) = .ok (some 9999)
      ∧ insertNode (fillRun 9999) (toInt (ALIGN4 4)) 9999 = .error Fault.outOfBounds
      ∧ mavalloc_alloc (fillRun 9999) 4 = .error Fault.outOfBounds
      ∧ ((fillRun 9999).LinkedList 9998).type = TYPE.P
      ∧ ((fillRun 9999).LinkedList 9998).arena = 44088
      ∧ mavalloc_free (fillRun 9999) 44088 = .error Fault.outOfBounds := by
  obtain ⟨hs, halg, hP, hH, hsz⟩ := fillRun_shape 9999 (by decide)
  obtain ⟨hsel, ht, hne⟩ := fillRun_select (fillRun 9999) 9999 hs halg hP hH hsz
  have hinit : (fillRun 9999).initialized ≠ 0 := by rw [hs.initialized]; decide
  have heq := mavalloc_alloc_eq (fillRun 9999) 4 (by decide) hinit
  rw [hsel] at heq
  simp only [] at heq
  rw [allocAt_fault (fillRun 9999) _ 9999 9999 _ hs.last (le_refl _) (by decide) hne] at heq
  refine ⟨reach_fillRun 9999, hs.last, ?_, hsel, ?_, heq, hP 9998 (by omega), ?_,
    free_fillRun_full⟩
  · intro i hi
    exact (shape_live_iff hs i).2 (by unfold MAX_LINKED_LIST_SIZE at hi; omega)
  · exact insertNode_fault (fillRun 9999) _ 9999 9999 hs.last (le_refl _) (by decide) hne
  · rw [fillRun_arena 9999 (by decide) 9998 (by omega)]

/-- C14, as amended. Sizes and handles are 4-aligned: in every state reachable from a
successful `mavalloc_init` by alloc/free calls, every live region has a size that is a multiple
of 4 and a start whose offset from the arena base is a multiple of 4, hence every handle
returned by `mavalloc_alloc` is at a 4-byte-aligned offset. If moreover `totalSize` is at most
2147483644 and no request passed to `mavalloc_alloc` exceeded 18446744073709551612
(`SIZE_MAX - 3`), every live size is strictly positive and no two live regions share a
start. -/
theorem regions_aligned (base totalSize : Nat) (s : State) (h : Reachable base totalSize s) :
    (∀ i, Live s i →
      (4 : Int) ∣ (s.LinkedList i).size
      ∧ (4 : Int) ∣ ((s.LinkedList i).arena : Int) - (base : Int))
    ∧ (∀ size r, mavalloc_alloc s size = .ok r → r.2 ≠ 0 →
        (4 : Int) ∣ ((r.2 : Nat) : Int) - (base : Int))
    ∧ (totalSize ≤ 2147483644 → ReachableWithin 18446744073709551612 base totalSize s →
        (∀ i, Live s i → 0 < (s.LinkedList i).size)
        ∧ (∀ i j, Live s i → Live s j → i ≠ j →
            (s.LinkedList i).arena ≠ (s.LinkedList j).arena)) := by
  obtain ⟨n, hs, _, hal, hg⟩ := reachable_aligned h
  have hal' : ∀ i, i ≤ n → (4 : Int) ∣ ((s.LinkedList i).arena : Int) - (base : Int) := by
    intro i hi
    have := hal i hi
    rw [hg] at this
    exact this
  refine ⟨?_, ?_, ?_⟩
  · intro i hi
    have hin := (shape_live_iff hs i).1 hi
    exact ⟨hs.mod4 i hin, hal' i hin⟩
  · intro size r hr hne
    rcases alloc_outcome hs size with h1 | h1 | h1
    · rw [h1.1] at hr
      cases hr
      exact absurd rfl hne
    · rw [h1.2.2] at hr
      cases hr
    · obtain ⟨k, h0, hsel, hk, _, _⟩ := h1
      obtain ⟨a1, _⟩ := (alloc_at_selected hs size h0 k hsel).1 r hr
      rw [a1]
      exact hal' k hk
  · intro hfit hw
    obtain ⟨n2, hs2, _, hsane, hp⟩ := within_positive hw hfit
    refine ⟨fun i hi => hp i ((shape_live_iff hs2 i).1 hi), ?_⟩
    intro i j hi hj hij he
    have hin := (shape_live_iff hs2 i).1 hi
    have hjn := (shape_live_iff hs2 j).1 hj
    rcases Nat.lt_or_gt_of_ne hij with c | c
    · have := starts_increase hsane hp i j c hjn
      omega
    · have := starts_increase hsane hp j i c hin
      omega

/-- Witness of C14: the BEST_FIT example run on 200 bytes at 4096, whose requests are 52, 8, 32
and 8 bytes. -/
theorem regions_aligned_witness :
    ((∀ i, Live exB3 i →
      (4 : Int) ∣ (exB3.LinkedList i).size
      ∧ (4 : Int) ∣ ((exB3.LinkedList i).arena : Int) - ((4096 : Nat) : Int))
    ∧ (∀ size r, mavalloc_alloc exB3 size = .ok r → r.2 ≠ 0 →
        (4 : Int) ∣ ((r.2 : Nat) : Int) - ((4096 : Nat) : Int))
    ∧ (200 ≤ 2147483644 → ReachableWithin 18446744073709551612 4096 200 exB3 →
        (∀ i, Live exB3 i → 0 < (exB3.LinkedList i).size)
        ∧ (∀ i j, Live exB3 i → Live exB3 j → i ≠ j →
            (exB3.LinkedList i).arena ≠ (exB3.LinkedList j).arena)))
    ∧ ReachableWithin 18446744073709551612 4096 200 exB3 :=
  ⟨regions_aligned 4096 200 exB3 reach_exB3, within_exB3⟩

/-- Counterexample to C14 as stated. After `mavalloc_init(1024, FIRST_FIT)` the call
`mavalloc_alloc(18446744073709551615)` returns the arena base: the aligned request wraps to 0,
the first hole is split, and the list holds an allocated region of size 0 and the hole of 1024
bytes, both starting at the arena base. After `mavalloc_init(4294967292, FIRST_FIT)` the only
live region has size -4. -/
theorem regions_aligned_counterexample :
    (Reachable 4096 1024 (stepAlloc exF0 18446744073709551615)
      ∧ mavalloc_alloc exF0 18446744073709551615
          = .ok (stepAlloc exF0 18446744073709551615, retAlloc exF0 18446744073709551615)
      ∧ retAlloc exF0 18446744073709551615 = 4096
      ∧ Live (stepAlloc exF0 18446744073709551615) 0
      ∧ Live (stepAlloc exF0 18446744073709551615) 1
      ∧ ((stepAlloc exF0 18446744073709551615).LinkedList 0).type = TYPE.P
      ∧ ((stepAlloc exF0 18446744073709551615).LinkedList 0).size = 0
      ∧ ((stepAlloc exF0 18446744073709551615).LinkedList 0).arena = 4096
      ∧ ((stepAlloc exF0 18446744073709551615).LinkedList 1).type = TYPE.H
      ∧ ((stepAlloc exF0 18446744073709551615).LinkedList 1).size = 1024
      ∧ ((stepAlloc exF0 18446744073709551615).LinkedList 1).arena = 4096)
    ∧ (Reachable 140000000000000 4294967292 exFHuge0
      ∧ Live exFHuge0 0 ∧ (exFHuge0.LinkedList 0).size = -4) :=
  ⟨⟨reach_stepAlloc reach_exF0 _ (by decide), alloc_eq_step _ _ (by decide), by decide,
    by decide, by decide, by decide, by decide, by decide, by decide, by decide, by decide⟩,
   reach_exFHuge0, by decide, by decide⟩

/-- C11, as amended. Alloc/free round trip: for every state reachable from `mavalloc_init` by
alloc/free calls and every size for which `p = mavalloc_alloc(size)` succeeds, if no live
allocated region already starts at `p` and the list after the alloc has fewer than
`MAX_LINKED_LIST_SIZE` live entries, then `mavalloc_free(p)` called immediately afterwards
returns and restores the region list (every entry, hence every live entry's start, size and
kind, the live count and `mavalloc_size()`) to what it was before the alloc. -/
theorem alloc_free_round_trip (base totalSize : Nat) (s : State)
    (h : Reachable base totalSize s) (size : Nat) (r : State × Nat)
    (hr : mavalloc_alloc s size = .ok r) (hne : r.2 ≠ 0)
    (hfresh : ∀ j, Live s j → (s.LinkedList j).type = TYPE.P → (s.LinkedList j).arena ≠ r.2)
    (hcap : r.1.lastUsed + 1 < MAX_LINKED_LIST_SIZE) :
    ∃ s', mavalloc_free r.1 r.2 = .ok s'
      ∧ s'.LinkedList = s.LinkedList
      ∧ s'.lastUsed = s.lastUsed
      ∧ mavalloc_size s' = mavalloc_size s := by
  obtain ⟨n, hs, hn, hrg⟩ := reachable_range h
  have h4 : (4 : Int) ∣ toInt (ALIGN4 size) := by
    apply toInt_dvd4
    have := ALIGN4_dvd size
    omega
  rcases alloc_outcome hs size with h1 | h1 | h1
  · rw [h1.1] at hr
    cases hr
    exact absurd rfl hne
  · rw [h1.2.2] at hr
    cases hr
  · obtain ⟨k, _, _, hk, hf, h2 | h2⟩ := h1
    · rw [h2.2] at hr
      cases hr
      obtain ⟨s', e1, e2, e3⟩ := free_after_mark hs hn k hk hf.1 (usesCursor s.alg) hne
        (fun j hj hP => hfresh j ((shape_live_iff hs j).2 hj) hP)
      exact ⟨s', e1, e2, e3, mavalloc_size_list s s' e2⟩
    · rw [h2.2.2] at hr
      cases hr
      have hu : Shape (setCursor (usesCursor s.alg) (splitStep s (toInt (ALIGN4 size)) k)
          (s.LinkedList k).arena) (n + 1) :=
        shape_setCursor (shape_splitStep hs _ k hk h2.2.1 h4) _ _
      have hl := hu.last
      obtain ⟨s', e1, e2, e3⟩ := free_after_split hs hn hrg k hk hf.1 (usesCursor s.alg)
        (toInt (ALIGN4 size)) h4 h2.1 (by simp only [] at hcap; omega) hne
        (fun j hj hP => hfresh j ((shape_live_iff hs j).2 hj) hP)
      exact ⟨s', e1, e2, e3, mavalloc_size_list s s' e2⟩

/-- Witness of C11: `mavalloc_init(1024, FIRST_FIT)`, `mavalloc_alloc(100)`, then the free of
the returned pointer. -/
theorem alloc_free_round_trip_witness :
    ∃ s', mavalloc_free (stepAlloc exF0 100) (retAlloc exF0 100) = .ok s'
      ∧ s'.LinkedList = exF0.LinkedList
      ∧ s'.lastUsed = exF0.lastUsed
      ∧ mavalloc_size s' = mavalloc_size exF0 :=
  alloc_free_round_trip 4096 1024 exF0 reach_exF0 100
    (stepAlloc exF0 100, retAlloc exF0 100) (alloc_eq_step _ _ (by decide)) (by decide)
    (fun j hj hP => by
      have hj0 : j ≤ 0 := (reachable_live reach_exF0 0 (by decide) j).1 hj
      have e : j = 0 := by omega
      subst e
      revert hP
      decide)
    (by decide)

/-- Counterexample to C11 as stated. After `mavalloc_init(1024, FIRST_FIT)` and
`mavalloc_alloc(18446744073709551615)` the list holds an allocated region of size 0 and a hole
of 1024 bytes, both starting at 4096. `mavalloc_alloc(1024)` then succeeds and returns 4096,
the start of the hole; `mavalloc_free(4096)` frees both regions that start there and merges
them: one hole of 1024 bytes is left where two live entries were before the alloc. -/
theorem alloc_free_round_trip_counterexample :
    Reachable 4096 1024 (stepAlloc exF0 18446744073709551615)
      ∧ (stepAlloc exF0 18446744073709551615).lastUsed = 1
      ∧ ((stepAlloc exF0 18446744073709551615).LinkedList 0).type = TYPE.P
      ∧ mavalloc_alloc (stepAlloc exF0 18446744073709551615) 1024
          = .ok (stepAlloc (stepAlloc exF0 18446744073709551615) 1024,
              retAlloc (stepAlloc exF0 18446744073709551615) 1024)
      ∧ retAlloc (stepAlloc exF0 18446744073709551615) 1024 = 4096
      ∧ mavalloc_free (stepAlloc (stepAlloc exF0 18446744073709551615) 1024) 4096
          = .ok (stepFree (stepAlloc (stepAlloc exF0 18446744073709551615) 1024) 4096)
      ∧ (stepFree (stepAlloc (stepAlloc exF0 18446744073709551615) 1024) 4096).lastUsed = 0
      ∧ ((stepFree (stepAlloc (stepAlloc exF0 18446744073709551615) 1024) 4096).LinkedList 0)
          = { in_use := 1, size := 1024, arena := 4096, type := TYPE.H }
      ∧ ¬ Live (stepFree (stepAlloc (stepAlloc exF0 18446744073709551615) 1024) 4096) 1 :=
  ⟨reach_stepAlloc reach_exF0 _ (by decide), by decide, by decide,
    alloc_eq_step _ _ (by decide), by decide, free_eq_step _ _ (by decide), by decide,
    by decide, by decide⟩

/-- C16, as amended. Free merges exactly the neighbours: for every state reachable in an arena
of at most 2147483644 bytes and every live allocated region at index `i` whose start `p` is the
start of no other live allocated region, `mavalloc_free(p)` (when the region has no hole
neighbour, or fewer than `MAX_LINKED_LIST_SIZE` entries are live) returns and replaces that
region together with its immediately adjacent hole neighbours (index `i - 1` and/or `i + 1`,
if they are holes) by a single hole whose start is the first merged member's start and whose
size is the sum of the merged sizes; the live count drops by the number of adjacent hole
neighbours (0, 1 or 2); all other entries keep their start, size and kind and only shift
index to close the gap, so holes separated from the freed region by an allocated region are
not merged. -/
theorem free_merges_neighbours (base totalSize : Nat) (s : State)
    (h : Reachable base totalSize s) (hfit : totalSize ≤ 2147483644)
    (i : Nat) (hi : Live s i) (hP : (s.LinkedList i).type = TYPE.P)
    (huniq : ∀ j, Live s j → (s.LinkedList j).type = TYPE.P →
      (s.LinkedList j).arena = (s.LinkedList i).arena → j = i)
    (hcap : leftHole s i + rightHole s i = 0 ∨ s.lastUsed + 1 < MAX_LINKED_LIST_SIZE) :
    ∃ s', mavalloc_free s (s.LinkedList i).arena = .ok s'
      ∧ s'.lastUsed = s.lastUsed - ((leftHole s i + rightHole s i : Nat) : Int)
      ∧ mavalloc_size s' = mavalloc_size s - ((leftHole s i + rightHole s i : Nat) : Int)
      ∧ Live s' (i - leftHole s i)
      ∧ (s'.LinkedList (i - leftHole s i)).type = TYPE.H
      ∧ (s'.LinkedList (i - leftHole s i)).arena = (s.LinkedList (i - leftHole s i)).arena
      ∧ (s'.LinkedList (i - leftHole s i)).size = mergedSize s i
      ∧ (∀ j, j < i - leftHole s i → s'.LinkedList j = s.LinkedList j)
      ∧ (∀ j, i + rightHole s i < j → Live s j →
          s'.LinkedList (j - (leftHole s i + rightHole s i)) = s.LinkedList j) := by
  obtain ⟨n, hs, hn, hsane, hg⟩ := reachable_sane h hfit
  have hb := hs.bound
  have hlast := hs.last
  have hin : i ≤ n := (shape_live_iff hs i).1 hi
  have hne : (s.LinkedList i).arena ≠ 0 := by
    have h1 := hsane.lo i hin
    have h2 := hsane.base_ne
    omega
  have hm := markStep_free_list s n (s.LinkedList i).arena i hin rfl (by
    intro j hj hji ha
    cases hT : (s.LinkedList j).type with
    | H => rfl
    | P => exact absurd (huniq j ((shape_live_iff hs j).2 hj) hT ha) hji)
  have ht := shape_markStep_free hs (s.LinkedList i).arena
  have hfree := free_eq_coalesce hs (s.LinkedList i).arena hne
  generalize markStep_free s (s.LinkedList i).arena n = t at hm ht hfree
  obtain ⟨ti, tj⟩ := hm
  have tiH : (t.LinkedList i).type = TYPE.H := by rw [ti]
  have tiS : (t.LinkedList i).size = (s.LinkedList i).size := by rw [ti]
  have tiA : (t.LinkedList i).arena = (s.LinkedList i).arena := by rw [ti]
  have hpairs : ∀ j, j < n → (t.LinkedList j).type = TYPE.H →
      (t.LinkedList (j + 1)).type = TYPE.H →
      (j = i ∧ (s.LinkedList (i + 1)).type = TYPE.H)
        ∨ (j + 1 = i ∧ (s.LinkedList j).type = TYPE.H) := by
    intro j hj a1 a2
    by_cases c1 : j = i
    · left
      subst c1
      rw [tj (j + 1) (by omega)] at a2
      exact ⟨rfl, a2⟩
    · by_cases c2 : j + 1 = i
      · right
        rw [tj j c1] at a1
        exact ⟨c2, a1⟩
      · rw [tj j c1] at a1
        rw [tj (j + 1) c2] at a2
        exact absurd ⟨a1, a2⟩ (hn j hj)
  have htl := hsane.total_le
  by_cases cL : 0 < i ∧ (s.LinkedList (i - 1)).type = TYPE.H
  · have el : leftHole s i = 1 := by unfold leftHole; rw [if_pos cL]
    obtain ⟨k, rfl⟩ : ∃ k, i = k + 1 := ⟨i - 1, by omega⟩
    have hk1 : (s.LinkedList k).type = TYPE.H := cL.2
    have tk : t.LinkedList k = s.LinkedList k := tj k (by omega)
    have c1 := hsane.chain k (by omega)
    have n1 := hsane.nonneg k (by omega)
    have n2 := hsane.nonneg (k + 1) (by omega)
    have l1 := hsane.lo k (by omega)
    have u2 := hsane.hi (k + 1) (by omega)
    by_cases cR : Live s (k + 1 + 1) ∧ (s.LinkedList (k + 1 + 1)).type = TYPE.H
    · have er : rightHole s (k + 1) = 1 := by unfold rightHole; rw [if_pos cR]
      have hk2 : k + 1 + 1 ≤ n := (shape_live_iff hs (k + 1 + 1)).1 cR.1
      have hcap2 : n + 1 < MAX_LINKED_LIST_SIZE := by
        rcases hcap with c | c
        · rw [el, er] at c
          omega
        · omega
      have tk2 : t.LinkedList (k + 1 + 1) = s.LinkedList (k + 1 + 1) := tj (k + 1 + 1) (by omega)
      have hco := coalesce_two ht k (by omega) hcap2 (by rw [tk]; exact hk1) tiH
        (by rw [tk2]; exact cR.2)
        (by
          intro j hj a1 a2
          rcases hpairs j hj a1 a2 with c | c <;> omega)
      have ht1 := shape_removeStep ht k (by omega) hcap2
      have ht2 := shape_removeStep ht1 k (by omega) (by omega)
      have c2 := hsane.chain (k + 1) (by omega)
      have n3 := hsane.nonneg (k + 1 + 1) (by omega)
      have u3 := hsane.hi (k + 1 + 1) (by omega)
      have e1 : (removeStep (removeStep t k) k).LinkedList k
          = { s.LinkedList k with
              size := (s.LinkedList k).size + (s.LinkedList (k + 1)).size
                + (s.LinkedList (k + 1 + 1)).size } := by
        rw [removeStep_at, removeStep_gt t k (k + 1) n ht.last (by omega) (by omega),
          removeStep_at, tk, tiS, tk2]
        simp only []
        rw [toInt_toInt_add, toInt_of_range _ (by omega) (by omega)]
      rw [hco] at hfree
      unfold mergedSize
      rw [el, er]
      refine ⟨_, hfree, ?_, ?_, (shape_live_iff ht2 _).2 (by omega), ?_, ?_, ?_, ?_, ?_⟩
      · rw [ht2.last, hs.last]
        omega
      · rw [mavalloc_size_shape ht2, mavalloc_size_shape hs]
        omega
      · show ((removeStep (removeStep t k) k).LinkedList k).type = TYPE.H
        rw [e1]
        exact hk1
      · show ((removeStep (removeStep t k) k).LinkedList k).arena = (s.LinkedList k).arena
        rw [e1]
      · show ((removeStep (removeStep t k) k).LinkedList k).size
          = (s.LinkedList k).size + (s.LinkedList (k + 1)).size
            + (s.LinkedList (k + 1 + 1)).size
        rw [e1]
      · intro j hj
        have hjk : j < k := hj
        rw [removeStep_lt _ k j hjk, removeStep_lt t k j hjk, tj j (by omega)]
      · intro j hj hlj
        have hjn : j ≤ n := (shape_live_iff hs j).1 hlj
        obtain ⟨m, rfl⟩ : ∃ m, j = m + 1 + 1 := ⟨j - 2, by omega⟩
        show (removeStep (removeStep t k) k).LinkedList m = _
        rw [removeStep_gt _ k m (n - 1) ht1.last (by omega) (by omega),
          removeStep_gt t k (m + 1) n ht.last (by omega) (by omega), tj (m + 1 + 1) (by omega)]
    · have er : rightHole s (k + 1) = 0 := by unfold rightHole; rw [if_neg cR]
      have hcap2 : n + 1 < MAX_LINKED_LIST_SIZE := by
        rcases hcap with c | c
        · rw [el, er] at c
          omega
        · omega
      have hco := coalesce_one ht k (by omega) hcap2 (by rw [tk]; exact hk1) tiH
        (by
          intro j hj a1 a2
          rcases hpairs j hj a1 a2 with c | c
          · exfalso
            apply cR
            exact ⟨(shape_live_iff hs _).2 (by omega), c.2⟩
          · omega)
      have ht1 := shape_removeStep ht k (by omega) hcap2
      have e1 : (removeStep t k).LinkedList k
          = { s.LinkedList k with
              size := (s.LinkedList k).size + (s.LinkedList (k + 1)).size } := by
        rw [removeStep_at, tk, tiS, toInt_of_range _ (by omega) (by omega)]
      rw [hco] at hfree
      unfold mergedSize
      rw [el, er]
      refine ⟨_, hfree, ?_, ?_, (shape_live_iff ht1 _).2 (by omega), ?_, ?_, ?_, ?_, ?_⟩
      · rw [ht1.last, hs.last]
        omega
      · rw [mavalloc_size_shape ht1, mavalloc_size_shape hs]
        omega
      · show ((removeStep t k).LinkedList k).type = TYPE.H
        rw [e1]
        exact hk1
      · show ((removeStep t k).LinkedList k).arena = (s.LinkedList k).arena
        rw [e1]
      · show ((removeStep t k).LinkedList k).size
          = (s.LinkedList k).size + (s.LinkedList (k + 1)).size + 0
        rw [e1]
        simp
      · intro j hj
        have hjk : j < k := hj
        rw [removeStep_lt t k j hjk, tj j (by omega)]
      · intro j hj hlj
        have hjn : j ≤ n := (shape_live_iff hs j).1 hlj
        obtain ⟨m, rfl⟩ : ∃ m, j = m + 1 := ⟨j - 1, by omega⟩
        show (removeStep t k).LinkedList m = _
        rw [removeStep_gt t k m n ht.last (by omega) (by omega), tj (m + 1) (by omega)]
  · have el : leftHole s i = 0 := by unfold leftHole; rw [if_neg cL]
    have n1 := hsane.nonneg i hin
    by_cases cR : Live s (i + 1) ∧ (s.LinkedList (i + 1)).type = TYPE.H
    · have er : rightHole s i = 1 := by unfold rightHole; rw [if_pos cR]
      have hk2 : i + 1 ≤ n := (shape_live_iff hs (i + 1)).1 cR.1
      have hcap2 : n + 1 < MAX_LINKED_LIST_SIZE := by
        rcases hcap with c | c
        · rw [el, er] at c
          omega
        · omega
      have ti1 : t.LinkedList (i + 1) = s.LinkedList (i + 1) := tj (i + 1) (by omega)
      have hco := coalesce_one ht i (by omega) hcap2 tiH (by rw [ti1]; exact cR.2)
        (by
          intro j hj a1 a2
          rcases hpairs j hj a1 a2 with c | c
          · exact c.1
          · exfalso
            apply cL
            refine ⟨by omega, ?_⟩
            have e : i - 1 = j := by omega
            rw [e]
            exact c.2)
      have ht1 := shape_removeStep ht i (by omega) hcap2
      have c1 := hsane.chain i (by omega)
      have n2 := hsane.nonneg (i + 1) (by omega)
      have l1 := hsane.lo i (by omega)
      have u2 := hsane.hi (i + 1) (by omega)
      have e1 : (removeStep t i).LinkedList i
          = { s.LinkedList i with
              type := TYPE.H,
              size := (s.LinkedList i).size + (s.LinkedList (i + 1)).size } := by
        rw [removeStep_at, ti1, ti]
        simp only []
        rw [toInt_of_range _ (by omega) (by omega)]
      rw [hco] at hfree
      unfold mergedSize
      rw [el, er]
      refine ⟨_, hfree, ?_, ?_, (shape_live_iff ht1 _).2 (by omega), ?_, ?_, ?_, ?_, ?_⟩
      · rw [ht1.last, hs.last]
        omega
      · rw [mavalloc_size_shape ht1, mavalloc_size_shape hs]
        omega
      · show ((removeStep t i).LinkedList i).type = TYPE.H
        rw [e1]
      · show ((removeStep t i).LinkedList i).arena = (s.LinkedList i).arena
        rw [e1]
      · show ((removeStep t i).LinkedList i).size
          = 0 + (s.LinkedList i).size + (s.LinkedList (i + 1)).size
        rw [e1]
        simp
      · intro j hj
        have hjk : j < i := hj
        rw [removeStep_lt t i j hjk, tj j (by omega)]
      · intro j hj hlj
        have hjn : j ≤ n := (shape_live_iff hs j).1 hlj
        obtain ⟨m, rfl⟩ : ∃ m, j = m + 1 := ⟨j - 1, by omega⟩
        show (removeStep t i).LinkedList m = _
        rw [removeStep_gt t i m n ht.last (by omega) (by omega), tj (m + 1) (by omega)]
    · have er : rightHole s i = 0 := by unfold rightHole; rw [if_neg cR]
      have hnt : NoAdj t n := by
        intro j hj hc
        rcases hpairs j hj hc.1 hc.2 with c | c
        · apply cR
          exact ⟨(shape_live_iff hs _).2 (by omega), c.2⟩
        · apply cL
          refine ⟨by omega, ?_⟩
          have e : i - 1 = j := by omega
          rw [e]
          exact c.2
      rw [freeCoalesce_noop ht hnt _ 0 (by omega)] at hfree
      unfold mergedSize
      rw [el, er]
      refine ⟨_, hfree, ?_, ?_, (shape_live_iff ht _).2 hin, tiH, tiA, ?_, ?_, ?_⟩
      · rw [ht.last, hs.last]
        simp
      · rw [mavalloc_size_shape ht, mavalloc_size_shape hs]
        simp
      · show (t.LinkedList i).size = 0 + (s.LinkedList i).size + 0
        rw [tiS]
        simp
      · intro j hj
        have hjk : j < i := hj
        exact tj j (by omega)
      · intro j hj hlj
        exact tj j (by omega)

/-- Witness of C16: in the BEST_FIT example run with holes of 52, 32 and 100 bytes, the
allocation of 8 bytes at 4148 lies between the first two holes; freeing it leaves one hole of
92 bytes at 4096 and two entries fewer. -/
theorem free_merges_neighbours_witness :
    leftHole exB3 1 = 1 ∧ rightHole exB3 1 = 1 ∧ mergedSize exB3 1 = 92
    ∧ (exB3.LinkedList 1).arena = 4148 ∧ exB3.lastUsed = 4
    ∧ ∃ s', mavalloc_free exB3 (exB3.LinkedList 1).arena = .ok s'
      ∧ s'.lastUsed = exB3.lastUsed - ((leftHole exB3 1 + rightHole exB3 1 : Nat) : Int)
      ∧ mavalloc_size s'
          = mavalloc_size exB3 - ((leftHole exB3 1 + rightHole exB3 1 : Nat) : Int)
      ∧ Live s' (1 - leftHole exB3 1)
      ∧ (s'.LinkedList (1 - leftHole exB3 1)).type = TYPE.H
      ∧ (s'.LinkedList (1 - leftHole exB3 1)).arena
          = (exB3.LinkedList (1 - leftHole exB3 1)).arena
      ∧ (s'.LinkedList (1 - leftHole exB3 1)).size = mergedSize exB3 1
      ∧ (∀ j, j < 1 - leftHole exB3 1 → s'.LinkedList j = exB3.LinkedList j)
      ∧ (∀ j, 1 + rightHole exB3 1 < j → Live exB3 j →
          s'.LinkedList (j - (leftHole exB3 1 + rightHole exB3 1)) = exB3.LinkedList j) :=
  ⟨by decide, by decide, by decide, by decide, by decide,
    free_merges_neighbours 4096 200 exB3 reach_exB3 (by decide) 1 (by decide) (by decide)
      (fun j hj => by
        have hj4 : j ≤ 4 := (reachable_live reach_exB3 4 (by decide) j).1 hj
        interval_cases j <;> decide)
      (Or.inr (by decide))⟩

/-- Counterexample to C16 as stated. First run: after `mavalloc_init(1024, FIRST_FIT)`,
`mavalloc_alloc(18446744073709551615)` and `mavalloc_alloc(8)` the list is an allocation of
size 0 at 4096, an allocation of 8 bytes at 4096 and a hole of 1016 bytes at 4104; the region
at index 1 has one hole neighbour, yet `mavalloc_free(4096)` frees both allocations and leaves
a single hole of 1024 bytes: the count drops by 2 and the allocated entry 0 is gone. Second
run: after `mavalloc_init(2147483648, FIRST_FIT)` and `mavalloc_alloc(2147483644)` the list is
an allocation of 2147483644 bytes and a hole of 4 bytes; freeing the allocation merges them
into a hole whose `int` size is -2147483648, not the sum 2147483648. -/
theorem free_merges_neighbours_counterexample :
    (Reachable 4096 1024 (stepAlloc (stepAlloc exF0 18446744073709551615) 8)
      ∧ (stepAlloc (stepAlloc exF0 18446744073709551615) 8).lastUsed = 2
      ∧ (stepAlloc (stepAlloc exF0 18446744073709551615) 8).LinkedList 0
          = { in_use := 1, size := 0, arena := 4096, type := TYPE.P }
      ∧ (stepAlloc (stepAlloc exF0 18446744073709551615) 8).LinkedList 1
          = { in_use := 1, size := 8, arena := 4096, type := TYPE.P }
      ∧ (stepAlloc (stepAlloc exF0 18446744073709551615) 8).LinkedList 2
          = { in_use := 1, size := 1016, arena := 4104, type := TYPE.H }
      ∧ leftHole (stepAlloc (stepAlloc exF0 18446744073709551615) 8) 1 = 0
      ∧ rightHole (stepAlloc (stepAlloc exF0 18446744073709551615) 8) 1 = 1
      ∧ mavalloc_free (stepAlloc (stepAlloc exF0 18446744073709551615) 8) 4096
          = .ok (stepFree (stepAlloc (stepAlloc exF0 18446744073709551615) 8) 4096)
      ∧ (stepFree (stepAlloc (stepAlloc exF0 18446744073709551615) 8) 4096).lastUsed = 0
      ∧ (stepFree (stepAlloc (stepAlloc exF0 18446744073709551615) 8) 4096).LinkedList 0
          = { in_use := 1, size := 1024, arena := 4096, type := TYPE.H })
    ∧ (Reachable 140000000000000 2147483648 (stepAlloc exHuge 2147483644)
      ∧ (stepAlloc exHuge 2147483644).lastUsed = 1
      ∧ (stepAlloc exHuge 2147483644).LinkedList 0
          = { in_use := 1, size := 2147483644, arena := 140000000000000, type := TYPE.P }
      ∧ (stepAlloc exHuge 2147483644).LinkedList 1
          = { in_use := 1, size := 4, arena := 140002147483644, type := TYPE.H }
      ∧ leftHole (stepAlloc exHuge 2147483644) 0 = 0
      ∧ rightHole (stepAlloc exHuge 2147483644) 0 = 1
      ∧ mergedSize (stepAlloc exHuge 2147483644) 0 = 2147483648
      ∧ mavalloc_free (stepAlloc exHuge 2147483644) 140000000000000
          = .ok (stepFree (stepAlloc exHuge 2147483644) 140000000000000)
      ∧ (stepFree (stepAlloc exHuge 2147483644) 140000000000000).lastUsed = 0
      ∧ (stepFree (stepAlloc exHuge 2147483644) 140000000000000).LinkedList 0
          = { in_use := 1, size := -2147483648, arena := 140000000000000, type := TYPE.H }) :=
  ⟨⟨reach_stepAlloc (reach_stepAlloc reach_exF0 _ (by decide)) _ (by decide), by decide,
      by decide, by decide, by decide, by decide, by decide, free_eq_step _ _ (by decide),
      by decide, by decide⟩,
    reach_stepAlloc
      (Reachable.init State.start ALGORITHM.FIRST_FIT (by decide) (by decide) (by decide)
        (by decide) (by decide)) _ (by decide),
    by decide, by decide, by decide, by decide, by decide, by decide,
    free_eq_step _ _ (by decide), by decide, by decide⟩

/-- C3, as amended. First-fit: in a FIRST_FIT state reached from an arena of at most
2147483644 bytes (so that every size fits the `int` field), for every request `size > 0` for
which some live hole has size at least the 4-aligned request, there is a lowest-index such
hole `k`; whenever `mavalloc_alloc(size)` returns, the pointer returned is the start of hole
`k` and entry `k` is then the allocated region of the aligned size at that start; and the call
returns whenever fewer than `MAX_LINKED_LIST_SIZE` entries are live. -/
theorem first_fit_lowest_index (base totalSize : Nat) (s : State)
    (h : Reachable base totalSize s) (hfit : totalSize ≤ 2147483644)
    (halg : s.alg = ALGORITHM.FIRST_FIT) (size : Nat) (hpos : 0 < size)
    (hex : ∃ i, Live s i ∧ Qualifies (s.LinkedList i) (ALIGN4 size)) :
    ∃ k, Live s k ∧ Qualifies (s.LinkedList k) (ALIGN4 size)
      ∧ (∀ j, j < k → ¬ Qualifies (s.LinkedList j) (ALIGN4 size))
      ∧ (∀ r, mavalloc_alloc s size = .ok r →
          r.2 = (s.LinkedList k).arena ∧ Live r.1 k ∧ (r.1.LinkedList k).type = TYPE.P
          ∧ (r.1.LinkedList k).arena = (s.LinkedList k).arena
          ∧ (r.1.LinkedList k).size = (ALIGN4 size : Int))
      ∧ (s.lastUsed + 1 < MAX_LINKED_LIST_SIZE → ∃ r, mavalloc_alloc s size = .ok r) := by
  obtain ⟨n, hs, _, hsane, _⟩ := reachable_sane h hfit
  obtain ⟨i, hi1, hi2⟩ := hex
  have hin := (shape_live_iff hs i).1 hi1
  obtain ⟨k, k1, k2, k3, k4, k5⟩ := first_fit_scan_choice base totalSize s h halg size hpos
    ⟨i, hi1, (sane_qualifies hsane i hin _).2 hi2⟩
  have hkn := (shape_live_iff hs k).1 k1
  refine ⟨k, k1, (sane_qualifies hsane k hkn _).1 k2,
    fun j hj hq => k3 j hj ((sane_qualifies hsane j (by omega) _).2 hq), ?_, k5⟩
  intro r hr
  obtain ⟨a1, a2, a3, a4, a5⟩ := k4 r hr
  refine ⟨a1, a2, a3, a4, ?_⟩
  rw [a5]
  exact (sane_fits hsane k hkn _ k2).2

/-- Witness of C3: a request of 80 bytes in the FIRST_FIT example run, whose first hole has
100 bytes. -/
theorem first_fit_lowest_index_witness :
    ∃ k, Live exF1 k ∧ Qualifies (exF1.LinkedList k) (ALIGN4 80)
      ∧ (∀ j, j < k → ¬ Qualifies (exF1.LinkedList j) (ALIGN4 80))
      ∧ (∀ r, mavalloc_alloc exF1 80 = .ok r →
          r.2 = (exF1.LinkedList k).arena ∧ Live r.1 k ∧ (r.1.LinkedList k).type = TYPE.P
          ∧ (r.1.LinkedList k).arena = (exF1.LinkedList k).arena
          ∧ (r.1.LinkedList k).size = (ALIGN4 80 : Int))
      ∧ (exF1.lastUsed + 1 < MAX_LINKED_LIST_SIZE → ∃ r, mavalloc_alloc exF1 80 = .ok r) :=
  first_fit_lowest_index 4096 1024 exF1 reach_exF1 (by decide) (by decide) 80 (by decide)
    ⟨0, by decide, by decide⟩

/-- Counterexample to C3 as stated, in an arena of 4294967292 bytes under FIRST_FIT. After
`mavalloc_alloc(2147483648)`, `mavalloc_alloc(8)` and the free of the first allocation, the
live entries are a hole of `int` size -2147483648, the allocation of 8 bytes and a hole of
2147483636 bytes. The lowest-index hole of size at least 16 is the one at index 2, yet
`mavalloc_alloc(16)` returns the start of the hole at index 0, whose size is compared as a
`size_t`, and carves the allocation there. -/
theorem first_fit_lowest_index_counterexample :
    Reachable 140000000000000 4294967292 exFHuge1
      ∧ exFHuge1.alg = ALGORITHM.FIRST_FIT ∧ exFHuge1.lastUsed = 2
      ∧ exFHuge1.LinkedList 0
          = { in_use := 1, size := -2147483648, arena := 140000000000000, type := TYPE.H }
      ∧ exFHuge1.LinkedList 1
          = { in_use := 1, size := 8, arena := 139997852516352, type := TYPE.P }
      ∧ exFHuge1.LinkedList 2
          = { in_use := 1, size := 2147483636, arena := 139997852516360, type := TYPE.H }
      ∧ ¬ Qualifies (exFHuge1.LinkedList 0) (ALIGN4 16)
      ∧ ¬ Qualifies (exFHuge1.LinkedList 1) (ALIGN4 16)
      ∧ Live exFHuge1 2 ∧ Qualifies (exFHuge1.LinkedList 2) (ALIGN4 16)
      ∧ mavalloc_alloc exFHuge1 16 = .ok (stepAlloc exFHuge1 16, retAlloc exFHuge1 16)
      ∧ retAlloc exFHuge1 16 = 140000000000000
      ∧ ((stepAlloc exFHuge1 16).LinkedList 0).type = TYPE.P
      ∧ (stepAlloc exFHuge1 16).LinkedList 3 = exFHuge1.LinkedList 2 :=
  ⟨reach_exFHuge1, by decide, by decide, by decide, by decide, by decide, by decide, by decide,
    by decide, by decide, alloc_eq_step _ _ (by decide), by decide, by decide, by decide⟩

/-- C4, as amended. Best-fit: in a BEST_FIT state reached from an arena of at most 2147483644
bytes (so that every size fits the `int` field), for every request `size > 0` for which some
live hole qualifies, there is a qualifying live hole `k` whose leftover (hole size minus
aligned request) is minimal, and which has the lowest index among the holes of that leftover;
whenever `mavalloc_alloc(size)` returns, the pointer returned is the start of hole `k`, which
is then the allocated region; the call returns whenever fewer than `MAX_LINKED_LIST_SIZE`
entries are live. -/
theorem best_fit_minimal_leftover (base totalSize : Nat) (s : State)
    (h : Reachable base totalSize s) (hfit : totalSize ≤ 2147483644)
    (halg : s.alg = ALGORITHM.BEST_FIT) (size : Nat) (hpos : 0 < size)
    (hex : ∃ i, Live s i ∧ Qualifies (s.LinkedList i) (ALIGN4 size)) :
    ∃ k, Live s k ∧ Qualifies (s.LinkedList k) (ALIGN4 size)
      ∧ (∀ j, Live s j → Qualifies (s.LinkedList j) (ALIGN4 size) →
          (s.LinkedList k).size - (ALIGN4 size : Int)
            ≤ (s.LinkedList j).size - (ALIGN4 size : Int))
      ∧ (∀ j, Live s j → Qualifies (s.LinkedList j) (ALIGN4 size) →
          (s.LinkedList j).size - (ALIGN4 size : Int)
            = (s.LinkedList k).size - (ALIGN4 size : Int) → k ≤ j)
      ∧ (∀ r, mavalloc_alloc s size = .ok r →
          r.2 = (s.LinkedList k).arena ∧ Live r.1 k ∧ (r.1.LinkedList k).type = TYPE.P
          ∧ (r.1.LinkedList k).arena = (s.LinkedList k).arena
          ∧ (r.1.LinkedList k).size = (ALIGN4 size : Int))
      ∧ (s.lastUsed + 1 < MAX_LINKED_LIST_SIZE → ∃ r, mavalloc_alloc s size = .ok r) := by
  obtain ⟨n, hs, _, hsane, _⟩ := reachable_sane h hfit
  obtain ⟨i, hi1, hi2⟩ := hex
  have hin := (shape_live_iff hs i).1 hi1
  obtain ⟨k, k1, k2, k3, k4, k5, k6, k7⟩ := best_fit_scan_choice base totalSize s h halg size
    hpos ⟨i, hi1, (sane_qualifies hsane i hin _).2 hi2⟩
  have hkn := (shape_live_iff hs k).1 k1
  have hf : ∀ j, Live s j → Qualifies (s.LinkedList j) (ALIGN4 size) →
      fits (s.LinkedList j) (ALIGN4 size) :=
    fun j hj hq => (sane_qualifies hsane j ((shape_live_iff hs j).1 hj) _).2 hq
  refine ⟨k, k1, (sane_qualifies hsane k hkn _).1 k2, ?_, ?_, ?_, k6⟩
  · intro j hj hq
    have := k3 j hj (hf j hj hq)
    rw [k7 hfit j hj (hf j hj hq), k7 hfit k k1 k2] at this
    exact this
  · intro j hj hq he
    apply k4 j hj (hf j hj hq)
    rw [k7 hfit j hj (hf j hj hq), k7 hfit k k1 k2]
    exact he
  · intro r hr
    obtain ⟨a1, a2, a3, a4, a5⟩ := k5 r hr
    refine ⟨a1, a2, a3, a4, ?_⟩
    rw [a5]
    exact (sane_fits hsane k hkn _ k2).2

/-- Witness of C4: a request of 20 bytes in the BEST_FIT example run with holes of 52, 32 and
100 bytes. -/
theorem best_fit_minimal_leftover_witness :
    ∃ k, Live exB3 k ∧ Qualifies (exB3.LinkedList k) (ALIGN4 20)
      ∧ (∀ j, Live exB3 j → Qualifies (exB3.LinkedList j) (ALIGN4 20) →
          (exB3.LinkedList k).size - (ALIGN4 20 : Int)
            ≤ (exB3.LinkedList j).size - (ALIGN4 20 : Int))
      ∧ (∀ j, Live exB3 j → Qualifies (exB3.LinkedList j) (ALIGN4 20) →
          (exB3.LinkedList j).size - (ALIGN4 20 : Int)
            = (exB3.LinkedList k).size - (ALIGN4 20 : Int) → k ≤ j)
      ∧ (∀ r, mavalloc_alloc exB3 20 = .ok r →
          r.2 = (exB3.LinkedList k).arena ∧ Live r.1 k ∧ (r.1.LinkedList k).type = TYPE.P
          ∧ (r.1.LinkedList k).arena = (exB3.LinkedList k).arena
          ∧ (r.1.LinkedList k).size = (ALIGN4 20 : Int))
      ∧ (exB3.lastUsed + 1 < MAX_LINKED_LIST_SIZE → ∃ r, mavalloc_alloc exB3 20 = .ok r) :=
  best_fit_minimal_leftover 4096 200 exB3 reach_exB3 (by decide) (by decide) 20 (by decide)
    ⟨0, by decide, by decide⟩

/-- Counterexample to C4 as stated, in an arena of 4294967292 bytes under BEST_FIT. After
`mavalloc_alloc(3221225472)`, `mavalloc_alloc(8)` and the free of the first allocation, the
live entries are a hole of `int` size -1073741824, the allocation of 8 bytes and a hole of
1073741812 bytes. The only hole of size at least 16 is the one at index 2, yet the scan of
`mavalloc_alloc(16)` ends with `idx = 0`, the leftover it computes for index 0 being the `int`
-1073741840, and the call returns the start of the hole at index 0. -/
theorem best_fit_minimal_leftover_counterexample :
    Reachable 140000000000000 4294967292 exBHuge1
      ∧ exBHuge1.alg = ALGORITHM.BEST_FIT ∧ exBHuge1.lastUsed = 2
      ∧ exBHuge1.LinkedList 0
          = { in_use := 1, size := -1073741824, arena := 140000000000000, type := TYPE.H }
      ∧ exBHuge1.LinkedList 1
          = { in_use := 1, size := 8, arena := 139998926258176, type := TYPE.P }
      ∧ exBHuge1.LinkedList 2
          = { in_use := 1, size := 1073741812, arena := 139998926258184, type := TYPE.H }
      ∧ ¬ Qualifies (exBHuge1.LinkedList 0) (ALIGN4 16)
      ∧ ¬ Qualifies (exBHuge1.LinkedList 1) (ALIGN4 16)
      ∧ Live exBHuge1 2 ∧ Qualifies (exBHuge1.LinkedList 2) (ALIGN4 16)
      ∧ leftoverOf (exBHuge1.LinkedList 0) (ALIGN4 16) = -1073741840
      ∧ leftoverOf (exBHuge1.LinkedList 2) (ALIGN4 16) = 1073741796
      ∧ bestFitScan exBHuge1.LinkedList (ALIGN4 16) MAX_LINKED_LIST_SIZE 0 (-1) INT_MAX = 0
      ∧ mavalloc_alloc exBHuge1 16 = .ok (stepAlloc exBHuge1 16, retAlloc exBHuge1 16)
      ∧ retAlloc exBHuge1 16 = 140000000000000
      ∧ ((stepAlloc exBHuge1 16).LinkedList 0).type = TYPE.P
      ∧ (stepAlloc exBHuge1 16).LinkedList 3 = exBHuge1.LinkedList 2 :=
  ⟨reach_exBHuge1, by decide, by decide, by decide, by decide, by decide, by decide, by decide,
    by decide, by decide, by decide, by decide, by decide, alloc_eq_step _ _ (by decide),
    by decide, by decide, by decide⟩

/-- C6, as amended. Next-fit: in a NEXT_FIT state reached from an arena of at most 2147483644
bytes (so that every size fits the `int` field), let `c` be the last live index whose start is
the `lastAlloc` cursor, or `-1` if no live entry starts there (as on the first call after
init). For every request `size > 0` for which some live hole qualifies, there is a first
qualifying hole `k` in the cyclic order `c + 1, ..., last live index, 0, ..., c`; when
`c = -1` it is the lowest-index qualifying hole, the choice of the first-fit scan; whenever
`mavalloc_alloc(size)` returns, the pointer returned is the start of hole `k`, which is then
the allocated region; the call returns whenever fewer than `MAX_LINKED_LIST_SIZE` entries are
live. -/
theorem next_fit_cyclic_order (base totalSize : Nat) (s : State)
    (h : Reachable base totalSize s) (hfit : totalSize ≤ 2147483644)
    (halg : s.alg = ALGORITHM.NEXT_FIT)
    (c : Int) (hc : IsCursor s c) (size : Nat) (hpos : 0 < size)
    (hex : ∃ i, Live s i ∧ Qualifies (s.LinkedList i) (ALIGN4 size)) :
    ∃ k, Live s k ∧ CyclicFirstHole s c k (ALIGN4 size)
      ∧ (c = -1 →
          (∀ j, j < k → ¬ Qualifies (s.LinkedList j) (ALIGN4 size))
          ∧ firstFitScan s.LinkedList (ALIGN4 size) MAX_LINKED_LIST_SIZE 0 = some k)
      ∧ (∀ r, mavalloc_alloc s size = .ok r →
          r.2 = (s.LinkedList k).arena ∧ Live r.1 k ∧ (r.1.LinkedList k).type = TYPE.P
          ∧ (r.1.LinkedList k).arena = (s.LinkedList k).arena
          ∧ (r.1.LinkedList k).size = (ALIGN4 size : Int))
      ∧ (s.lastUsed + 1 < MAX_LINKED_LIST_SIZE → ∃ r, mavalloc_alloc s size = .ok r) := by
  obtain ⟨n, hs, _, hsane, _⟩ := reachable_sane h hfit
  obtain ⟨i, hi1, hi2⟩ := hex
  have hin := (shape_live_iff hs i).1 hi1
  obtain ⟨k, k1, k2, k3, k4, k5⟩ := next_fit_scan_choice base totalSize s h halg c hc size hpos
    ⟨i, hi1, (sane_qualifies hsane i hin _).2 hi2⟩
  have hkn := (shape_live_iff hs k).1 k1
  have hnq : ∀ j, j ≤ n → ¬ fits (s.LinkedList j) (ALIGN4 size) →
      ¬ Qualifies (s.LinkedList j) (ALIGN4 size) :=
    fun j hj hnf hq => hnf ((sane_qualifies hsane j hj _).2 hq)
  have hcyc : CyclicFirstHole s c k (ALIGN4 size) := by
    refine ⟨(sane_qualifies hsane k hkn _).1 k2.1, ?_⟩
    rcases k2.2 with h1 | h1
    · left
      exact ⟨h1.1, fun j hj1 hj2 => hnq j (by omega) (h1.2 j hj1 hj2)⟩
    · right
      exact ⟨h1.1, fun j hj hcj => hnq j ((shape_live_iff hs j).1 hj) (h1.2.1 j hj hcj),
        fun j hj => hnq j (by omega) (h1.2.2 j hj)⟩
  refine ⟨k, k1, hcyc, ?_, ?_, k5⟩
  · intro hneg
    refine ⟨?_, k3 hneg⟩
    intro j hj
    rcases hcyc.2 with h1 | h1
    · exact h1.2 j (by omega) hj
    · omega
  · intro r hr
    obtain ⟨a1, a2, a3, a4, a5⟩ := k4 r hr
    refine ⟨a1, a2, a3, a4, ?_⟩
    rw [a5]
    exact (sane_fits hsane k hkn _ k2.1).2

/-- Witness of C6: the scenario `init(300)`, `alloc(50)`, `alloc(50)`, `free(first)`,
`alloc(40)`; the cursor stands on index 1, the second allocation. -/
theorem next_fit_cyclic_order_witness :
    ∃ k, Live exN1 k ∧ CyclicFirstHole exN1 1 k (ALIGN4 40)
      ∧ ((1 : Int) = -1 →
          (∀ j, j < k → ¬ Qualifies (exN1.LinkedList j) (ALIGN4 40))
          ∧ firstFitScan exN1.LinkedList (ALIGN4 40) MAX_LINKED_LIST_SIZE 0 = some k)
      ∧ (∀ r, mavalloc_alloc exN1 40 = .ok r →
          r.2 = (exN1.LinkedList k).arena ∧ Live r.1 k ∧ (r.1.LinkedList k).type = TYPE.P
          ∧ (r.1.LinkedList k).arena = (exN1.LinkedList k).arena
          ∧ (r.1.LinkedList k).size = (ALIGN4 40 : Int))
      ∧ (exN1.lastUsed + 1 < MAX_LINKED_LIST_SIZE → ∃ r, mavalloc_alloc exN1 40 = .ok r) :=
  next_fit_cyclic_order 4096 300 exN1 reach_exN1 (by decide) (by decide) 1
    (Or.inr ⟨1, rfl, by decide, by decide, fun i hl hlt => by
      have hi := (reachable_live reach_exN1 2 (by decide) i).1 hl
      have : i = 2 := by omega
      subst this
      decide⟩)
    40 (by decide) ⟨2, by decide, by decide⟩

/-- Counterexample to C6 as stated, in an arena of 4294967292 bytes under NEXT_FIT. After
`mavalloc_alloc(2147483648)`, `mavalloc_alloc(8)` and the free of the first allocation, the
live entries are a hole of `int` size -2147483648, the allocation of 8 bytes, on which the
cursor stands, and a hole of 2147483636 bytes. No live hole has size at least 2147483640, yet
`mavalloc_alloc(2147483640)` passes the hole at index 2 and, wrapping around, returns the
start of the hole at index 0, whose size is compared as a `size_t`. -/
theorem next_fit_cyclic_order_counterexample :
    Reachable 140000000000000 4294967292 exNHuge1
      ∧ exNHuge1.alg = ALGORITHM.NEXT_FIT ∧ exNHuge1.lastUsed = 2
      ∧ exNHuge1.LinkedList 0
          = { in_use := 1, size := -2147483648, arena := 140000000000000, type := TYPE.H }
      ∧ exNHuge1.LinkedList 1
          = { in_use := 1, size := 8, arena := 139997852516352, type := TYPE.P }
      ∧ exNHuge1.LinkedList 2
          = { in_use := 1, size := 2147483636, arena := 139997852516360, type := TYPE.H }
      ∧ exNHuge1.lastAlloc = 139997852516352
      ∧ ¬ Live exNHuge1 3
      ∧ ¬ Qualifies (exNHuge1.LinkedList 0) (ALIGN4 2147483640)
      ∧ ¬ Qualifies (exNHuge1.LinkedList 1) (ALIGN4 2147483640)
      ∧ ¬ Qualifies (exNHuge1.LinkedList 2) (ALIGN4 2147483640)
      ∧ mavalloc_alloc exNHuge1 2147483640
          = .ok (stepAlloc exNHuge1 2147483640, retAlloc exNHuge1 2147483640)
      ∧ retAlloc exNHuge1 2147483640 = 140000000000000
      ∧ (stepAlloc exNHuge1 2147483640).LinkedList 0
          = { in_use := 1, size := 2147483640, arena := 140000000000000, type := TYPE.P } :=
  ⟨reach_exNHuge1, by decide, by decide, by decide, by decide, by decide, by decide, by decide,
    by decide, by decide, by decide, alloc_eq_step _ _ (by decide), by decide, by decide⟩

/-- C9. Failure atomicity of alloc: in every state that is uninitialized or reachable from
`mavalloc_init` by alloc/free calls, in an arena of any size, and for every size, if the size
is 0, or the allocator is uninitialized, or no live entry passes the test of the scan against
the aligned request, or the scan of the active strategy selects no entry, then whenever
`mavalloc_alloc(size)` returns it returns `NULL` and the state after the call is the state
before it: the region list, the live count and the next-fit cursor are unchanged; and the call
returns whenever the size is 0, the allocator is uninitialized, fewer than
`MAX_LINKED_LIST_SIZE` entries are live, or the scan has selected no entry. -/
theorem alloc_failure_atomic (s : State) (size : Nat)
    (h : s.initialized = 0 ∨ ∃ base totalSize, Reachable base totalSize s)
    (hcause : size = 0 ∨ s.initialized = 0
      ∨ (¬ ∃ i, Live s i ∧ fits (s.LinkedList i) (ALIGN4 size))
      ∨ selectHole s (ALIGN4 size) = .ok none) :
    (∀ r, mavalloc_alloc s size = .ok r → r = (s, 0))
    ∧ ((size = 0 ∨ s.initialized = 0 ∨ s.lastUsed + 1 < MAX_LINKED_LIST_SIZE
          ∨ selectHole s (ALIGN4 size) = .ok none) →
        mavalloc_alloc s size = .ok (s, 0)) := by
  have key : (s.lastUsed + 1 < MAX_LINKED_LIST_SIZE ∨ selectHole s (ALIGN4 size) = .ok none →
        mavalloc_alloc s size = .ok (s, 0))
      ∧ (mavalloc_alloc s size = .ok (s, 0)
          ∨ mavalloc_alloc s size = .error Fault.outOfBounds) := by
    by_cases h0 : size = 0
    · have e : mavalloc_alloc s size = .ok (s, 0) := by rw [mavalloc_alloc, if_pos h0]
      exact ⟨fun _ => e, Or.inl e⟩
    · by_cases hu : s.initialized = 0
      · exact ⟨fun _ => alloc_uninit s size hu, Or.inl (alloc_uninit s size hu)⟩
      · have hreach : ∃ base totalSize, Reachable base totalSize s := by
          rcases h with h | h
          · exact absurd h hu
          · exact h
        obtain ⟨base, totalSize, hreach⟩ := hreach
        obtain ⟨n, hs, _⟩ := reachable_shape hreach
        have hlast := hs.last
        have heq := mavalloc_alloc_eq s size h0 hu
        have hnofit : (¬ ∃ i, Live s i ∧ fits (s.LinkedList i) (ALIGN4 size))
            ∨ selectHole s (ALIGN4 size) = .ok none := by
          rcases hcause with c | c | c | c
          · exact absurd c h0
          · exact absurd c hu
          · exact Or.inl c
          · exact Or.inr c
        cases e : selectHole s (ALIGN4 size) with
        | error f =>
          obtain ⟨e1, e2, _⟩ := selectHole_error hs _ f e
          rw [e] at heq
          simp only [] at heq
          subst e2
          refine ⟨fun hc => ?_, Or.inr heq⟩
          rcases hc with hc | hc
          · omega
          · cases hc
        | ok o =>
          cases o with
          | none =>
            rw [e] at heq
            simp only [] at heq
            exact ⟨fun _ => heq, Or.inl heq⟩
          | some k =>
            exfalso
            rcases hnofit with c | c
            · obtain ⟨k1, k2⟩ := selectHole_some hs _ k e
              exact c ⟨k, (shape_live_iff hs k).2 k1, k2⟩
            · rw [e] at c
              cases c
  constructor
  · intro r hr
    rcases key.2 with e | e
    · rw [e] at hr
      cases hr
      rfl
    · rw [e] at hr
      cases hr
  · intro hc
    rcases hc with c | c | c | c
    · rw [mavalloc_alloc, if_pos c]
    · exact alloc_uninit s size c
    · exact key.1 (Or.inl c)
    · exact key.1 (Or.inr c)

/-- Witness of C9: the failing request of 150 bytes in the BEST_FIT example run, whose holes
have 52, 32 and 100 bytes. -/
theorem alloc_failure_atomic_witness :
    (∀ r, mavalloc_alloc exB3 150 = .ok r → r = (exB3, 0))
    ∧ ((150 = 0 ∨ exB3.initialized = 0 ∨ exB3.lastUsed + 1 < MAX_LINKED_LIST_SIZE
          ∨ selectHole exB3 (ALIGN4 150) = .ok none) →
        mavalloc_alloc exB3 150 = .ok (exB3, 0)) :=
  alloc_failure_atomic exB3 150 (Or.inr ⟨4096, 200, reach_exB3⟩)
    (Or.inr (Or.inr (Or.inl (fun hex => by
      obtain ⟨i, hl, hf⟩ := hex
      have hi := (reachable_live reach_exB3 4 (by decide) i).1 hl
      interval_cases i <;> revert hf <;> decide))))

end Mavalloc
